import Mathlib

/-!
Shallow embedding of the `bitmap_io` BMP codec (Rust sources `src/lib.rs`,
`src/bitmap_read.rs`, `src/bitmap_write.rs`) and proofs about the frozen
claims C1..C10.

Modelling conventions, used throughout:

* Machine integers (`u8`, `u16`, `u32`, `i32`, `usize`) are modelled as `ℕ`,
  with an explicit `% 2^w` exactly where the Rust code can overflow or
  truncate (`as u8` casts, shifts of `u32`/`u16` words).  `i32` header
  fields are modelled by their two's-complement bit pattern as a `ℕ`;
  the only place the sign is interpreted — the negative-height test in
  `BitmapInfoHeader::from_data` — is modelled by comparing against `2^31`.
* Byte buffers are `List ℕ`; a byte list produced by the encoder always has
  entries `< 256`.  The sequential `BytesWalker` of the source is modelled
  by indexed reads `byteAt`/`u16At`/`u32At` into the buffer plus an explicit
  cursor index; `align_with_u32` becomes `align4` on the index.
* Reads past the end of the buffer panic in Rust; in loops whose guards keep
  the cursor in bounds for the inputs our theorems quantify over, the reads
  are totalised with `List.getD _ 0` (a panicking execution is never used to
  discharge a claim).  Where a claim is *about* a panic (slicing with bad
  bounds in `Bitmap::from_data`, the unsupported-format `panic!` arms of
  `interpret_image_data`/`pixels_into_data`), the panic is modelled
  explicitly: those functions return an `Option`/`FromDataResult` whose
  `none`/`panicked` value marks process abort.
* `map_zero_based` does its arithmetic in `f32`.  It is embedded with an
  exact model of IEEE-754 binary32 arithmetic (round to nearest, ties to
  even) over dyadic rationals represented as mantissa/exponent pairs
  `ℕ × ℤ`.  The model is exact for values in the normal range of `f32`,
  which covers every value reachable from `map_zero_based`'s inputs
  (quotients and products of integers `≤ 2^32`); no subnormal or overflow
  handling is needed or included.
-/

namespace BitmapIO

/-- `BitmapPixel` (lib.rs:303-309): four `u8` channels, declared in source
order blue, green, red, alpha; modelled as `ℕ` values. -/
structure BitmapPixel where
  blue  : ℕ
  green : ℕ
  red   : ℕ
  alpha : ℕ
  deriving DecidableEq

/-- Default pixel used to totalise out-of-bounds list reads (which panic in
the Rust source). -/
def zeroPixel : BitmapPixel := ⟨0, 0, 0, 0⟩

/-- A pixel whose channels are in the range of `u8`. -/
def BitmapPixel.wf (p : BitmapPixel) : Prop :=
  p.blue < 256 ∧ p.green < 256 ∧ p.red < 256 ∧ p.alpha < 256

instance (p : BitmapPixel) : Decidable p.wf := by
  unfold BitmapPixel.wf; infer_instance

/-- `BitmapPixel::rgba` (lib.rs:322-329). -/
def BitmapPixel.rgba (r g b a : ℕ) : BitmapPixel :=
  ⟨b, g, r, a⟩

/-- `BitmapPixel::rgb` (lib.rs:331-333). -/
def BitmapPixel.rgb (r g b : ℕ) : BitmapPixel :=
  BitmapPixel.rgba r g b 0xff

/-- `BitmapPixel::transparent` (lib.rs:367-369). -/
def BitmapPixel.transparent : BitmapPixel :=
  BitmapPixel.rgba 0xff 0xff 0xff 0x00

/-- `BitmapPixel::same_color_as` (lib.rs:346-350): equality of the red,
green and blue channels; alpha is ignored. -/
def BitmapPixel.same_color_as (p other : BitmapPixel) : Bool :=
  p.red == other.red && p.green == other.green && p.blue == other.blue

/-- `BitmapPixel::distance_squared` (lib.rs:371-379): squared Euclidean
distance over (red, green, blue) computed in `i32` and cast `as u32`.
The `i32` computation cannot overflow for `u8` channels (max value
`3 * 255^2`), so the `as u32` cast is modelled by `Int.toNat`. -/
def BitmapPixel.distance_squared (p other : BitmapPixel) : ℕ :=
  let red_distance   : ℤ := (p.red : ℤ) - (other.red : ℤ)
  let green_distance : ℤ := (p.green : ℤ) - (other.green : ℤ)
  let blue_distance  : ℤ := (p.blue : ℤ) - (other.blue : ℤ)
  (red_distance * red_distance +
   green_distance * green_distance +
   blue_distance * blue_distance).toNat

/-- Loop of `BitmapPixel::find_closest_by_index` (lib.rs:385-395): linear
scan over the palette tail keeping the first index attaining the least
distance (strict `<` comparison). -/
def find_closest_loop (p : BitmapPixel) (rest : List BitmapPixel)
    (result_distance result current_index : ℕ) : ℕ :=
  match rest with
  | [] => result
  | pixel :: t =>
    let current_distance := p.distance_squared pixel
    if current_distance < result_distance then
      find_closest_loop p t current_distance current_index (current_index + 1)
    else
      find_closest_loop p t result_distance result (current_index + 1)

/-- `BitmapPixel::find_closest_by_index` (lib.rs:381-399).  The source
unconditionally reads `palette[0]` and panics on an empty palette; the
empty case is totalised to `0` and every theorem about this function
assumes a non-empty palette. -/
def BitmapPixel.find_closest_by_index (p : BitmapPixel)
    (palette : List BitmapPixel) : ℕ :=
  match palette with
  | [] => 0
  | first :: rest => find_closest_loop p rest (p.distance_squared first) 0 1

/-- Loop of `mask_offset_and_shifted` (lib.rs:409-413): shift right until
the lowest bit is set, counting the shifts.  The loop is only entered with
a nonzero mask (the source early-outs on `mask == 0`), which is what makes
it terminate; the nonzero invariant is carried as a hypothesis. -/
def mask_offset_loop (mask : ℕ) (offset : ℕ) (h : mask ≠ 0) : ℕ × ℕ :=
  if h1 : mask &&& 1 = 0 then
    mask_offset_loop (mask >>> 1) (offset + 1) (by
      rw [Nat.and_one_is_mod] at h1
      rw [Nat.shiftRight_one]
      omega)
  else
    (offset, mask)
termination_by mask
decreasing_by
  rw [Nat.shiftRight_one]
  omega

/-- `mask_offset_and_shifted` (lib.rs:402-416). -/
def mask_offset_and_shifted (mask : ℕ) : ℕ × ℕ :=
  if h : mask = 0 then
    (0, 0)
  else
    mask_offset_loop mask 0 h

/-!  ### Exact binary32 model

`map_zero_based` (lib.rs:967-973) computes `(to as f32 * ((value as f32) /
(from as f32))) as u8`.  The functions below model `f32` values as exact
dyadic rationals `m * 2^e` with `m : ℕ`, `e : ℤ`, and every rounding step
as IEEE-754 round-to-nearest-ties-to-even on the mantissa.  All inputs
reachable from `map_zero_based` are nonnegative and in the normal range,
so signs, subnormals, infinities and NaN do not arise and are not
modelled. -/

/-- Number of bits of `n` (`0` for `n = 0`), fuel-bounded so that it is
structurally recursive and kernel-computable; the fuel `64` covers every
value manipulated by the binary32 model. -/
def bitLenAux (n : ℕ) : ℕ → ℕ
  | 0 => 0
  | fuel + 1 => if n = 0 then 0 else bitLenAux (n / 2) fuel + 1

/-- Bit length of a natural number below `2^64`. -/
def bitLen (n : ℕ) : ℕ := bitLenAux n 64

/-- Round `a / b` to the nearest integer, ties to even (IEEE-754 default
rounding applied to an exact quotient). -/
def rneDiv (a b : ℕ) : ℕ :=
  let q := a / b
  let r := a % b
  if 2 * r < b then q
  else if b < 2 * r then q + 1
  else if q % 2 = 0 then q else q + 1

/-- An exact `f32` value: mantissa times `2^exponent`. -/
structure F32 where
  m : ℕ
  e : ℤ
  deriving DecidableEq

/-- Round the exact dyadic `m * 2^e` to 24 significant mantissa bits
(binary32 precision), nearest, ties to even.  Values whose mantissa
already fits in 24 bits are exact. -/
def norm24 (m : ℕ) (e : ℤ) : F32 :=
  let L := bitLen m
  if L ≤ 24 then ⟨m, e⟩
  else
    let k := L - 24
    ⟨rneDiv m (2 ^ k), e + k⟩

/-- `u32 as f32` conversion (rounds to nearest even above `2^24`). -/
def f32ofNat (n : ℕ) : F32 := norm24 n 0

/-- `f32` multiplication: exact product, then one binary32 rounding. -/
def f32mul (a b : F32) : F32 := norm24 (a.m * b.m) (a.e + b.e)

/-- `f32` division: chooses the scaling `k` that lands the integer quotient
`a.m * 2^k / b.m` in `[2^23, 2^24)` and performs a single
round-to-nearest-even there, exactly as binary32 division does for
normal-range operands.  Division by an `f32` zero never occurs in
`map_zero_based` (guarded by `from == 0`). -/
def f32div (a b : F32) : F32 :=
  if a.m = 0 then ⟨0, 0⟩
  else
    let d : ℤ := (bitLen a.m : ℤ) - (bitLen b.m : ℤ)
    let k : ℤ := 23 - d
    let numer := if 0 ≤ k then a.m * 2 ^ k.toNat else a.m
    let denom := if 0 ≤ k then b.m else b.m * 2 ^ (-k).toNat
    if numer / denom < 2 ^ 23 then
      ⟨rneDiv (numer * 2) denom, a.e - b.e - (k + 1)⟩
    else
      ⟨rneDiv numer denom, a.e - b.e - k⟩

/-- `f32 as u8` cast (Rust): truncate toward zero, saturating at the range
of `u8`.  The values cast in `map_zero_based` are nonnegative. -/
def f32toU8 (x : F32) : ℕ :=
  if 0 ≤ x.e then min 255 (x.m <<< x.e.toNat)
  else min 255 (x.m / 2 ^ (-x.e).toNat)

/-- `map_zero_based` (lib.rs:967-973): no-op when `from == to || from == 0`,
otherwise `(to as f32 * ((value as f32) / (from as f32))) as u8`, with the
`f32` arithmetic modelled exactly by the binary32 model above.  The source
mutates `value` through an `&mut u8`; the model returns the new value. -/
def map_zero_based (value fromMax toMax : ℕ) : ℕ :=
  if fromMax = toMax ∨ fromMax = 0 then value
  else
    let t := f32div (f32ofNat value) (f32ofNat fromMax)
    f32toU8 (f32mul (f32ofNat toMax) t)

/-!  ### Byte buffers and the byte cursor -/

/-- One byte of a buffer (`BytesWalker::next_u8`, lib.rs:992-997); reads past
the end panic in the source and are totalised to `0`. -/
def byteAt (data : List ℕ) (i : ℕ) : ℕ := data.getD i 0

/-- Little-endian `u16` read (`BytesWalker::next_u16`, lib.rs:1006-1012; the
source transmutes two bytes on a little-endian host). -/
def u16At (data : List ℕ) (i : ℕ) : ℕ :=
  byteAt data i + 256 * byteAt data (i + 1)

/-- Little-endian `u32` read (`BytesWalker::next_u32`, lib.rs:1014-1020). -/
def u32At (data : List ℕ) (i : ℕ) : ℕ :=
  byteAt data i + 256 * byteAt data (i + 1) +
    65536 * byteAt data (i + 2) + 16777216 * byteAt data (i + 3)

/-- `pad_to_align!` (bitmap_read.rs:7-12). -/
def pad_to_align (v alignment : ℕ) : ℕ := (alignment - v % alignment) % alignment

/-- `BytesWalker::align_with_u32` (lib.rs:1030-1034) applied to the cursor
index. -/
def align4 (i : ℕ) : ℕ := i + pad_to_align i 4

/-- `push_u16` (bitmap_write.rs:213-217): the two little-endian bytes of a
`u16` value (`as u8` casts become `% 256`). -/
def push_u16 (value : ℕ) : List ℕ :=
  [value % 256, (value >>> 8) % 256]

/-- `push_u32` (bitmap_write.rs:199-205). -/
def push_u32 (value : ℕ) : List ℕ :=
  [value % 256, (value >>> 8) % 256, (value >>> 16) % 256, (value >>> 24) % 256]

/-!  ### Header models -/

/-- `BitmapError` (lib.rs:27-35).  The `BitmapIOError` payload
(`std::io::Error`) is opaque and irrelevant to every claim; it is modelled
without a payload. -/
inductive BitmapError where
  | invalidBitmap
  | unsupportedInfoHeaderSize (size : ℕ)
  | unsupportedNumberOfPlanes (planes : ℕ)
  | unsupportedCompressionType (c : ℕ)
  | invalidOperation
  | bitmapIOError
  deriving DecidableEq

/-- `CompressionType` (lib.rs:108-120), keeping the numeric discriminants;
`CompressionType::from(u32)` (lib.rs:122-137) maps unknown codes to
`Invalid`.  Errors carry the numeric code: `UnsupportedCompressionType`
stores the `CompressionType` obtained through `from`, which is faithfully
represented by `compressionFromU32` of the raw code. -/
def compressionFromU32 (num : ℕ) : ℕ :=
  if num = 0x0000 ∨ num = 0x0001 ∨ num = 0x0002 ∨ num = 0x0003 ∨
     num = 0x0004 ∨ num = 0x0005 ∨ num = 0x000B ∨ num = 0x000C ∨
     num = 0x000D then num
  else 0x000E

/-- Discriminant of `CompressionType::Uncompressed`. -/
def ctUncompressed : ℕ := 0x0000

/-- Discriminant of `CompressionType::BitFields`. -/
def ctBitFields : ℕ := 0x0003

/-- `BMP_MAGIC_NUMBER` (lib.rs:23). -/
def BMP_MAGIC_NUMBER : ℕ := 0x4d42

/-- `FILE_HEADER_SIZE` (lib.rs:25). -/
def FILE_HEADER_SIZE : ℕ := 14

/-- `BitmapFileHeader` (lib.rs:46-52). -/
structure BitmapFileHeader where
  magic_number       : ℕ
  file_size          : ℕ
  reserved1          : ℕ
  reserved2          : ℕ
  pixel_array_offset : ℕ
  deriving DecidableEq

/-- `BitmapFileHeader::new` (lib.rs:69-77). -/
def BitmapFileHeader.new (f_size p_offset : ℕ) : BitmapFileHeader :=
  ⟨BMP_MAGIC_NUMBER, f_size, 0, 0, p_offset⟩

/-- `BitmapFileHeader::validate` (lib.rs:79-83). -/
def BitmapFileHeader.validate (h : BitmapFileHeader) : Bool :=
  h.magic_number == BMP_MAGIC_NUMBER && h.reserved1 == 0 && h.reserved2 == 0

/-- `BitmapFileHeader::from_data` (lib.rs:85-95): sequential walker reads
become fixed little-endian offsets. -/
def BitmapFileHeader.from_data (data : List ℕ) : BitmapFileHeader :=
  { magic_number       := u16At data 0
    file_size          := u32At data 2
    reserved1          := u16At data 6
    reserved2          := u16At data 8
    pixel_array_offset := u32At data 10 }

/-- `BitmapInfoHeader` (lib.rs:144-166).  `i32` fields are modelled by
their `u32` bit pattern; `image_height` stores the absolute value after
the top-down normalisation performed by the parser. -/
structure BitmapInfoHeader where
  info_header_size   : ℕ
  image_width        : ℕ
  image_height       : ℕ
  n_planes           : ℕ
  bits_per_pixel     : ℕ
  compression_type   : ℕ
  image_size         : ℕ
  pixels_per_meter_x : ℕ
  pixels_per_meter_y : ℕ
  colors_used        : ℕ
  colors_important   : ℕ
  red_mask           : ℕ
  green_mask         : ℕ
  blue_mask          : ℕ
  alpha_mask         : ℕ
  is_top_down        : Bool
  deriving DecidableEq

/-- `BitmapInfoHeader::new` (lib.rs:196-236). -/
def BitmapInfoHeader.new (i_width i_height bits_per_pixel compression : ℕ) :
    BitmapInfoHeader :=
  let h_size := if compression = ctBitFields then 56 else 40
  let bits_per_row := i_width * bits_per_pixel + pad_to_align (i_width * bits_per_pixel) 8
  let bytes_per_row := bits_per_row / 8 + pad_to_align (bits_per_row / 8) 4
  let i_size := bytes_per_row * i_height
  { info_header_size   := h_size
    image_width        := i_width
    image_height       := i_height
    n_planes           := 1
    bits_per_pixel     := bits_per_pixel
    compression_type   := compression
    image_size         := i_size
    pixels_per_meter_x := 0
    pixels_per_meter_y := 0
    colors_used        := 0
    colors_important   := 0
    red_mask           := 0xff000000
    green_mask         := 0x00ff0000
    blue_mask          := 0x0000ff00
    alpha_mask         := 0x000000ff
    is_top_down        := false }

/-- `BitmapInfoHeader::from_data` (lib.rs:238-276), reading from the start
of the slice the source receives (`&data[14..]`).  The source panics when
fewer than 40 bytes remain, or fewer than 56 when the header size field
calls for channel masks; those panics are modelled by `none`.  A stored
height with the `i32` sign bit set records `is_top_down` and is replaced
by its absolute value (`2^32 - raw`). -/
def BitmapInfoHeader.from_data (data : List ℕ) : Option BitmapInfoHeader :=
  if data.length < 40 then none
  else
    let size := u32At data 0
    let raw_height := u32At data 8
    let base : BitmapInfoHeader :=
      { info_header_size   := size
        image_width        := u32At data 4
        image_height       := if raw_height < 2 ^ 31 then raw_height else 2 ^ 32 - raw_height
        n_planes           := u16At data 12
        bits_per_pixel     := u16At data 14
        compression_type   := u32At data 16
        image_size         := u32At data 20
        pixels_per_meter_x := u32At data 24
        pixels_per_meter_y := u32At data 28
        colors_used        := u32At data 32
        colors_important   := u32At data 36
        red_mask           := 0
        green_mask         := 0
        blue_mask          := 0
        alpha_mask         := 0
        is_top_down        := if raw_height < 2 ^ 31 then false else true }
    if 40 < size then
      if data.length < 56 then none
      else some { base with
        red_mask   := u32At data 40
        green_mask := u32At data 44
        blue_mask  := u32At data 48
        alpha_mask := u32At data 52 }
    else some base

/-!  ### Pixel decode engine (bitmap_read.rs) -/

/-- Loop of `read_32_bitfield` (bitmap_read.rs:25-41): one 4-byte word per
pixel while data remains; channels are extracted with the mask offsets and
an `0xff` byte mask; a zero alpha mask forces alpha to `0xff`. -/
def read_32_bitfield_loop (data : List ℕ) (idx : ℕ)
    (red_offset green_offset blue_offset alpha_offset alpha_mask : ℕ) :
    List BitmapPixel :=
  if idx < data.length then
    let pixel_value := u32At data idx
    let pixel : BitmapPixel :=
      { blue  := (pixel_value >>> blue_offset) &&& 0xff
        green := (pixel_value >>> green_offset) &&& 0xff
        red   := (pixel_value >>> red_offset) &&& 0xff
        alpha := if alpha_mask = 0 then 0xff
                 else (pixel_value >>> alpha_offset) &&& 0xff }
    pixel :: read_32_bitfield_loop data (idx + 4)
      red_offset green_offset blue_offset alpha_offset alpha_mask
  else []
termination_by data.length - idx
decreasing_by omega

/-- `read_32_bitfield` (bitmap_read.rs:14-42). -/
def read_32_bitfield (data : List ℕ)
    (red_mask green_mask blue_mask alpha_mask : ℕ) : List BitmapPixel :=
  read_32_bitfield_loop data 0
    (mask_offset_and_shifted red_mask).1
    (mask_offset_and_shifted green_mask).1
    (mask_offset_and_shifted blue_mask).1
    (mask_offset_and_shifted alpha_mask).1
    alpha_mask

/-- Loop of `read_16_bitfield` (bitmap_read.rs:56-96): one 2-byte word per
pixel; at the end of each row of `image_width` pixels the cursor is
aligned to 4 bytes and trailing padding may end the loop; each channel is
`(word & mask) >> offset` cast `as u8` and then rescaled from the mask's
zero-based maximum to `0xff`. -/
def read_16_bitfield_loop (data : List ℕ) (idx column_index image_width : ℕ)
    (red_offset red_shifted green_offset green_shifted
     blue_offset blue_shifted alpha_offset alpha_shifted : ℕ)
    (red_mask green_mask blue_mask alpha_mask : ℕ) : List BitmapPixel :=
  if h : idx < data.length then
    let idx1 := if column_index = image_width then align4 idx else idx
    let column1 := if column_index = image_width then 0 else column_index
    if idx1 < data.length then
      let pixel_value := u16At data idx1
      let pixel : BitmapPixel :=
        { blue  := map_zero_based (((pixel_value &&& blue_mask) >>> blue_offset) % 256)
                     blue_shifted 0xff
          green := map_zero_based (((pixel_value &&& green_mask) >>> green_offset) % 256)
                     green_shifted 0xff
          red   := map_zero_based (((pixel_value &&& red_mask) >>> red_offset) % 256)
                     red_shifted 0xff
          alpha := if alpha_mask = 0 then 0xff
                   else map_zero_based (((pixel_value &&& alpha_mask) >>> alpha_offset) % 256)
                     alpha_shifted 0xff }
      pixel :: read_16_bitfield_loop data (idx1 + 2) (column1 + 1) image_width
        red_offset red_shifted green_offset green_shifted
        blue_offset blue_shifted alpha_offset alpha_shifted
        red_mask green_mask blue_mask alpha_mask
    else []
  else []
termination_by data.length - idx
decreasing_by
  simp only [align4, pad_to_align]
  split <;> omega

/-- `read_16_bitfield` (bitmap_read.rs:44-97). -/
def read_16_bitfield (data : List ℕ) (image_width : ℕ)
    (red_mask green_mask blue_mask alpha_mask : ℕ) : List BitmapPixel :=
  read_16_bitfield_loop data 0 0 image_width
    (mask_offset_and_shifted red_mask).1 (mask_offset_and_shifted red_mask).2
    (mask_offset_and_shifted green_mask).1 (mask_offset_and_shifted green_mask).2
    (mask_offset_and_shifted blue_mask).1 (mask_offset_and_shifted blue_mask).2
    (mask_offset_and_shifted alpha_mask).1 (mask_offset_and_shifted alpha_mask).2
    red_mask green_mask blue_mask alpha_mask

/-- Loop of `read_32_uncompressed` (bitmap_read.rs:104-114): blue, green,
red and one discarded padding byte per pixel; alpha is always `0xff`. -/
def read_32_uncompressed_loop (data : List ℕ) (idx : ℕ) : List BitmapPixel :=
  if idx < data.length then
    { blue  := byteAt data idx
      green := byteAt data (idx + 1)
      red   := byteAt data (idx + 2)
      alpha := 0xff : BitmapPixel } :: read_32_uncompressed_loop data (idx + 4)
  else []
termination_by data.length - idx
decreasing_by omega

/-- `read_32_uncompressed` (bitmap_read.rs:99-115). -/
def read_32_uncompressed (data : List ℕ) : List BitmapPixel :=
  read_32_uncompressed_loop data 0

/-- Loop of `read_24_uncompressed` (bitmap_read.rs:120-143): blue, green,
red per pixel; 4-byte row alignment after every `image_width` pixels, at
which point trailing padding may end the loop. -/
def read_24_uncompressed_loop (data : List ℕ) (idx column_index image_width : ℕ) :
    List BitmapPixel :=
  if h : idx < data.length then
    let idx1 := if column_index = image_width then align4 idx else idx
    let column1 := if column_index = image_width then 0 else column_index
    if idx1 < data.length then
      { blue  := byteAt data idx1
        green := byteAt data (idx1 + 1)
        red   := byteAt data (idx1 + 2)
        alpha := 0xff : BitmapPixel } ::
        read_24_uncompressed_loop data (idx1 + 3) (column1 + 1) image_width
    else []
  else []
termination_by data.length - idx
decreasing_by
  simp only [align4, pad_to_align]
  split <;> omega

/-- `read_24_uncompressed` (bitmap_read.rs:117-144). -/
def read_24_uncompressed (data : List ℕ) (image_width : ℕ) : List BitmapPixel :=
  read_24_uncompressed_loop data 0 0 image_width

/-- `read_16_uncompressed`: `interpret_image_data` (lib.rs:457-459) calls
`bitmap_read::read_16_uncompressed`, but no function of that name exists
anywhere in the source tree (`bitmap_read.rs` has no 16-bit uncompressed
reader), so this arm of the decoder cannot be modelled from the source.
Modelled from the spec: §4.4 "read 2-byte word per pixel as 5-5-5 packed
BGR (bits 0-4 blue, 5-9 green, 10-14 red); rescale each from 0x1F to 0xFF;
row-align every image-width pixels; alpha 0xFF". -/
def read_16_uncompressed_loop (data : List ℕ) (idx column_index image_width : ℕ) :
    List BitmapPixel :=
  if h : idx < data.length then
    let idx1 := if column_index = image_width then align4 idx else idx
    let column1 := if column_index = image_width then 0 else column_index
    if idx1 < data.length then
      let pixel_value := u16At data idx1
      { blue  := map_zero_based (pixel_value &&& 0x1f) 0x1f 0xff
        green := map_zero_based ((pixel_value >>> 5) &&& 0x1f) 0x1f 0xff
        red   := map_zero_based ((pixel_value >>> 10) &&& 0x1f) 0x1f 0xff
        alpha := 0xff : BitmapPixel } ::
        read_16_uncompressed_loop data (idx1 + 2) (column1 + 1) image_width
    else []
  else []
termination_by data.length - idx
decreasing_by
  simp only [align4, pad_to_align]
  split <;> omega

/-- See `read_16_uncompressed_loop`; modelled from the spec. -/
def read_16_uncompressed (data : List ℕ) (image_width : ℕ) : List BitmapPixel :=
  read_16_uncompressed_loop data 0 0 image_width

/-- Loop of `read_8_uncompressed` (bitmap_read.rs:150-165): one palette
index byte per pixel, row-aligned; `palette[index]` panics on an
out-of-range index in the source and is totalised with `zeroPixel`. -/
def read_8_uncompressed_loop (data : List ℕ) (idx column_index image_width : ℕ)
    (image_palette : List BitmapPixel) : List BitmapPixel :=
  if h : idx < data.length then
    let idx1 := if column_index = image_width then align4 idx else idx
    let column1 := if column_index = image_width then 0 else column_index
    if idx1 < data.length then
      image_palette.getD (byteAt data idx1) zeroPixel ::
        read_8_uncompressed_loop data (idx1 + 1) (column1 + 1) image_width image_palette
    else []
  else []
termination_by data.length - idx
decreasing_by
  simp only [align4, pad_to_align]
  split <;> omega

/-- `read_8_uncompressed` (bitmap_read.rs:146-166). -/
def read_8_uncompressed (data : List ℕ) (image_width : ℕ)
    (image_palette : List BitmapPixel) : List BitmapPixel :=
  read_8_uncompressed_loop data 0 0 image_width image_palette

/-- Loop of `read_4_uncompressed` (bitmap_read.rs:172-196): one byte yields
a high-nibble pixel and, when still within the row, a low-nibble pixel;
rows are aligned when `column_index >= image_width`. -/
def read_4_uncompressed_loop (data : List ℕ) (idx column_index image_width : ℕ)
    (image_palette : List BitmapPixel) : List BitmapPixel :=
  if h : idx < data.length then
    let idx1 := if image_width ≤ column_index then align4 idx else idx
    let column1 := if image_width ≤ column_index then 0 else column_index
    if idx1 < data.length then
      let pixels_indexes := byteAt data idx1
      let pixel0 := image_palette.getD (pixels_indexes >>> 4) zeroPixel
      let pixel1 := image_palette.getD (pixels_indexes &&& 0x0f) zeroPixel
      if column1 + 1 < image_width then
        pixel0 :: pixel1 ::
          read_4_uncompressed_loop data (idx1 + 1) (column1 + 2) image_width image_palette
      else
        pixel0 ::
          read_4_uncompressed_loop data (idx1 + 1) (column1 + 1) image_width image_palette
    else []
  else []
termination_by data.length - idx
decreasing_by
  all_goals simp only [align4, pad_to_align]
  all_goals split <;> omega

/-- `read_4_uncompressed` (bitmap_read.rs:168-197). -/
def read_4_uncompressed (data : List ℕ) (image_width : ℕ)
    (image_palette : List BitmapPixel) : List BitmapPixel :=
  read_4_uncompressed_loop data 0 0 image_width image_palette

/-- `append_pixels_from_byte` (bitmap_read.rs:299-313), with the shifting
`0x80` mask made a parameter of the recursion: each of the `n_bits` high
bits of `byte` selects `palette[0]` (bit clear) or `palette[1]` (bit
set). -/
def append_pixels_from_byte_loop (image_palette : List BitmapPixel)
    (byte mask : ℕ) : ℕ → List BitmapPixel
  | 0 => []
  | n + 1 =>
    (if byte &&& mask = 0 then image_palette.getD 0 zeroPixel
     else image_palette.getD 1 zeroPixel) ::
      append_pixels_from_byte_loop image_palette byte (mask >>> 1) n

/-- `append_pixels_from_byte` (bitmap_read.rs:299-313). -/
def append_pixels_from_byte (image_palette : List BitmapPixel)
    (byte n_bits : ℕ) : List BitmapPixel :=
  append_pixels_from_byte_loop image_palette byte 0x80 n_bits

/-- Inner loop of `read_1_uncompressed` (bitmap_read.rs:205-212): `count`
full bytes, each yielding 8 pixels. -/
def read_1_blocks (data : List ℕ) (image_palette : List BitmapPixel)
    (idx : ℕ) : ℕ → List BitmapPixel
  | 0 => []
  | count + 1 =>
    append_pixels_from_byte image_palette (byteAt data idx) 8 ++
      read_1_blocks data image_palette (idx + 1) count

/-- Row loop of `read_1_uncompressed` (bitmap_read.rs:203-224): per row,
`width / 8` full bytes, one extra byte for the remaining `width % 8`
pixels, then 4-byte alignment of the cursor. -/
def read_1_rows (data : List ℕ) (image_palette : List BitmapPixel)
    (image_width idx : ℕ) : ℕ → List BitmapPixel
  | 0 => []
  | h + 1 =>
    let full := image_width / 8
    let remaining_pixels := image_width - full * 8
    let row := read_1_blocks data image_palette idx full ++
      (if 0 < remaining_pixels then
        append_pixels_from_byte image_palette (byteAt data (idx + full)) remaining_pixels
      else [])
    let idx1 := align4 (idx + full + (if 0 < remaining_pixels then 1 else 0))
    row ++ read_1_rows data image_palette image_width idx1 h

/-- `read_1_uncompressed` (bitmap_read.rs:199-225). -/
def read_1_uncompressed (data : List ℕ) (image_width image_height : ℕ)
    (image_palette : List BitmapPixel) : List BitmapPixel :=
  read_1_rows data image_palette image_width 0 image_height

/-!  ### Pixel encode engine (bitmap_write.rs)

The writers append to a `&mut Vec<u8>`; they are modelled as functions
returning the appended bytes.  The pixel iterator (`pixels.into_iter()`,
whose `next().unwrap()` panics when the grid is shorter than
`width * height`) is modelled by `List.take`/`List.drop`/`List.getD`
slicing, which agrees with the source whenever the grid has at least
`width * height` pixels — a hypothesis of every theorem about them. -/

/-- Packed word of `write_32_bitfield` (bitmap_write.rs:16-23): `u32`
shifts wrap, hence the `% 2^32`; only the alpha contribution is masked
(`&` binds tighter than `|` in Rust). -/
def write_32_bitfield_word (p : BitmapPixel)
    (red_offset green_offset blue_offset alpha_offset alpha_mask : ℕ) : ℕ :=
  ((p.red <<< red_offset) % 2 ^ 32) |||
  ((p.green <<< green_offset) % 2 ^ 32) |||
  ((p.blue <<< blue_offset) % 2 ^ 32) |||
  (((p.alpha <<< alpha_offset) % 2 ^ 32) &&& alpha_mask)

/-- `write_32_bitfield` (bitmap_write.rs:7-26). -/
def write_32_bitfield (pixels : List BitmapPixel)
    (red_mask green_mask blue_mask alpha_mask : ℕ) : List ℕ :=
  pixels.flatMap fun p =>
    push_u32 (write_32_bitfield_word p
      (mask_offset_and_shifted red_mask).1
      (mask_offset_and_shifted green_mask).1
      (mask_offset_and_shifted blue_mask).1
      (mask_offset_and_shifted alpha_mask).1
      alpha_mask)

/-- Packed word of `write_16_bitfield` (bitmap_write.rs:44-58): channels
are first rescaled from `0xff` to each mask's zero-based maximum, then
shifted into place as `u16` (shifts wrap at `2^16`); the alpha
contribution is masked with `alpha_mask as u16`. -/
def write_16_bitfield_word (p : BitmapPixel)
    (red_offset red_shifted green_offset green_shifted
     blue_offset blue_shifted alpha_offset alpha_shifted alpha_mask : ℕ) : ℕ :=
  ((map_zero_based p.red 0xff red_shifted <<< red_offset) % 2 ^ 16) |||
  ((map_zero_based p.green 0xff green_shifted <<< green_offset) % 2 ^ 16) |||
  ((map_zero_based p.blue 0xff blue_shifted <<< blue_offset) % 2 ^ 16) |||
  (((map_zero_based p.alpha 0xff alpha_shifted <<< alpha_offset) % 2 ^ 16) &&&
    (alpha_mask % 2 ^ 16))

/-- Row loop of `write_16_bitfield` (bitmap_write.rs:42-65): `image_width`
pixels per row, then `pad_to_align(2 * width, 4)` zero padding bytes. -/
def write_16_bitfield_rows (pixels : List BitmapPixel)
    (image_width n_padding_bytes : ℕ)
    (red_offset red_shifted green_offset green_shifted
     blue_offset blue_shifted alpha_offset alpha_shifted alpha_mask : ℕ) :
    ℕ → List ℕ
  | 0 => []
  | h + 1 =>
    ((pixels.take image_width).flatMap fun p =>
      push_u16 (write_16_bitfield_word p
        red_offset red_shifted green_offset green_shifted
        blue_offset blue_shifted alpha_offset alpha_shifted alpha_mask)) ++
    List.replicate n_padding_bytes 0 ++
    write_16_bitfield_rows (pixels.drop image_width) image_width n_padding_bytes
      red_offset red_shifted green_offset green_shifted
      blue_offset blue_shifted alpha_offset alpha_shifted alpha_mask h

/-- `write_16_bitfield` (bitmap_write.rs:28-66). -/
def write_16_bitfield (pixels : List BitmapPixel) (image_width image_height : ℕ)
    (red_mask green_mask blue_mask alpha_mask : ℕ) : List ℕ :=
  write_16_bitfield_rows pixels image_width (pad_to_align (image_width * 2) 4)
    (mask_offset_and_shifted red_mask).1 (mask_offset_and_shifted red_mask).2
    (mask_offset_and_shifted green_mask).1 (mask_offset_and_shifted green_mask).2
    (mask_offset_and_shifted blue_mask).1 (mask_offset_and_shifted blue_mask).2
    (mask_offset_and_shifted alpha_mask).1 (mask_offset_and_shifted alpha_mask).2
    alpha_mask image_height

/-- `write_32_uncompressed` (bitmap_write.rs:68-75): blue, green, red and a
fixed `0x00` padding byte per pixel; alpha is dropped. -/
def write_32_uncompressed (pixels : List BitmapPixel) : List ℕ :=
  pixels.flatMap fun p => [p.blue, p.green, p.red, 0x00]

/-- Row loop of `write_24_uncompressed` (bitmap_write.rs:84-96). -/
def write_24_uncompressed_rows (pixels : List BitmapPixel)
    (image_width n_padding_bytes : ℕ) : ℕ → List ℕ
  | 0 => []
  | h + 1 =>
    ((pixels.take image_width).flatMap fun p => [p.blue, p.green, p.red]) ++
    List.replicate n_padding_bytes 0 ++
    write_24_uncompressed_rows (pixels.drop image_width) image_width n_padding_bytes h

/-- `write_24_uncompressed` (bitmap_write.rs:77-97). -/
def write_24_uncompressed (pixels : List BitmapPixel)
    (image_width image_height : ℕ) : List ℕ :=
  write_24_uncompressed_rows pixels image_width (pad_to_align (image_width * 3) 4)
    image_height

/-- `write_16_uncompressed`: `pixels_into_data` (lib.rs:521-524) calls
`bitmap_write::write_16_uncompressed`, but no function of that name exists
anywhere in the source tree, and §4.5 of the spec lists no 16-bit
uncompressed encoder either; this arm cannot be given a body from the
source.  Modelled from the spec (symmetric to the spec's 16-bit
uncompressed decode layout, §4.4): 5-5-5 packed BGR words, each channel
rescaled from 0xff to 0x1f, rows padded to 4 bytes. -/
def write_16_uncompressed_rows (pixels : List BitmapPixel)
    (image_width n_padding_bytes : ℕ) : ℕ → List ℕ
  | 0 => []
  | h + 1 =>
    ((pixels.take image_width).flatMap fun p =>
      push_u16 ((map_zero_based p.red 0xff 0x1f <<< 10) |||
        (map_zero_based p.green 0xff 0x1f <<< 5) |||
        map_zero_based p.blue 0xff 0x1f)) ++
    List.replicate n_padding_bytes 0 ++
    write_16_uncompressed_rows (pixels.drop image_width) image_width n_padding_bytes h

/-- See `write_16_uncompressed_rows`; modelled from the spec. -/
def write_16_uncompressed (pixels : List BitmapPixel)
    (image_width image_height : ℕ) : List ℕ :=
  write_16_uncompressed_rows pixels image_width (pad_to_align (image_width * 2) 4)
    image_height

/-- Row loop of `write_8_uncompressed` (bitmap_write.rs:106-117): one
nearest-palette index byte per pixel (`as u8` cast: `% 256`), rows padded
with `pad_to_align(width, 4)` zero bytes. -/
def write_8_uncompressed_rows (pixels : List BitmapPixel)
    (image_palette : List BitmapPixel) (image_width n_padding_bytes : ℕ) :
    ℕ → List ℕ
  | 0 => []
  | h + 1 =>
    ((pixels.take image_width).map fun p =>
      p.find_closest_by_index image_palette % 256) ++
    List.replicate n_padding_bytes 0 ++
    write_8_uncompressed_rows (pixels.drop image_width) image_palette
      image_width n_padding_bytes h

/-- `write_8_uncompressed` (bitmap_write.rs:99-118). -/
def write_8_uncompressed (pixels : List BitmapPixel)
    (image_palette : List BitmapPixel) (image_width image_height : ℕ) : List ℕ :=
  write_8_uncompressed_rows pixels image_palette image_width
    (pad_to_align image_width 4) image_height

/-- Pair loop of `write_4_uncompressed` (bitmap_write.rs:130-140): each
byte packs two nearest-palette indices, high nibble first (`u8` shift
wraps: `% 256`). -/
def write_4_pairs (pixels : List BitmapPixel) (image_palette : List BitmapPixel) :
    ℕ → List ℕ
  | 0 => []
  | count + 1 =>
    let p0_index := (pixels.getD 0 zeroPixel).find_closest_by_index image_palette % 256
    let p1_index := (pixels.getD 1 zeroPixel).find_closest_by_index image_palette % 256
    (((p0_index <<< 4) % 256) ||| (p1_index &&& 0x0f)) ::
      write_4_pairs (pixels.drop 2) image_palette count

/-- Row loop of `write_4_uncompressed` (bitmap_write.rs:128-154):
`width / 2` packed bytes, one extra high-nibble byte when the width is
odd, then `pad_to_align((width + 1) / 2, 4)` zero bytes. -/
def write_4_uncompressed_rows (pixels : List BitmapPixel)
    (image_palette : List BitmapPixel) (image_width n_padding_bytes : ℕ) :
    ℕ → List ℕ
  | 0 => []
  | h + 1 =>
    let row := pixels.take image_width
    write_4_pairs row image_palette (image_width / 2) ++
    (if image_width / 2 * 2 < image_width then
      [((((row.getD (image_width / 2 * 2) zeroPixel).find_closest_by_index
          image_palette % 256) <<< 4) % 256)]
    else []) ++
    List.replicate n_padding_bytes 0 ++
    write_4_uncompressed_rows (pixels.drop image_width) image_palette
      image_width n_padding_bytes h

/-- `write_4_uncompressed` (bitmap_write.rs:120-155). -/
def write_4_uncompressed (pixels : List BitmapPixel)
    (image_palette : List BitmapPixel) (image_width image_height : ℕ) : List ℕ :=
  write_4_uncompressed_rows pixels image_palette image_width
    (pad_to_align ((image_width + 1) / 2) 4) image_height

/-- `byte_from_pixels` (bitmap_write.rs:219-233) with the shifting mask a
parameter: sets `mask` in the result for every pixel whose nearest palette
index is nonzero.  The source accumulates with `result |= mask` in a loop;
the model ORs the same one-bit contributions in the same order. -/
def byte_from_pixels_loop (image_palette : List BitmapPixel)
    (pixels : List BitmapPixel) (mask : ℕ) : ℕ :=
  match pixels with
  | [] => 0
  | p :: rest =>
    (if p.find_closest_by_index image_palette ≠ 0 then mask else 0) |||
      byte_from_pixels_loop image_palette rest (mask >>> 1)

/-- `byte_from_pixels` (bitmap_write.rs:219-233). -/
def byte_from_pixels (image_palette : List BitmapPixel)
    (pixels : List BitmapPixel) : ℕ :=
  byte_from_pixels_loop image_palette pixels 0x80

/-- Block loop of `write_1_uncompressed` (bitmap_write.rs:172-180):
`count` bytes of 8 pixels each. -/
def write_1_blocks (pixels : List BitmapPixel)
    (image_palette : List BitmapPixel) : ℕ → List ℕ
  | 0 => []
  | count + 1 =>
    byte_from_pixels image_palette (pixels.take 8) ::
      write_1_blocks (pixels.drop 8) image_palette count

/-- Row loop of `write_1_uncompressed` (bitmap_write.rs:171-195):
`width / 8` full bytes, an extra byte for the `width % 8` remaining
pixels, then zero padding to a 4-byte row boundary. -/
def write_1_uncompressed_rows (pixels : List BitmapPixel)
    (image_palette : List BitmapPixel) (image_width n_padding_bytes : ℕ) :
    ℕ → List ℕ
  | 0 => []
  | h + 1 =>
    let row := pixels.take image_width
    let full := image_width / 8
    let remaining := image_width - full * 8
    write_1_blocks row image_palette full ++
    (if remaining ≠ 0 then
      [byte_from_pixels image_palette ((row.drop (full * 8)).take remaining)]
    else []) ++
    List.replicate n_padding_bytes 0 ++
    write_1_uncompressed_rows (pixels.drop image_width) image_palette
      image_width n_padding_bytes h

/-- `write_1_uncompressed` (bitmap_write.rs:157-197). -/
def write_1_uncompressed (pixels : List BitmapPixel)
    (image_palette : List BitmapPixel) (image_width image_height : ℕ) : List ℕ :=
  let bits_per_row := image_width + pad_to_align image_width 8
  let bytes_per_row := bits_per_row / 8
  write_1_uncompressed_rows pixels image_palette image_width
    (pad_to_align bytes_per_row 4) image_height

/-!  ### Dispatch, palette, `Bitmap` aggregate -/

/-- `interpret_image_data` (lib.rs:418-486): dispatch on
`(compression_type, bits_per_pixel)`.  The source `panic!`s on any
unsupported combination (and `unwrap`s the palette for indexed formats);
`none` models those process aborts. -/
def interpret_image_data (data : List ℕ) (info_header : BitmapInfoHeader)
    (palette : Option (List BitmapPixel)) : Option (List BitmapPixel) :=
  let bits_per_pixel := info_header.bits_per_pixel
  if info_header.compression_type = ctBitFields then
    if bits_per_pixel = 32 then
      some (read_32_bitfield data info_header.red_mask info_header.green_mask
        info_header.blue_mask info_header.alpha_mask)
    else if bits_per_pixel = 16 then
      some (read_16_bitfield data info_header.image_width
        info_header.red_mask info_header.green_mask
        info_header.blue_mask info_header.alpha_mask)
    else none
  else if info_header.compression_type = ctUncompressed then
    if bits_per_pixel = 32 then
      some (read_32_uncompressed data)
    else if bits_per_pixel = 24 then
      some (read_24_uncompressed data info_header.image_width)
    else if bits_per_pixel = 16 then
      some (read_16_uncompressed data info_header.image_width)
    else if bits_per_pixel = 8 then
      match palette with
      | some pal => some (read_8_uncompressed data info_header.image_width pal)
      | none => none
    else if bits_per_pixel = 4 then
      match palette with
      | some pal => some (read_4_uncompressed data info_header.image_width pal)
      | none => none
    else if bits_per_pixel = 1 then
      match palette with
      | some pal => some (read_1_uncompressed data info_header.image_width
          info_header.image_height pal)
      | none => none
    else none
  else none

/-- `pixels_into_data` (lib.rs:488-552): encoder dispatch, `none` for the
`panic!` arms and for a missing palette. -/
def pixels_into_data (pixels : List BitmapPixel) (bitmap_info : BitmapInfoHeader)
    (palette : Option (List BitmapPixel)) : Option (List ℕ) :=
  if bitmap_info.compression_type = ctBitFields then
    if bitmap_info.bits_per_pixel = 32 then
      some (write_32_bitfield pixels bitmap_info.red_mask bitmap_info.green_mask
        bitmap_info.blue_mask bitmap_info.alpha_mask)
    else if bitmap_info.bits_per_pixel = 16 then
      some (write_16_bitfield pixels bitmap_info.image_width bitmap_info.image_height
        bitmap_info.red_mask bitmap_info.green_mask
        bitmap_info.blue_mask bitmap_info.alpha_mask)
    else none
  else if bitmap_info.compression_type = ctUncompressed then
    if bitmap_info.bits_per_pixel = 32 then
      some (write_32_uncompressed pixels)
    else if bitmap_info.bits_per_pixel = 24 then
      some (write_24_uncompressed pixels bitmap_info.image_width
        bitmap_info.image_height)
    else if bitmap_info.bits_per_pixel = 16 then
      some (write_16_uncompressed pixels bitmap_info.image_width
        bitmap_info.image_height)
    else if bitmap_info.bits_per_pixel = 8 then
      match palette with
      | some pal => some (write_8_uncompressed pixels pal bitmap_info.image_width
          bitmap_info.image_height)
      | none => none
    else if bitmap_info.bits_per_pixel = 4 then
      match palette with
      | some pal => some (write_4_uncompressed pixels pal bitmap_info.image_width
          bitmap_info.image_height)
      | none => none
    else if bitmap_info.bits_per_pixel = 1 then
      match palette with
      | some pal => some (write_1_uncompressed pixels pal bitmap_info.image_width
          bitmap_info.image_height)
      | none => none
    else none
  else none

/-- Loop of `read_palette` (lib.rs:560-570): 4-byte entries, blue, green,
red, one consumed alignment byte; alpha is stored as `0xff`. -/
def read_palette_loop (data : List ℕ) (idx : ℕ) : List BitmapPixel :=
  if idx < data.length then
    { blue  := byteAt data idx
      green := byteAt data (idx + 1)
      red   := byteAt data (idx + 2)
      alpha := 0xff : BitmapPixel } :: read_palette_loop data (idx + 4)
  else []
termination_by data.length - idx
decreasing_by omega

/-- `read_palette` (lib.rs:556-573). -/
def read_palette (data : List ℕ) : List BitmapPixel :=
  read_palette_loop data 0

/-- `Bitmap` (lib.rs:575-580). -/
structure Bitmap where
  file_header : BitmapFileHeader
  info_header : BitmapInfoHeader
  palette     : Option (List BitmapPixel)
  image_data  : List BitmapPixel
  deriving DecidableEq

/-- `Bitmap::create_headers` (lib.rs:584-599). -/
def Bitmap.create_headers (width height bits_per_pixel compression : ℕ) :
    BitmapFileHeader × BitmapInfoHeader :=
  let info_header := BitmapInfoHeader.new width height bits_per_pixel compression
  let p_offset := FILE_HEADER_SIZE + info_header.info_header_size
  let file_size := p_offset + info_header.image_size
  (BitmapFileHeader.new file_size p_offset, info_header)

/-- `Bitmap::lazy_new` (lib.rs:601-612). -/
def Bitmap.lazy_new (width height bits_per_pixel compression : ℕ) : Bitmap :=
  let headers := Bitmap.create_headers width height bits_per_pixel compression
  { file_header := headers.1
    info_header := headers.2
    palette     := none
    image_data  := [] }

/-- `Bitmap::new` (lib.rs:614-622): the pixel grid is `width * height`
copies of `BitmapPixel::transparent()`.  The source computes the count as
`(width * height) as u32`, exact whenever `width * height < 2^31`. -/
def Bitmap.new (width height bits_per_pixel compression : ℕ) : Bitmap :=
  let result := Bitmap.lazy_new width height bits_per_pixel compression
  { result with image_data := List.replicate (width * height) BitmapPixel.transparent }

/-- `Bitmap::lazy_new_default` (lib.rs:624-626). -/
def Bitmap.lazy_new_default (width height : ℕ) : Bitmap :=
  Bitmap.lazy_new width height 32 ctBitFields

/-- `Bitmap::new_default` (lib.rs:628-630). -/
def Bitmap.new_default (width height : ℕ) : Bitmap :=
  Bitmap.new width height 32 ctBitFields

/-- Result of `Bitmap::from_data`: `Ok`, a typed `Err`, or a process abort
(`panicked`: out-of-bounds slicing of the input buffer, or one of the
`panic!` arms reached through `interpret_image_data`). -/
inductive FromDataResult where
  | ok (b : Bitmap)
  | err (e : BitmapError)
  | panicked
  deriving DecidableEq

/-- `Bitmap::from_data` (lib.rs:659-741).  Every Rust slice expression
panics when its bounds exceed the buffer; those checks appear here as
explicit length tests yielding `panicked`.  For uncompressed images the
image size is recomputed from width, bit depth and row padding
(lib.rs:696-710); a palette is read for bit depths 1, 4 and 8
(lib.rs:712-722). -/
def Bitmap.from_data (data : List ℕ) : FromDataResult :=
  if data.length < FILE_HEADER_SIZE then .panicked
  else
    let f_header := BitmapFileHeader.from_data (data.take FILE_HEADER_SIZE)
    if ¬ f_header.validate then .err .invalidBitmap
    else
      match BitmapInfoHeader.from_data (data.drop FILE_HEADER_SIZE) with
      | none => .panicked
      | some info_header =>
        if info_header.info_header_size ≠ 40 ∧ info_header.info_header_size ≠ 56 then
          .err (.unsupportedInfoHeaderSize info_header.info_header_size)
        else if info_header.compression_type ≠ ctUncompressed ∧
            info_header.compression_type ≠ ctBitFields then
          .err (.unsupportedCompressionType
            (compressionFromU32 info_header.compression_type))
        else if info_header.n_planes ≠ 1 then
          .err (.unsupportedNumberOfPlanes info_header.n_planes)
        else
          let image_size_in_bytes :=
            if info_header.compression_type = ctUncompressed then
              let bits_per_row := info_header.image_width * info_header.bits_per_pixel +
                pad_to_align (info_header.image_width * info_header.bits_per_pixel) 8
              let bytes_per_row := bits_per_row / 8 + pad_to_align (bits_per_row / 8) 4
              bytes_per_row * info_header.image_height
            else info_header.image_size
          let needs_palette := info_header.bits_per_pixel = 1 ∨
            info_header.bits_per_pixel = 4 ∨ info_header.bits_per_pixel = 8
          let palette_offset := FILE_HEADER_SIZE + info_header.info_header_size
          if needs_palette ∧ ¬ (palette_offset ≤ f_header.pixel_array_offset ∧
              f_header.pixel_array_offset ≤ data.length) then .panicked
          else
            let image_palette :=
              if needs_palette then
                some (read_palette ((data.drop palette_offset).take
                  (f_header.pixel_array_offset - palette_offset)))
              else none
            if data.length < f_header.pixel_array_offset + image_size_in_bytes then
              .panicked
            else
              let image_data_slice := (data.drop f_header.pixel_array_offset).take
                image_size_in_bytes
              match interpret_image_data image_data_slice info_header image_palette with
              | none => .panicked
              | some image_data =>
                .ok { file_header := f_header
                      info_header := info_header
                      palette     := image_palette
                      image_data  := image_data }

/-- `Bitmap::color_to_alpha` (lib.rs:786-792): in-place loop over the
pixels setting `alpha = 0` on colour matches, modelled as a map. -/
def Bitmap.color_to_alpha (b : Bitmap) (color : BitmapPixel) : Bitmap :=
  { b with image_data := b.image_data.map fun pixel =>
      if pixel.same_color_as color then { pixel with alpha := 0x00 } else pixel }

/-- One exchange of `swap_slice_regions` (lib.rs:948-950): the element-wise
three-assignment swap of positions `i0` and `i1` (out-of-bounds indexing
panics in the source; reads are totalised, `List.set` past the end is the
identity). -/
def swapStep (l : List BitmapPixel) (i0 i1 : ℕ) : List BitmapPixel :=
  let tmp := l.getD i0 zeroPixel
  ((l.set i0 (l.getD i1 zeroPixel)).set i1 tmp)

/-- `swap_slice_regions` (lib.rs:934-952) specialised to pixels: walks the
two ranges in lockstep (the ranges of `mirror_vertically` have equal
length `n`) swapping element pairs front to back. -/
def swap_slice_regions (l : List BitmapPixel) (s0 s1 : ℕ) : ℕ → List BitmapPixel
  | 0 => l
  | n + 1 => swap_slice_regions (swapStep l s0 s1) (s0 + 1) (s1 + 1) n

/-- Row loop of `Bitmap::mirror_vertically` (lib.rs:801-812): swaps row
`row_index` with row `height - row_index - 1` for all
`row_index < height / 2`, stride `image_width`. -/
def mirror_loop (l : List BitmapPixel) (stride height row_index : ℕ) :
    List BitmapPixel :=
  if row_index < height / 2 then
    mirror_loop
      (swap_slice_regions l (row_index * stride)
        ((height - row_index - 1) * stride) stride)
      stride height (row_index + 1)
  else l
termination_by height / 2 - row_index

/-- `Bitmap::mirror_vertically` (lib.rs:797-813). -/
def Bitmap.mirror_vertically (b : Bitmap) : Bitmap :=
  { b with image_data := (mirror_loop b.image_data b.info_header.image_width
      b.info_header.image_height 0) }

/-- `Bitmap::copy_rect_from` (lib.rs:917-931): row-major copy of the
rectangle into a fresh pixel list (the source pushes onto the initially
empty `image_data` of a `lazy_new` bitmap). -/
def copy_rect_from (other : Bitmap) (x0 y0 width height : ℕ) : List BitmapPixel :=
  (List.range height).flatMap fun r =>
    (List.range width).map fun c =>
      other.image_data.getD ((y0 + r) * other.info_header.image_width + (x0 + c))
        zeroPixel

/-- `Bitmap::crop_to_rect` (lib.rs:827-844): bounds validation returning
`InvalidOperation`, then a copy into a default-format bitmap. -/
def Bitmap.crop_to_rect (b : Bitmap) (x0 y0 width height : ℕ) :
    Except BitmapError Bitmap :=
  if b.info_header.image_width ≤ x0 ∨ b.info_header.image_height ≤ y0 then
    .error .invalidOperation
  else if b.info_header.image_width < x0 + width ∨
      b.info_header.image_height < y0 + height then
    .error .invalidOperation
  else
    let result := Bitmap.lazy_new_default width height
    .ok { result with image_data := copy_rect_from b x0 y0 width height }

/-!  ### Specification-side helper definitions -/

/-- Fuel-bounded trailing-zero count, the specification-side mirror of the
`mask_offset_and_shifted` loop. -/
def tzcAux (m : ℕ) : ℕ → ℕ
  | 0 => 0
  | fuel + 1 => if m &&& 1 = 0 then tzcAux (m >>> 1) fuel + 1 else 0

/-- Trailing-zero count of a nonzero natural number below `2^64`. -/
def tzc (m : ℕ) : ℕ := tzcAux m 64

/-- Forcing a pixel's alpha channel to `0xff`, the transformation the
round-trip claims predict for every format without a usable alpha
channel. -/
def forceAlpha (p : BitmapPixel) : BitmapPixel :=
  { p with alpha := 0xff }

/-- Index permutation performed by `swap_slice_regions` on two disjoint
in-bounds regions `[s0, s0+n)` and `[s1, s1+n)`. -/
def swapIdx (s0 s1 n j : ℕ) : ℕ :=
  if s0 ≤ j ∧ j < s0 + n then j - s0 + s1
  else if s1 ≤ j ∧ j < s1 + n then j - s1 + s0
  else j

/-- A 78-byte BMP buffer whose header declares a 1-by-1 32-bit BitFields
image but whose `image_size` field claims 8 bytes of pixel data: magic
"BM", file size 78, pixel array offset 70, 56-byte info header with masks
red `0x00ff0000`, green `0x0000ff00`, blue `0x000000ff`,
alpha `0xff000000`, followed by 8 zero pixel bytes. -/
def c2buf : List ℕ :=
  [0x42, 0x4d, 78, 0, 0, 0, 0, 0, 0, 0, 70, 0, 0, 0,
   56, 0, 0, 0, 1, 0, 0, 0, 1, 0, 0, 0, 1, 0, 32, 0, 3, 0, 0, 0,
   8, 0, 0, 0, 0, 0, 0, 0, 0, 0, 0, 0, 0, 0, 0, 0, 0, 0, 0, 0,
   0x00, 0x00, 0xff, 0x00, 0x00, 0xff, 0x00, 0x00,
   0xff, 0x00, 0x00, 0x00, 0x00, 0x00, 0x00, 0xff,
   0, 0, 0, 0, 0, 0, 0, 0]

/-- The info header parsed from `c2buf`. -/
def c2ih : BitmapInfoHeader :=
  { info_header_size := 56, image_width := 1, image_height := 1,
    n_planes := 1, bits_per_pixel := 32, compression_type := 3,
    image_size := 8, pixels_per_meter_x := 0, pixels_per_meter_y := 0,
    colors_used := 0, colors_important := 0,
    red_mask := 0x00ff0000, green_mask := 0x0000ff00,
    blue_mask := 0x000000ff, alpha_mask := 0xff000000, is_top_down := false }

/-- The bitmap `Bitmap::from_data` successfully produces from `c2buf`:
two decoded pixels for a header that declares a single one. -/
def c2bmp : Bitmap :=
  { file_header := ⟨0x4d42, 78, 0, 0, 70⟩
    info_header := c2ih
    palette := none
    image_data := [⟨0, 0, 0, 0⟩, ⟨0, 0, 0, 0⟩] }

/-- A well-formed 58-byte buffer declaring an unsupported pixel format:
1-by-1 image, `bits_per_pixel = 2`, `Uncompressed`, 40-byte info header,
pixel array at offset 54 with 4 bytes of data. -/
def c4buf : List ℕ :=
  [0x42, 0x4d, 58, 0, 0, 0, 0, 0, 0, 0, 54, 0, 0, 0,
   40, 0, 0, 0, 1, 0, 0, 0, 1, 0, 0, 0, 1, 0, 2, 0, 0, 0, 0, 0,
   0, 0, 0, 0, 0, 0, 0, 0, 0, 0, 0, 0, 0, 0, 0, 0, 0, 0, 0, 0,
   0, 0, 0, 0]

/-- The info header parsed from `c4buf`. -/
def c4ih : BitmapInfoHeader :=
  { info_header_size := 40, image_width := 1, image_height := 1,
    n_planes := 1, bits_per_pixel := 2, compression_type := 0,
    image_size := 0, pixels_per_meter_x := 0, pixels_per_meter_y := 0,
    colors_used := 0, colors_important := 0,
    red_mask := 0, green_mask := 0, blue_mask := 0, alpha_mask := 0,
    is_top_down := false }

/-- Fuel-indexed evaluation twin of `read_32_bitfield_loop`, used to
compute the loop on concrete inputs (the well-founded original does not
reduce inside `decide`); `read_32_bitfield_loop_eq_fuel` proves them
equal when the fuel covers the remaining bytes. -/
def read_32_bitfield_fuel (data : List ℕ)
    (idx red_offset green_offset blue_offset alpha_offset alpha_mask : ℕ) :
    ℕ → List BitmapPixel
  | 0 => []
  | fuel + 1 =>
    if idx < data.length then
      let pixel_value := u32At data idx
      ({ blue  := (pixel_value >>> blue_offset) &&& 0xff
         green := (pixel_value >>> green_offset) &&& 0xff
         red   := (pixel_value >>> red_offset) &&& 0xff
         alpha := if alpha_mask = 0 then 0xff
                  else (pixel_value >>> alpha_offset) &&& 0xff } : BitmapPixel) ::
        read_32_bitfield_fuel data (idx + 4)
          red_offset green_offset blue_offset alpha_offset alpha_mask fuel
    else []

/-- Fuel-indexed evaluation twin of `read_16_bitfield_loop`; see
`read_32_bitfield_fuel`. -/
def read_16_bitfield_fuel (data : List ℕ) (idx column_index image_width : ℕ)
    (red_offset red_shifted green_offset green_shifted
     blue_offset blue_shifted alpha_offset alpha_shifted : ℕ)
    (red_mask green_mask blue_mask alpha_mask : ℕ) : ℕ → List BitmapPixel
  | 0 => []
  | fuel + 1 =>
    if idx < data.length then
      let idx1 := if column_index = image_width then align4 idx else idx
      let column1 := if column_index = image_width then 0 else column_index
      if idx1 < data.length then
        let pixel_value := u16At data idx1
        ({ blue  := map_zero_based (((pixel_value &&& blue_mask) >>> blue_offset) % 256)
              blue_shifted 0xff
           green := map_zero_based (((pixel_value &&& green_mask) >>> green_offset) % 256)
              green_shifted 0xff
           red   := map_zero_based (((pixel_value &&& red_mask) >>> red_offset) % 256)
              red_shifted 0xff
           alpha := if alpha_mask = 0 then 0xff
                    else map_zero_based
                      (((pixel_value &&& alpha_mask) >>> alpha_offset) % 256)
                      alpha_shifted 0xff } : BitmapPixel) ::
          read_16_bitfield_fuel data (idx1 + 2) (column1 + 1) image_width
            red_offset red_shifted green_offset green_shifted
            blue_offset blue_shifted alpha_offset alpha_shifted
            red_mask green_mask blue_mask alpha_mask fuel
      else []
    else []

/-- Fuel-indexed twin of `read_16_uncompressed_loop`, for kernel
evaluation on concrete buffers. -/
def read_16_uncompressed_fuel (data : List ℕ) (idx column_index image_width : ℕ) :
    ℕ → List BitmapPixel
  | 0 => []
  | fuel + 1 =>
    if idx < data.length then
      let idx1 := if column_index = image_width then align4 idx else idx
      let column1 := if column_index = image_width then 0 else column_index
      if idx1 < data.length then
        let pixel_value := u16At data idx1
        ({ blue  := map_zero_based (pixel_value &&& 0x1f) 0x1f 0xff
           green := map_zero_based ((pixel_value >>> 5) &&& 0x1f) 0x1f 0xff
           red   := map_zero_based ((pixel_value >>> 10) &&& 0x1f) 0x1f 0xff
           alpha := 0xff : BitmapPixel }) ::
          read_16_uncompressed_fuel data (idx1 + 2) (column1 + 1) image_width fuel
      else []
    else []

/-- Minimal info header driving the codec dispatch in the round-trip
statements: only the fields `interpret_image_data`/`pixels_into_data` and
the per-format readers/writers consult are populated. -/
def mkC1Header (image_width image_height bits_per_pixel compression_type
    red_mask green_mask blue_mask alpha_mask : ℕ) : BitmapInfoHeader :=
  { info_header_size   := if compression_type = ctBitFields then 56 else 40
    image_width        := image_width
    image_height       := image_height
    n_planes           := 1
    bits_per_pixel     := bits_per_pixel
    compression_type   := compression_type
    image_size         := 0
    pixels_per_meter_x := 0
    pixels_per_meter_y := 0
    colors_used        := 0
    colors_important   := 0
    red_mask           := red_mask
    green_mask         := green_mask
    blue_mask          := blue_mask
    alpha_mask         := alpha_mask
    is_top_down        := false }

/-- The `height` rows of `width` pixels of a row-major grid, the shape in
which the encoders consume and the decoders reproduce a pixel list. -/
def chunksOf (w : ℕ) : ℕ → List BitmapPixel → List (List BitmapPixel)
  | 0, _ => []
  | h + 1, px => px.take w :: chunksOf w h (px.drop w)

/-- Spec-side abbreviation: the bytes `write_4_uncompressed` emits for one
row (`width / 2` packed pair bytes plus the odd high-nibble byte). -/
def write4_row_bytes (row : List BitmapPixel) (image_palette : List BitmapPixel)
    (image_width : ℕ) : List ℕ :=
  write_4_pairs row image_palette (image_width / 2) ++
  (if image_width / 2 * 2 < image_width then
    [((((row.getD (image_width / 2 * 2) zeroPixel).find_closest_by_index
        image_palette % 256) <<< 4) % 256)]
  else [])

/-- Spec-side abbreviation: the bytes `write_1_uncompressed` emits for one
row (`width / 8` full 8-pixel bytes plus the partial byte for the
`width % 8` leftover pixels). -/
def write1_row_bytes (row : List BitmapPixel) (image_palette : List BitmapPixel)
    (image_width : ℕ) : List ℕ :=
  write_1_blocks row image_palette (image_width / 8) ++
  (if image_width - image_width / 8 * 8 ≠ 0 then
    [byte_from_pixels image_palette
      ((row.drop (image_width / 8 * 8)).take (image_width - image_width / 8 * 8))]
  else [])

end BitmapIO

namespace BitmapIO

/-!  ## Theorems -/

theorem tzcAux_spec (fuel : ℕ) : ∀ m, m ≠ 0 → m < 2 ^ fuel →
    (m.testBit (tzcAux m fuel) = true ∧
      ∀ j < tzcAux m fuel, m.testBit j = false) := by
  induction fuel with
  | zero => intro m h0 hlt; simp at hlt; omega
  | succ fuel ih =>
    intro m h0 hlt
    by_cases heven : m &&& 1 = 0
    · have hmod : m % 2 = 0 := by rwa [Nat.and_one_is_mod] at heven
      have htz : tzcAux m (fuel + 1) = tzcAux (m / 2) fuel + 1 := by
        rw [tzcAux, if_pos heven, Nat.shiftRight_one]
      have hne : m / 2 ≠ 0 := by omega
      have hlt2 : m / 2 < 2 ^ fuel := by
        rw [pow_succ] at hlt; omega
      have hrec := ih (m / 2) hne hlt2
      rw [htz]
      refine ⟨?_, ?_⟩
      · rw [Nat.testBit_add_one]; exact hrec.1
      · intro j hj
        cases j with
        | zero => rw [Nat.testBit_zero]; simp; omega
        | succ k =>
          rw [Nat.testBit_add_one]
          exact hrec.2 k (by omega)
    · have hmod : m % 2 = 1 := by
        rw [Nat.and_one_is_mod] at heven; omega
      have htz : tzcAux m (fuel + 1) = 0 := by
        rw [tzcAux, if_neg heven]
      rw [htz]
      refine ⟨?_, ?_⟩
      · rw [Nat.testBit_zero]; simp only [hmod]; decide
      · intro j hj; omega

theorem mask_offset_loop_tzc (fuel : ℕ) : ∀ mask off (h : mask ≠ 0),
    mask < 2 ^ fuel → fuel ≤ 64 →
    mask_offset_loop mask off h =
      (off + tzcAux mask fuel, mask >>> tzcAux mask fuel) := by
  induction fuel with
  | zero => intro mask off h hlt _; simp at hlt; omega
  | succ fuel ih =>
    intro mask off h hlt hfuel
    rw [mask_offset_loop]
    by_cases heven : mask &&& 1 = 0
    · simp only [dif_pos heven]
      have hne : mask >>> 1 ≠ 0 := by
        rw [Nat.shiftRight_one]
        rw [Nat.and_one_is_mod] at heven
        omega
      have hlt2 : mask >>> 1 < 2 ^ fuel := by
        rw [Nat.shiftRight_one]
        rw [pow_succ] at hlt; omega
      have htz : tzcAux mask (fuel + 1) = tzcAux (mask >>> 1) fuel + 1 := by
        rw [tzcAux, if_pos heven]
      rw [ih (mask >>> 1) (off + 1) hne hlt2 (by omega), htz]
      refine congrArg₂ Prod.mk (by omega) ?_
      rw [← Nat.shiftRight_add, Nat.add_comm]
    · simp only [dif_neg heven]
      have htz : tzcAux mask (fuel + 1) = 0 := by
        rw [tzcAux, if_neg heven]
      rw [htz]
      simp

theorem mask_offset_and_shifted_eq (mask : ℕ) (h0 : mask ≠ 0)
    (hlt : mask < 2 ^ 64) :
    mask_offset_and_shifted mask = (tzc mask, mask >>> tzc mask) := by
  rw [mask_offset_and_shifted, dif_neg h0]
  have := mask_offset_loop_tzc 64 mask 0 h0 hlt (by omega)
  simpa [tzc] using this

/-- C5.  For every 32-bit mask: a zero mask yields `(0, 0)`; a nonzero mask
yields the bit position of its lowest set bit as the offset, together with
the mask shifted right by that offset. -/
theorem c5_mask_analyzer (mask : ℕ) (h32 : mask < 2 ^ 32) :
    (mask = 0 → mask_offset_and_shifted mask = (0, 0)) ∧
    (mask ≠ 0 →
      mask.testBit (mask_offset_and_shifted mask).1 = true ∧
      (∀ j < (mask_offset_and_shifted mask).1, mask.testBit j = false) ∧
      (mask_offset_and_shifted mask).2 = mask >>> (mask_offset_and_shifted mask).1) := by
  constructor
  · intro h0
    rw [mask_offset_and_shifted, dif_pos h0]
  · intro h0
    have h64 : mask < 2 ^ 64 := lt_of_lt_of_le h32 (by norm_num)
    rw [mask_offset_and_shifted_eq mask h0 h64]
    have := tzcAux_spec 64 mask h0 h64
    exact ⟨this.1, this.2, rfl⟩

/-- Witness for C5 at the nonzero mask `0x0000FF00` (the spec's own
example: offset 8, shifted value `0xFF`). -/
theorem c5_mask_analyzer_witness :
    Nat.testBit 0x0000FF00 (mask_offset_and_shifted 0x0000FF00).1 = true ∧
    (∀ j < (mask_offset_and_shifted 0x0000FF00).1, Nat.testBit 0x0000FF00 j = false) ∧
    (mask_offset_and_shifted 0x0000FF00).2 =
      0x0000FF00 >>> (mask_offset_and_shifted 0x0000FF00).1 :=
  (c5_mask_analyzer 0x0000FF00 (by norm_num)).2 (by norm_num)

/-- C6, counterexample.  The claim predicts
`scale(8, 255, 31) = round(8 * 31 / 255) = round(0.9725…) = 1`, but the
code truncates the `f32` product toward zero and returns `0`. -/
theorem c6_scaling_counterexample :
    map_zero_based 8 255 31 = 0 ∧ round ((8 * 31 : ℚ) / 255) = 1 :=
  ⟨by decide, by norm_num [round_eq]⟩

set_option maxRecDepth 100000 in
/-- C6, amended.  The no-op cases (`fromMax = toMax` or `fromMax = 0`)
leave the value unchanged and a zero value stays zero; otherwise the
operation computes the linear rescale in 32-bit floating point and
truncates it toward zero (it does not round to nearest): on the 5-bit /
8-bit conversions the codec performs, the result is exactly
`⌊v * toMax / fromMax⌋`. -/
theorem c6_scaling_amended :
    (∀ v m, map_zero_based v m m = v) ∧
    (∀ v t, map_zero_based v 0 t = v) ∧
    (∀ fromMax toMax, fromMax ≠ 0 → map_zero_based 0 fromMax toMax = 0) ∧
    (∀ v < 256, map_zero_based v 255 31 = v * 31 / 255) ∧
    (∀ v < 32, map_zero_based v 31 255 = v * 255 / 31) := by
  refine ⟨?_, ?_, ?_, by decide, by decide⟩
  · intro v m; simp [map_zero_based]
  · intro v t; simp [map_zero_based]
  · intro fromMax toMax h0
    by_cases he : fromMax = toMax
    · simp [map_zero_based, he]
    · simp only [map_zero_based, if_neg (by tauto)]
      simp [f32ofNat, norm24, bitLen, bitLenAux, f32div, f32mul, f32toU8]

/-- Witness for C6's amended theorem at `v = 17`, `fromMax = 255`,
`toMax = 31`. -/
theorem c6_scaling_amended_witness :
    map_zero_based 17 255 31 = 17 * 31 / 255 :=
  c6_scaling_amended.2.2.2.1 17 (by norm_num)

/-!  ### Palette nearest-match (C7, C9) -/

theorem find_closest_loop_invariant (p : BitmapPixel) (pal : List BitmapPixel) :
    ∀ rest b ci bd, rest = pal.drop ci → b < ci → ci ≤ pal.length →
    bd = p.distance_squared (pal.getD b zeroPixel) →
    (∀ k < ci, bd ≤ p.distance_squared (pal.getD k zeroPixel)) →
    (∀ k < b, bd < p.distance_squared (pal.getD k zeroPixel)) →
    (find_closest_loop p rest bd b ci < pal.length ∧
      (∀ k < pal.length,
        p.distance_squared (pal.getD (find_closest_loop p rest bd b ci) zeroPixel) ≤
          p.distance_squared (pal.getD k zeroPixel)) ∧
      (∀ k < find_closest_loop p rest bd b ci,
        p.distance_squared (pal.getD (find_closest_loop p rest bd b ci) zeroPixel) <
          p.distance_squared (pal.getD k zeroPixel))) := by
  intro rest
  induction rest with
  | nil =>
    intro b ci bd hdrop hb hci hbd hmin hstrict
    have hlen : pal.length ≤ ci := by
      by_contra hc
      push_neg at hc
      have : (pal.drop ci).length = pal.length - ci := List.length_drop ..
      rw [← hdrop] at this
      simp at this
      omega
    have hci' : ci = pal.length := by omega
    simp only [find_closest_loop]
    subst hbd
    exact ⟨by omega, fun k hk => hmin k (by omega), hstrict⟩
  | cons q t ih =>
    intro b ci bd hdrop hb hci hbd hmin hstrict
    have hcilt : ci < pal.length := by
      by_contra hc
      push_neg at hc
      rw [List.drop_eq_nil_of_le hc] at hdrop
      exact List.cons_ne_nil q t hdrop
    have hq : q = pal.getD ci zeroPixel := by
      have h0 : pal[ci]? = some q := by
        have h1 := List.getElem?_drop pal ci 0
        rw [← hdrop] at h1
        simpa using h1.symm
      rw [List.getD_eq_getElem?_getD, h0]
      rfl
    have ht : t = pal.drop (ci + 1) := by
      have : (pal.drop ci).drop 1 = pal.drop (ci + 1) := by
        rw [List.drop_drop]
      rw [← hdrop] at this
      simpa using this
    simp only [find_closest_loop]
    by_cases hlt : p.distance_squared q < bd
    · simp only [if_pos hlt]
      refine ih ci (ci + 1) (p.distance_squared q) ht (by omega) (by omega)
        (by rw [hq]) ?_ ?_
      · intro k hk
        rcases Nat.lt_succ_iff_lt_or_eq.mp hk with hk' | hk'
        · have := hmin k hk'
          omega
        · subst hk'; rw [← hq]
      · intro k hk
        have := hmin k hk
        omega
    · simp only [if_neg hlt]
      refine ih b (ci + 1) bd ht (by omega) (by omega) hbd ?_ hstrict
      intro k hk
      rcases Nat.lt_succ_iff_lt_or_eq.mp hk with hk' | hk'
      · exact hmin k hk'
      · subst hk'; rw [← hq]; omega

/-- Combined scan invariant for `find_closest_by_index`: in-bounds result,
minimality, and first-encountered minimum. -/
theorem find_closest_props (p : BitmapPixel) (pal : List BitmapPixel)
    (hne : pal ≠ []) :
    p.find_closest_by_index pal < pal.length ∧
    (∀ k < pal.length,
      p.distance_squared (pal.getD (p.find_closest_by_index pal) zeroPixel) ≤
        p.distance_squared (pal.getD k zeroPixel)) ∧
    (∀ k < p.find_closest_by_index pal,
      p.distance_squared (pal.getD (p.find_closest_by_index pal) zeroPixel) <
        p.distance_squared (pal.getD k zeroPixel)) := by
  match pal, hne with
  | first :: rest, _ =>
    have hinv := find_closest_loop_invariant p (first :: rest) rest 0 1
      (p.distance_squared first) (by simp) (by omega) (by simp)
      (by simp [List.getD]) ?_ (by omega)
    · have heq : p.find_closest_by_index (first :: rest) =
          find_closest_loop p rest (p.distance_squared first) 0 1 := rfl
      rw [heq]
      exact hinv
    · intro k hk
      interval_cases k
      simp [List.getD]

/-- C7.  For a non-empty palette, `find_closest_by_index` returns the index
of an entry minimising the squared red/green/blue distance, and the least
such index when several entries attain the minimum. -/
theorem c7_find_closest_minimal (p : BitmapPixel) (pal : List BitmapPixel)
    (hne : pal ≠ []) :
    (∀ k < pal.length,
      p.distance_squared (pal.getD (p.find_closest_by_index pal) zeroPixel) ≤
        p.distance_squared (pal.getD k zeroPixel)) ∧
    (∀ k < p.find_closest_by_index pal,
      p.distance_squared (pal.getD (p.find_closest_by_index pal) zeroPixel) <
        p.distance_squared (pal.getD k zeroPixel)) :=
  ⟨(find_closest_props p pal hne).2.1, (find_closest_props p pal hne).2.2⟩

/-- Witness for C7: palette `[black, white]`; the pixel `(10,10,10)` is
closest to index 0 and the returned index satisfies both minimality
conjuncts. -/
theorem c7_find_closest_minimal_witness :
    (∀ k < ([BitmapPixel.rgb 0 0 0, BitmapPixel.rgb 255 255 255] :
        List BitmapPixel).length,
      (BitmapPixel.rgb 10 10 10).distance_squared
        (([BitmapPixel.rgb 0 0 0, BitmapPixel.rgb 255 255 255] :
          List BitmapPixel).getD
            ((BitmapPixel.rgb 10 10 10).find_closest_by_index
              [BitmapPixel.rgb 0 0 0, BitmapPixel.rgb 255 255 255]) zeroPixel) ≤
        (BitmapPixel.rgb 10 10 10).distance_squared
          (([BitmapPixel.rgb 0 0 0, BitmapPixel.rgb 255 255 255] :
            List BitmapPixel).getD k zeroPixel)) ∧
    (∀ k < (BitmapPixel.rgb 10 10 10).find_closest_by_index
        [BitmapPixel.rgb 0 0 0, BitmapPixel.rgb 255 255 255],
      (BitmapPixel.rgb 10 10 10).distance_squared
        (([BitmapPixel.rgb 0 0 0, BitmapPixel.rgb 255 255 255] :
          List BitmapPixel).getD
            ((BitmapPixel.rgb 10 10 10).find_closest_by_index
              [BitmapPixel.rgb 0 0 0, BitmapPixel.rgb 255 255 255]) zeroPixel) <
        (BitmapPixel.rgb 10 10 10).distance_squared
          (([BitmapPixel.rgb 0 0 0, BitmapPixel.rgb 255 255 255] :
            List BitmapPixel).getD k zeroPixel)) :=
  c7_find_closest_minimal (BitmapPixel.rgb 10 10 10)
    [BitmapPixel.rgb 0 0 0, BitmapPixel.rgb 255 255 255] (by simp)

/-- C9.  For a non-empty palette the returned index is strictly below the
palette length, hence always valid. -/
theorem c9_find_closest_in_bounds (p : BitmapPixel) (pal : List BitmapPixel)
    (hne : pal ≠ []) :
    p.find_closest_by_index pal < pal.length :=
  (find_closest_props p pal hne).1

/-- Witness for C9: the pixel `(200,200,200)` against `[black, white]`. -/
theorem c9_find_closest_in_bounds_witness :
    (BitmapPixel.rgb 200 200 200).find_closest_by_index
      [BitmapPixel.rgb 0 0 0, BitmapPixel.rgb 255 255 255] <
    ([BitmapPixel.rgb 0 0 0, BitmapPixel.rgb 255 255 255] :
      List BitmapPixel).length :=
  c9_find_closest_in_bounds (BitmapPixel.rgb 200 200 200)
    [BitmapPixel.rgb 0 0 0, BitmapPixel.rgb 255 255 255] (by simp)

theorem distance_squared_eq_zero_iff (p q : BitmapPixel) :
    p.distance_squared q = 0 ↔
      q.red = p.red ∧ q.green = p.green ∧ q.blue = p.blue := by
  unfold BitmapPixel.distance_squared
  constructor
  · intro h
    set dr : ℤ := (p.red : ℤ) - (q.red : ℤ) with hdr
    set dg : ℤ := (p.green : ℤ) - (q.green : ℤ) with hdg
    set db : ℤ := (p.blue : ℤ) - (q.blue : ℤ) with hdb
    have hr := mul_self_nonneg dr
    have hg := mul_self_nonneg dg
    have hb := mul_self_nonneg db
    simp only at h
    have hsum : dr * dr + dg * dg + db * db = 0 := by
      have := Int.toNat_eq_zero.mp h
      omega
    have hdr0 : dr = 0 := by nlinarith
    have hdg0 : dg = 0 := by nlinarith
    have hdb0 : db = 0 := by nlinarith
    refine ⟨?_, ?_, ?_⟩ <;> omega
  · intro ⟨h1, h2, h3⟩
    simp [h1, h2, h3]

/-- If some palette entry matches the pixel's colour exactly, the entry at
the returned index matches it exactly as well. -/
theorem find_closest_exact (p : BitmapPixel) (pal : List BitmapPixel)
    (hne : pal ≠ []) (q : BitmapPixel) (hq : q ∈ pal)
    (hcolor : q.red = p.red ∧ q.green = p.green ∧ q.blue = p.blue) :
    (pal.getD (p.find_closest_by_index pal) zeroPixel).red = p.red ∧
    (pal.getD (p.find_closest_by_index pal) zeroPixel).green = p.green ∧
    (pal.getD (p.find_closest_by_index pal) zeroPixel).blue = p.blue := by
  obtain ⟨j, hj, hjq⟩ := List.getElem_of_mem hq
  have hq0 : p.distance_squared (pal.getD j zeroPixel) = 0 := by
    rw [List.getD_eq_getElem?_getD, List.getElem?_eq_getElem hj]
    simp only [Option.getD_some, hjq]
    exact (distance_squared_eq_zero_iff p q).mpr hcolor
  have hmin := (find_closest_props p pal hne).2.1 j hj
  rw [hq0] at hmin
  exact (distance_squared_eq_zero_iff p _).mp (by omega)

/-!  ### Colour-to-alpha (C10) -/

/-- C10.  `color_to_alpha` zeroes the alpha of exactly the pixels whose
red, green and blue channels equal the target's, leaving both headers, the
palette, the grid size, every colour channel and every non-matching
pixel's alpha unchanged. -/
theorem c10_color_to_alpha (b : Bitmap) (color : BitmapPixel) :
    (b.color_to_alpha color).file_header = b.file_header ∧
    (b.color_to_alpha color).info_header = b.info_header ∧
    (b.color_to_alpha color).palette = b.palette ∧
    (b.color_to_alpha color).image_data.length = b.image_data.length ∧
    (∀ i < b.image_data.length,
      (b.color_to_alpha color).image_data.getD i zeroPixel =
        (if (b.image_data.getD i zeroPixel).red = color.red ∧
            (b.image_data.getD i zeroPixel).green = color.green ∧
            (b.image_data.getD i zeroPixel).blue = color.blue then
          { b.image_data.getD i zeroPixel with alpha := 0x00 }
        else b.image_data.getD i zeroPixel)) := by
  refine ⟨rfl, rfl, rfl, by simp [Bitmap.color_to_alpha], ?_⟩
  intro i hi
  simp only [Bitmap.color_to_alpha]
  rw [List.getD_eq_getElem?_getD, List.getElem?_map,
    List.getElem?_eq_getElem hi]
  rw [List.getD_eq_getElem?_getD, List.getElem?_eq_getElem hi]
  by_cases hc : (b.image_data[i]).red = color.red ∧
      (b.image_data[i]).green = color.green ∧ (b.image_data[i]).blue = color.blue
  · have hbool : (b.image_data[i]).same_color_as color = true := by
      rw [BitmapPixel.same_color_as]
      simp [hc.1, hc.2.1, hc.2.2]
    simp [hbool, hc]
  · have hbool : ¬ ((b.image_data[i]).same_color_as color = true) := by
      rw [BitmapPixel.same_color_as]
      simp only [Bool.and_eq_true, beq_iff_eq]
      tauto
    simp [hbool, hc]

/-- Witness for C10: a two-pixel bitmap, target colour `(1,2,3)`; the
matching pixel's alpha drops to 0 and the header survives. -/
theorem c10_color_to_alpha_witness :
    ((Bitmap.new 2 1 32 ctBitFields).color_to_alpha
        (BitmapPixel.rgba 255 255 255 7)).image_data.getD 0 zeroPixel =
      { (Bitmap.new 2 1 32 ctBitFields).image_data.getD 0 zeroPixel with
          alpha := 0x00 } ∧
    ((Bitmap.new 2 1 32 ctBitFields).color_to_alpha
        (BitmapPixel.rgba 255 255 255 7)).info_header =
      (Bitmap.new 2 1 32 ctBitFields).info_header := by
  have h := c10_color_to_alpha (Bitmap.new 2 1 32 ctBitFields)
    (BitmapPixel.rgba 255 255 255 7)
  refine ⟨?_, h.2.1⟩
  have h0 := h.2.2.2.2 0 (by decide)
  rw [if_pos (by decide)] at h0
  exact h0

/-!  ### Vertical mirror (C8) -/

theorem length_swapStep (l : List BitmapPixel) (i0 i1 : ℕ) :
    (swapStep l i0 i1).length = l.length := by
  simp [swapStep]

theorem length_swap_slice_regions (n : ℕ) : ∀ (l : List BitmapPixel) (s0 s1 : ℕ),
    (swap_slice_regions l s0 s1 n).length = l.length := by
  induction n with
  | zero => intro l s0 s1; rfl
  | succ n ih =>
    intro l s0 s1
    rw [swap_slice_regions, ih, length_swapStep]

theorem getD_swapStep (l : List BitmapPixel) (i0 i1 j : ℕ)
    (h0 : i0 < l.length) (h1 : i1 < l.length) :
    (swapStep l i0 i1).getD j zeroPixel =
      if j = i0 then l.getD i1 zeroPixel
      else if j = i1 then l.getD i0 zeroPixel
      else l.getD j zeroPixel := by
  simp only [swapStep, List.getD_eq_getElem?_getD]
  rw [List.getElem?_set, List.getElem?_set]
  simp only [List.length_set]
  by_cases hj1 : i1 = j
  · rw [if_pos hj1, if_pos (hj1 ▸ h1)]
    simp only [Option.getD_some]
    by_cases hj0 : j = i0
    · rw [if_pos hj0]
      have hii : i0 = i1 := by omega
      rw [hii]
    · rw [if_neg hj0, if_pos hj1.symm]
  · rw [if_neg hj1]
    by_cases hj0 : i0 = j
    · rw [if_pos hj0, if_pos h0, if_pos hj0.symm]
      simp only [Option.getD_some]
    · rw [if_neg hj0, if_neg (fun hh => hj0 hh.symm), if_neg (fun hh => hj1 hh.symm)]

theorem getD_swap_slice_regions (n : ℕ) :
    ∀ (l : List BitmapPixel) (s0 s1 j : ℕ), s0 + n ≤ s1 → s1 + n ≤ l.length →
    (swap_slice_regions l s0 s1 n).getD j zeroPixel =
      l.getD (swapIdx s0 s1 n j) zeroPixel := by
  induction n with
  | zero =>
    intro l s0 s1 j _ _
    simp only [swap_slice_regions, swapIdx]
    have h : ¬ (s0 ≤ j ∧ j < s0 + 0) := by omega
    have h2 : ¬ (s1 ≤ j ∧ j < s1 + 0) := by omega
    rw [if_neg h, if_neg h2]
  | succ n ih =>
    intro l s0 s1 j hd hb
    rw [swap_slice_regions]
    rw [ih (swapStep l s0 s1) (s0 + 1) (s1 + 1) j (by omega)
      (by rw [length_swapStep]; omega)]
    rw [getD_swapStep l s0 s1 _ (by omega) (by omega)]
    simp only [swapIdx]
    split_ifs <;> first | rfl | omega | (congr 1; omega)

theorem swapIdx_involutive (s0 s1 n j : ℕ) (hd : s0 + n ≤ s1) :
    swapIdx s0 s1 n (swapIdx s0 s1 n j) = j := by
  simp only [swapIdx]
  split_ifs <;> omega

theorem swap_slice_regions_involutive (l : List BitmapPixel) (s0 s1 n : ℕ)
    (hd : s0 + n ≤ s1) (hb : s1 + n ≤ l.length) :
    swap_slice_regions (swap_slice_regions l s0 s1 n) s0 s1 n = l := by
  have hlen : (swap_slice_regions (swap_slice_regions l s0 s1 n) s0 s1 n).length =
      l.length := by
    rw [length_swap_slice_regions, length_swap_slice_regions]
  apply List.ext_getElem hlen
  intro j hj hj'
  have hgd := getD_swap_slice_regions n (swap_slice_regions l s0 s1 n) s0 s1 j hd
    (by rw [length_swap_slice_regions]; omega)
  rw [getD_swap_slice_regions n l s0 s1 _ hd hb, swapIdx_involutive _ _ _ _ hd] at hgd
  rw [List.getD_eq_getElem?_getD, List.getElem?_eq_getElem hj] at hgd
  rw [List.getD_eq_getElem?_getD, List.getElem?_eq_getElem hj'] at hgd
  simpa using hgd

theorem swapIdx_comm (a0 a1 b0 b1 n j : ℕ)
    (h1 : a0 + n ≤ b0) (h2 : b0 + n ≤ b1) (h3 : b1 + n ≤ a1) :
    swapIdx a0 a1 n (swapIdx b0 b1 n j) = swapIdx b0 b1 n (swapIdx a0 a1 n j) := by
  simp only [swapIdx]
  split_ifs <;> omega

theorem swap_slice_regions_comm (l : List BitmapPixel) (a0 a1 b0 b1 n : ℕ)
    (h1 : a0 + n ≤ b0) (h2 : b0 + n ≤ b1) (h3 : b1 + n ≤ a1)
    (hb : a1 + n ≤ l.length) :
    swap_slice_regions (swap_slice_regions l a0 a1 n) b0 b1 n =
      swap_slice_regions (swap_slice_regions l b0 b1 n) a0 a1 n := by
  have hab : a0 + n ≤ a1 := by omega
  have hcd : b0 + n ≤ b1 := h2
  have hbl : b1 + n ≤ l.length := by omega
  have hlen : (swap_slice_regions (swap_slice_regions l a0 a1 n) b0 b1 n).length =
      (swap_slice_regions (swap_slice_regions l b0 b1 n) a0 a1 n).length := by
    simp only [length_swap_slice_regions]
  apply List.ext_getElem hlen
  intro j hj hj'
  have e1 := getD_swap_slice_regions n (swap_slice_regions l a0 a1 n) b0 b1 j hcd
    (by rw [length_swap_slice_regions]; omega)
  rw [getD_swap_slice_regions n l a0 a1 _ hab hb] at e1
  have e2 := getD_swap_slice_regions n (swap_slice_regions l b0 b1 n) a0 a1 j hab
    (by rw [length_swap_slice_regions]; omega)
  rw [getD_swap_slice_regions n l b0 b1 _ hcd hbl] at e2
  have heq : l.getD (swapIdx a0 a1 n (swapIdx b0 b1 n j)) zeroPixel =
      l.getD (swapIdx b0 b1 n (swapIdx a0 a1 n j)) zeroPixel := by
    rw [swapIdx_comm a0 a1 b0 b1 n j h1 h2 h3]
  rw [heq] at e1
  rw [← e2] at e1
  rw [List.getD_eq_getElem?_getD, List.getElem?_eq_getElem hj] at e1
  rw [List.getD_eq_getElem?_getD, List.getElem?_eq_getElem hj'] at e1
  simpa using e1

theorem length_mirror_loop (stride height : ℕ) : ∀ (fuel i : ℕ)
    (l : List BitmapPixel), height / 2 ≤ i + fuel →
    (mirror_loop l stride height i).length = l.length := by
  intro fuel
  induction fuel with
  | zero =>
    intro i l hf
    rw [mirror_loop, if_neg (by omega)]
  | succ fuel ih =>
    intro i l hf
    by_cases h : i < height / 2
    · rw [mirror_loop, if_pos h, ih (i + 1) _ (by omega),
        length_swap_slice_regions]
    · rw [mirror_loop, if_neg h]

theorem mirror_swap_comm (stride height : ℕ) : ∀ (fuel k a : ℕ)
    (m : List BitmapPixel), height / 2 ≤ k + fuel → a < k → a < height / 2 →
    m.length = stride * height →
    swap_slice_regions (mirror_loop m stride height k) (a * stride)
        ((height - a - 1) * stride) stride =
      mirror_loop (swap_slice_regions m (a * stride)
        ((height - a - 1) * stride) stride) stride height k := by
  intro fuel
  induction fuel with
  | zero =>
    intro k a m hf ha ha2 hlen
    rw [mirror_loop, if_neg (by omega), mirror_loop, if_neg (by omega)]
  | succ fuel ih =>
    intro k a m hf ha ha2 hlen
    by_cases h : k < height / 2
    · have hc1 : a * stride + stride ≤ k * stride := by
        calc a * stride + stride = (a + 1) * stride := by ring
          _ ≤ k * stride := Nat.mul_le_mul_right stride (by omega)
      have hc2 : k * stride + stride ≤ (height - k - 1) * stride := by
        calc k * stride + stride = (k + 1) * stride := by ring
          _ ≤ (height - k - 1) * stride := Nat.mul_le_mul_right stride (by omega)
      have hc3 : (height - k - 1) * stride + stride ≤ (height - a - 1) * stride := by
        calc (height - k - 1) * stride + stride
            = (height - k - 1 + 1) * stride := by ring
          _ ≤ (height - a - 1) * stride := Nat.mul_le_mul_right stride (by omega)
      have hc4 : (height - a - 1) * stride + stride ≤ m.length := by
        rw [hlen]
        calc (height - a - 1) * stride + stride
            = (height - a - 1 + 1) * stride := by ring
          _ ≤ height * stride := Nat.mul_le_mul_right stride (by omega)
          _ = stride * height := Nat.mul_comm ..
      have hunfold : mirror_loop m stride height k =
          mirror_loop (swap_slice_regions m (k * stride)
            ((height - k - 1) * stride) stride) stride height (k + 1) := by
        rw [mirror_loop, if_pos h]
      rw [hunfold]
      rw [ih (k + 1) a _ (by omega) (by omega) ha2
        (by rw [length_swap_slice_regions]; exact hlen)]
      rw [← swap_slice_regions_comm m (a * stride) ((height - a - 1) * stride)
        (k * stride) ((height - k - 1) * stride) stride hc1 hc2 hc3 hc4]
      have hunfold2 : mirror_loop (swap_slice_regions m (a * stride)
            ((height - a - 1) * stride) stride) stride height k =
          mirror_loop (swap_slice_regions (swap_slice_regions m (a * stride)
            ((height - a - 1) * stride) stride) (k * stride)
            ((height - k - 1) * stride) stride) stride height (k + 1) := by
        rw [mirror_loop, if_pos h]
      rw [hunfold2]
    · rw [mirror_loop, if_neg h, mirror_loop, if_neg h]

theorem mirror_loop_involutive (stride height : ℕ) : ∀ (fuel i : ℕ)
    (l : List BitmapPixel), height / 2 ≤ i + fuel →
    l.length = stride * height →
    mirror_loop (mirror_loop l stride height i) stride height i = l := by
  intro fuel
  induction fuel with
  | zero =>
    intro i l hf hlen
    rw [mirror_loop, if_neg (by omega), mirror_loop, if_neg (by omega)]
  | succ fuel ih =>
    intro i l hf hlen
    by_cases h : i < height / 2
    · have hrow : i * stride + stride ≤ (height - i - 1) * stride := by
        calc i * stride + stride = (i + 1) * stride := by ring
          _ ≤ (height - i - 1) * stride := Nat.mul_le_mul_right stride (by omega)
      have hbound : (height - i - 1) * stride + stride ≤ l.length := by
        rw [hlen]
        calc (height - i - 1) * stride + stride
            = (height - i - 1 + 1) * stride := by ring
          _ ≤ height * stride := Nat.mul_le_mul_right stride (by omega)
          _ = stride * height := Nat.mul_comm ..
      have hinner : mirror_loop l stride height i =
          mirror_loop (swap_slice_regions l (i * stride)
            ((height - i - 1) * stride) stride) stride height (i + 1) := by
        rw [mirror_loop, if_pos h]
      rw [hinner]
      have houter : mirror_loop (mirror_loop (swap_slice_regions l (i * stride)
            ((height - i - 1) * stride) stride) stride height (i + 1))
          stride height i =
          mirror_loop (swap_slice_regions (mirror_loop (swap_slice_regions l
            (i * stride) ((height - i - 1) * stride) stride) stride height (i + 1))
            (i * stride) ((height - i - 1) * stride) stride) stride height (i + 1) := by
        rw [mirror_loop, if_pos h]
      rw [houter]
      rw [mirror_swap_comm stride height fuel (i + 1) i _ (by omega) (by omega) h
        (by rw [length_swap_slice_regions]; exact hlen)]
      rw [swap_slice_regions_involutive l (i * stride)
        ((height - i - 1) * stride) stride hrow hbound]
      exact ih (i + 1) l (by omega) hlen
    · rw [mirror_loop, if_neg h, mirror_loop, if_neg h]

/-- C8.  When the pixel grid has exactly `image_width * image_height`
pixels, applying `mirror_vertically` twice restores the pixel sequence
exactly. -/
theorem c8_mirror_involution (b : Bitmap)
    (hlen : b.image_data.length =
      b.info_header.image_width * b.info_header.image_height) :
    b.mirror_vertically.mirror_vertically.image_data = b.image_data := by
  simp only [Bitmap.mirror_vertically]
  exact mirror_loop_involutive b.info_header.image_width
    b.info_header.image_height (b.info_header.image_height / 2) 0
    b.image_data (by omega) hlen

/-- Witness for C8: a 2-by-3 bitmap built by `Bitmap::new`. -/
theorem c8_mirror_involution_witness :
    (Bitmap.new 2 3 32 ctBitFields).mirror_vertically.mirror_vertically.image_data =
      (Bitmap.new 2 3 32 ctBitFields).image_data :=
  c8_mirror_involution (Bitmap.new 2 3 32 ctBitFields) (by decide)

/-!  ### Decode-time validation (C3, C4, C2) -/

theorem from_data_invalid_header (data : List ℕ)
    (h14 : ¬ data.length < FILE_HEADER_SIZE)
    (hbad : ¬ (BitmapFileHeader.from_data (data.take FILE_HEADER_SIZE)).validate = true) :
    Bitmap.from_data data = .err .invalidBitmap := by
  rw [Bitmap.from_data, if_neg h14, if_pos hbad]

theorem from_data_checks (data : List ℕ) (ih : BitmapInfoHeader)
    (h14 : ¬ data.length < FILE_HEADER_SIZE)
    (hval : (BitmapFileHeader.from_data (data.take FILE_HEADER_SIZE)).validate = true)
    (hparse : BitmapInfoHeader.from_data (data.drop FILE_HEADER_SIZE) = some ih) :
    (ih.info_header_size ≠ 40 ∧ ih.info_header_size ≠ 56 →
      Bitmap.from_data data = .err (.unsupportedInfoHeaderSize ih.info_header_size)) ∧
    ((ih.info_header_size = 40 ∨ ih.info_header_size = 56) →
      ih.compression_type ≠ ctUncompressed → ih.compression_type ≠ ctBitFields →
      Bitmap.from_data data =
        .err (.unsupportedCompressionType (compressionFromU32 ih.compression_type))) ∧
    ((ih.info_header_size = 40 ∨ ih.info_header_size = 56) →
      (ih.compression_type = ctUncompressed ∨ ih.compression_type = ctBitFields) →
      ih.n_planes ≠ 1 →
      Bitmap.from_data data = .err (.unsupportedNumberOfPlanes ih.n_planes)) := by
  have hnv : ¬ ¬ (BitmapFileHeader.from_data
      (data.take FILE_HEADER_SIZE)).validate = true := fun hh => hh hval
  refine ⟨?_, ?_, ?_⟩
  · intro hsize
    rw [Bitmap.from_data, if_neg h14, if_neg hnv]
    simp only [hparse]
    rw [if_pos hsize]
  · intro hsize hc1 hc2
    rw [Bitmap.from_data, if_neg h14, if_neg hnv]
    simp only [hparse]
    rw [if_neg (by tauto), if_pos ⟨hc1, hc2⟩]
  · intro hsize hcomp hplanes
    rw [Bitmap.from_data, if_neg h14, if_neg hnv]
    simp only [hparse]
    rw [if_neg (by tauto), if_neg (by tauto), if_pos hplanes]

theorem from_data_decode_nopal (data : List ℕ) (ih : BitmapInfoHeader) (sz : ℕ)
    (h14 : ¬ data.length < FILE_HEADER_SIZE)
    (hval : (BitmapFileHeader.from_data (data.take FILE_HEADER_SIZE)).validate = true)
    (hparse : BitmapInfoHeader.from_data (data.drop FILE_HEADER_SIZE) = some ih)
    (hsize : ¬ (ih.info_header_size ≠ 40 ∧ ih.info_header_size ≠ 56))
    (hcomp : ¬ (ih.compression_type ≠ ctUncompressed ∧
      ih.compression_type ≠ ctBitFields))
    (hplanes : ¬ ih.n_planes ≠ 1)
    (hnopal : ¬ (ih.bits_per_pixel = 1 ∨ ih.bits_per_pixel = 4 ∨
      ih.bits_per_pixel = 8))
    (hsz : sz = if ih.compression_type = ctUncompressed then
        ((ih.image_width * ih.bits_per_pixel +
          pad_to_align (ih.image_width * ih.bits_per_pixel) 8) / 8 +
          pad_to_align ((ih.image_width * ih.bits_per_pixel +
            pad_to_align (ih.image_width * ih.bits_per_pixel) 8) / 8) 4) *
          ih.image_height
      else ih.image_size)
    (hbound : ¬ data.length <
      (BitmapFileHeader.from_data (data.take FILE_HEADER_SIZE)).pixel_array_offset + sz) :
    Bitmap.from_data data =
      match interpret_image_data
          ((data.drop (BitmapFileHeader.from_data
            (data.take FILE_HEADER_SIZE)).pixel_array_offset).take sz) ih none with
      | none => FromDataResult.panicked
      | some image_data =>
        FromDataResult.ok
          { file_header := BitmapFileHeader.from_data (data.take FILE_HEADER_SIZE)
            info_header := ih
            palette := none
            image_data := image_data } := by
  have hnv : ¬ ¬ (BitmapFileHeader.from_data
      (data.take FILE_HEADER_SIZE)).validate = true := fun hh => hh hval
  rw [Bitmap.from_data, if_neg h14, if_neg hnv]
  simp only [hparse]
  rw [if_neg hsize, if_neg hcomp, if_neg hplanes,
    if_neg (fun hcon => hnopal hcon.1), if_neg hnopal, ← hsz, if_neg hbound]

/-- C3.  Whenever a parsed buffer has a wrong magic number, a nonzero
reserved field, an info-header size outside `{40, 56}`, a compression type
other than Uncompressed/BitFields, or a plane count other than 1,
`Bitmap::from_data` returns the corresponding typed error and no bitmap;
the four checks fire in source order. -/
theorem c3_decode_validation (data : List ℕ) (ih : BitmapInfoHeader)
    (hlen : FILE_HEADER_SIZE ≤ data.length)
    (hparse : BitmapInfoHeader.from_data (data.drop FILE_HEADER_SIZE) = some ih) :
    (((BitmapFileHeader.from_data (data.take FILE_HEADER_SIZE)).magic_number ≠
        BMP_MAGIC_NUMBER ∨
      (BitmapFileHeader.from_data (data.take FILE_HEADER_SIZE)).reserved1 ≠ 0 ∨
      (BitmapFileHeader.from_data (data.take FILE_HEADER_SIZE)).reserved2 ≠ 0) →
      Bitmap.from_data data = .err .invalidBitmap) ∧
    ((BitmapFileHeader.from_data (data.take FILE_HEADER_SIZE)).validate = true →
      ih.info_header_size ≠ 40 → ih.info_header_size ≠ 56 →
      Bitmap.from_data data = .err (.unsupportedInfoHeaderSize ih.info_header_size)) ∧
    ((BitmapFileHeader.from_data (data.take FILE_HEADER_SIZE)).validate = true →
      (ih.info_header_size = 40 ∨ ih.info_header_size = 56) →
      ih.compression_type ≠ ctUncompressed → ih.compression_type ≠ ctBitFields →
      Bitmap.from_data data =
        .err (.unsupportedCompressionType (compressionFromU32 ih.compression_type))) ∧
    ((BitmapFileHeader.from_data (data.take FILE_HEADER_SIZE)).validate = true →
      (ih.info_header_size = 40 ∨ ih.info_header_size = 56) →
      (ih.compression_type = ctUncompressed ∨ ih.compression_type = ctBitFields) →
      ih.n_planes ≠ 1 →
      Bitmap.from_data data = .err (.unsupportedNumberOfPlanes ih.n_planes)) ∧
    ((((BitmapFileHeader.from_data (data.take FILE_HEADER_SIZE)).magic_number ≠
          BMP_MAGIC_NUMBER ∨
        (BitmapFileHeader.from_data (data.take FILE_HEADER_SIZE)).reserved1 ≠ 0 ∨
        (BitmapFileHeader.from_data (data.take FILE_HEADER_SIZE)).reserved2 ≠ 0) ∨
      (ih.info_header_size ≠ 40 ∧ ih.info_header_size ≠ 56) ∨
      (ih.compression_type ≠ ctUncompressed ∧ ih.compression_type ≠ ctBitFields) ∨
      ih.n_planes ≠ 1) →
      ∃ e, Bitmap.from_data data = .err e) := by
  have h14 : ¬ data.length < FILE_HEADER_SIZE := by omega
  have hchecks := fun hval => from_data_checks data ih h14 hval hparse
  have hmagic : ((BitmapFileHeader.from_data (data.take FILE_HEADER_SIZE)).magic_number ≠
        BMP_MAGIC_NUMBER ∨
      (BitmapFileHeader.from_data (data.take FILE_HEADER_SIZE)).reserved1 ≠ 0 ∨
      (BitmapFileHeader.from_data (data.take FILE_HEADER_SIZE)).reserved2 ≠ 0) →
      Bitmap.from_data data = .err .invalidBitmap := by
    intro hbad
    refine from_data_invalid_header data h14 ?_
    rw [BitmapFileHeader.validate]
    simp only [Bool.and_eq_true, beq_iff_eq]
    tauto
  refine ⟨hmagic, ?_, ?_, ?_, ?_⟩
  · intro hval h40 h56
    exact (hchecks hval).1 ⟨h40, h56⟩
  · intro hval hsize hc1 hc2
    exact (hchecks hval).2.1 hsize hc1 hc2
  · intro hval hsize hcomp hplanes
    exact (hchecks hval).2.2 hsize hcomp hplanes
  · intro hany
    by_cases hval : (BitmapFileHeader.from_data
        (data.take FILE_HEADER_SIZE)).validate = true
    · rcases hany with hbad | hsize | hcomp | hplanes
      · exact ⟨_, hmagic hbad⟩
      · exact ⟨_, (hchecks hval).1 hsize⟩
      · by_cases hs : ih.info_header_size ≠ 40 ∧ ih.info_header_size ≠ 56
        · exact ⟨_, (hchecks hval).1 hs⟩
        · exact ⟨_, (hchecks hval).2.1 (by tauto) hcomp.1 hcomp.2⟩
      · by_cases hs : ih.info_header_size ≠ 40 ∧ ih.info_header_size ≠ 56
        · exact ⟨_, (hchecks hval).1 hs⟩
        · by_cases hc : ih.compression_type ≠ ctUncompressed ∧
              ih.compression_type ≠ ctBitFields
          · exact ⟨_, (hchecks hval).2.1 (by tauto) hc.1 hc.2⟩
          · exact ⟨_, (hchecks hval).2.2 (by tauto) (by tauto) hplanes⟩
    · refine ⟨_, from_data_invalid_header data h14 hval⟩

/-- Witness for C3: a 70-byte all-zero buffer (bad magic number) is
rejected as `InvalidBitmap`. -/
theorem c3_decode_validation_witness :
    Bitmap.from_data (List.replicate 70 0) = .err .invalidBitmap :=
  (c3_decode_validation (List.replicate 70 0)
    { info_header_size := 0, image_width := 0, image_height := 0,
      n_planes := 0, bits_per_pixel := 0, compression_type := 0,
      image_size := 0, pixels_per_meter_x := 0, pixels_per_meter_y := 0,
      colors_used := 0, colors_important := 0, red_mask := 0, green_mask := 0,
      blue_mask := 0, alpha_mask := 0, is_top_down := false }
    (by decide) (by decide)).1 (by decide)

theorem read_32_bitfield_loop_eq_fuel :
    ∀ (fuel : ℕ) (data : List ℕ) (idx ro go bo ao am : ℕ),
    data.length ≤ idx + fuel →
    read_32_bitfield_loop data idx ro go bo ao am =
      read_32_bitfield_fuel data idx ro go bo ao am fuel := by
  intro fuel
  induction fuel with
  | zero =>
    intro data idx ro go bo ao am hf
    rw [read_32_bitfield_loop, if_neg (by omega), read_32_bitfield_fuel]
  | succ fuel ih =>
    intro data idx ro go bo ao am hf
    rw [read_32_bitfield_loop, read_32_bitfield_fuel]
    by_cases h : idx < data.length
    · rw [if_pos h, if_pos h, ih data (idx + 4) ro go bo ao am (by omega)]
    · rw [if_neg h, if_neg h]

theorem read_16_bitfield_loop_eq_fuel :
    ∀ (fuel : ℕ) (data : List ℕ) (idx col w ro rs go gs bo bs ao ash rm gm bm am : ℕ),
    data.length ≤ idx + fuel →
    read_16_bitfield_loop data idx col w ro rs go gs bo bs ao ash rm gm bm am =
      read_16_bitfield_fuel data idx col w ro rs go gs bo bs ao ash rm gm bm am fuel := by
  intro fuel
  induction fuel with
  | zero =>
    intro data idx col w ro rs go gs bo bs ao ash rm gm bm am hf
    rw [read_16_bitfield_loop, dif_neg (by omega), read_16_bitfield_fuel]
  | succ fuel ih =>
    intro data idx col w ro rs go gs bo bs ao ash rm gm bm am hf
    rw [read_16_bitfield_loop, read_16_bitfield_fuel]
    by_cases h : idx < data.length
    · rw [dif_pos h, if_pos h]
      by_cases h2 : (if col = w then align4 idx else idx) < data.length
      · rw [if_pos h2, if_pos h2]
        rw [ih data _ _ w ro rs go gs bo bs ao ash rm gm bm am ?_]
        have halign : idx ≤ (if col = w then align4 idx else idx) := by
          split
          · simp [align4]
          · omega
        omega
      · rw [if_neg h2, if_neg h2]
    · rw [dif_neg h, if_neg h]

/-!  ### C4: error propagation -/

/-- C4, amended.  The faults the code detects explicitly — malformed
container, unsupported header size, unsupported compression, plane count,
out-of-bounds crop geometry — surface to the caller as distinguishable
`BitmapError` values; but an unsupported `(compression, bitsPerPixel)`
combination makes both the decoder and the encoder panic (terminate the
process) instead of returning an error value. -/
theorem c4_error_propagation_amended :
    (∀ (b : Bitmap) (x0 y0 w h : ℕ),
      b.info_header.image_width ≤ x0 ∨ b.info_header.image_height ≤ y0 →
      b.crop_to_rect x0 y0 w h = .error .invalidOperation) ∧
    (∀ (b : Bitmap) (x0 y0 w h : ℕ),
      x0 < b.info_header.image_width → y0 < b.info_header.image_height →
      (b.info_header.image_width < x0 + w ∨
        b.info_header.image_height < y0 + h) →
      b.crop_to_rect x0 y0 w h = .error .invalidOperation) ∧
    (∀ (data : List ℕ) (ih : BitmapInfoHeader),
      FILE_HEADER_SIZE ≤ data.length →
      BitmapInfoHeader.from_data (data.drop FILE_HEADER_SIZE) = some ih →
      (¬ (BitmapFileHeader.from_data (data.take FILE_HEADER_SIZE)).validate = true ∨
        (ih.info_header_size ≠ 40 ∧ ih.info_header_size ≠ 56) ∨
        (ih.compression_type ≠ ctUncompressed ∧
          ih.compression_type ≠ ctBitFields) ∨
        ih.n_planes ≠ 1) →
      ∃ e, Bitmap.from_data data = .err e) ∧
    (∀ (data : List ℕ) (ih : BitmapInfoHeader) (pal : Option (List BitmapPixel)),
      ih.compression_type = ctBitFields → ih.bits_per_pixel ≠ 32 →
      ih.bits_per_pixel ≠ 16 → interpret_image_data data ih pal = none) ∧
    (∀ (data : List ℕ) (ih : BitmapInfoHeader) (pal : Option (List BitmapPixel)),
      ih.compression_type = ctUncompressed →
      ih.bits_per_pixel ≠ 32 → ih.bits_per_pixel ≠ 24 → ih.bits_per_pixel ≠ 16 →
      ih.bits_per_pixel ≠ 8 → ih.bits_per_pixel ≠ 4 → ih.bits_per_pixel ≠ 1 →
      interpret_image_data data ih pal = none) ∧
    (∀ (data : List ℕ) (ih : BitmapInfoHeader) (pal : Option (List BitmapPixel)),
      ih.compression_type ≠ ctBitFields → ih.compression_type ≠ ctUncompressed →
      interpret_image_data data ih pal = none) ∧
    (∀ (px : List BitmapPixel) (ih : BitmapInfoHeader)
        (pal : Option (List BitmapPixel)),
      ih.compression_type = ctBitFields → ih.bits_per_pixel ≠ 32 →
      ih.bits_per_pixel ≠ 16 → pixels_into_data px ih pal = none) ∧
    (∀ (px : List BitmapPixel) (ih : BitmapInfoHeader)
        (pal : Option (List BitmapPixel)),
      ih.compression_type = ctUncompressed →
      ih.bits_per_pixel ≠ 32 → ih.bits_per_pixel ≠ 24 → ih.bits_per_pixel ≠ 16 →
      ih.bits_per_pixel ≠ 8 → ih.bits_per_pixel ≠ 4 → ih.bits_per_pixel ≠ 1 →
      pixels_into_data px ih pal = none) ∧
    (∀ (px : List BitmapPixel) (ih : BitmapInfoHeader)
        (pal : Option (List BitmapPixel)),
      ih.compression_type ≠ ctBitFields → ih.compression_type ≠ ctUncompressed →
      pixels_into_data px ih pal = none) := by
  refine ⟨?_, ?_, ?_, ?_, ?_, ?_, ?_, ?_, ?_⟩
  · intro b x0 y0 w h hout
    rw [Bitmap.crop_to_rect, if_pos (by omega)]
  · intro b x0 y0 w h hx hy hout
    rw [Bitmap.crop_to_rect, if_neg (by omega), if_pos (by omega)]
  · intro data ih hlen hparse hany
    have h14 : ¬ data.length < FILE_HEADER_SIZE := by omega
    by_cases hval : (BitmapFileHeader.from_data
        (data.take FILE_HEADER_SIZE)).validate = true
    · have hchecks := from_data_checks data ih h14 hval hparse
      rcases hany with hbad | hsize | hcomp | hplanes
      · exact absurd hval hbad
      · exact ⟨_, hchecks.1 hsize⟩
      · by_cases hs : ih.info_header_size ≠ 40 ∧ ih.info_header_size ≠ 56
        · exact ⟨_, hchecks.1 hs⟩
        · exact ⟨_, hchecks.2.1 (by tauto) hcomp.1 hcomp.2⟩
      · by_cases hs : ih.info_header_size ≠ 40 ∧ ih.info_header_size ≠ 56
        · exact ⟨_, hchecks.1 hs⟩
        · by_cases hc : ih.compression_type ≠ ctUncompressed ∧
              ih.compression_type ≠ ctBitFields
          · exact ⟨_, hchecks.2.1 (by tauto) hc.1 hc.2⟩
          · exact ⟨_, hchecks.2.2 (by tauto) (by tauto) hplanes⟩
    · exact ⟨_, from_data_invalid_header data h14 hval⟩
  · intro data ih pal hcomp h32 h16
    rw [interpret_image_data.eq_def]
    simp [hcomp, h32, h16, ctBitFields, ctUncompressed]
  · intro data ih pal hcomp h32 h24 h16 h8 h4 h1
    rw [interpret_image_data.eq_def]
    simp [hcomp, h32, h24, h16, h8, h4, h1, ctBitFields, ctUncompressed]
  · intro data ih pal hbf hun
    rw [interpret_image_data.eq_def]
    simp [hbf, hun]
  · intro px ih pal hcomp h32 h16
    rw [pixels_into_data.eq_def]
    simp [hcomp, h32, h16, ctBitFields, ctUncompressed]
  · intro px ih pal hcomp h32 h24 h16 h8 h4 h1
    rw [pixels_into_data.eq_def]
    simp [hcomp, h32, h24, h16, h8, h4, h1, ctBitFields, ctUncompressed]
  · intro px ih pal hbf hun
    rw [pixels_into_data.eq_def]
    simp [hbf, hun]

/-- C4, counterexample.  `c4buf` is a valid container declaring the
unsupported pixel format (Uncompressed, 2 bits per pixel): decoding it
panics (aborts the process) instead of returning an error value. -/
theorem c4_error_propagation_counterexample :
    Bitmap.from_data c4buf = FromDataResult.panicked := by decide

/-- Witness for C4's amended theorem: an out-of-bounds crop on a concrete
2-by-2 bitmap reports `InvalidOperation`. -/
theorem c4_error_propagation_witness :
    (Bitmap.new 2 2 32 ctBitFields).crop_to_rect 5 0 1 1 =
      .error .invalidOperation :=
  c4_error_propagation_amended.1 (Bitmap.new 2 2 32 ctBitFields) 5 0 1 1
    (Or.inl (by decide))

/-!  ### C2: the pixel-count invariant -/

/-- C2, amended.  `Bitmap::new` establishes
`pixel_count = image_width * image_height` (the bound keeps the source's
`(width * height) as u32` cast exact); `Bitmap::from_data` does not
enforce the invariant — see the counterexample. -/
theorem c2_pixel_count_new (width height bits_per_pixel compression : ℕ)
    (hbound : width * height < 2 ^ 31) :
    (Bitmap.new width height bits_per_pixel compression).image_data.length =
      (Bitmap.new width height bits_per_pixel compression).info_header.image_width *
      (Bitmap.new width height bits_per_pixel compression).info_header.image_height := by
  simp [Bitmap.new, Bitmap.lazy_new, Bitmap.create_headers, BitmapInfoHeader.new]

/-- C2, counterexample.  `Bitmap::from_data` successfully decodes `c2buf`
— a 1-by-1 header whose BitFields `image_size` field says 8 bytes — into
a bitmap holding 2 pixels, violating `pixel_count = width * height`. -/
theorem c2_pixel_count_counterexample :
    Bitmap.from_data c2buf = .ok c2bmp ∧
    c2bmp.image_data.length ≠
      c2bmp.info_header.image_width * c2bmp.info_header.image_height := by
  constructor
  · rw [from_data_decode_nopal c2buf c2ih 8 (by decide) (by decide) (by decide)
      (by decide) (by decide) (by decide) (by decide) (by decide) (by decide)]
    have hpao : (BitmapFileHeader.from_data
        (c2buf.take FILE_HEADER_SIZE)).pixel_array_offset = 70 := by decide
    rw [hpao]
    have hslice : (c2buf.drop 70).take 8 = [0, 0, 0, 0, 0, 0, 0, 0] := by decide
    rw [hslice]
    have hdec : interpret_image_data ([0, 0, 0, 0, 0, 0, 0, 0] : List ℕ) c2ih none =
        some [⟨0, 0, 0, 0⟩, ⟨0, 0, 0, 0⟩] := by
      rw [interpret_image_data.eq_def]
      rw [if_pos (by decide), if_pos (by decide)]
      rw [read_32_bitfield]
      rw [show c2ih.red_mask = 0x00ff0000 from rfl,
        show c2ih.green_mask = 0x0000ff00 from rfl,
        show c2ih.blue_mask = 0x000000ff from rfl,
        show c2ih.alpha_mask = 0xff000000 from rfl]
      rw [mask_offset_and_shifted_eq 0x00ff0000 (by decide) (by decide),
        mask_offset_and_shifted_eq 0x0000ff00 (by decide) (by decide),
        mask_offset_and_shifted_eq 0x000000ff (by decide) (by decide),
        mask_offset_and_shifted_eq 0xff000000 (by decide) (by decide)]
      rw [read_32_bitfield_loop_eq_fuel 8 _ 0 _ _ _ _ _ (by decide)]
      decide
    rw [hdec]
    decide
  · decide

/-- Witness for C2's `Bitmap::new` theorem at a 3-by-2 image. -/
theorem c2_pixel_count_new_witness :
    (Bitmap.new 3 2 24 ctUncompressed).image_data.length =
      (Bitmap.new 3 2 24 ctUncompressed).info_header.image_width *
      (Bitmap.new 3 2 24 ctUncompressed).info_header.image_height :=
  c2_pixel_count_new 3 2 24 ctUncompressed (by norm_num)

/-!  ### C1: byte-level helper lemmas -/

theorem byteAt_append (pre l : List ℕ) (k : ℕ) :
    byteAt (pre ++ l) (pre.length + k) = byteAt l k := by
  unfold byteAt
  rw [List.getD_eq_getElem?_getD, List.getD_eq_getElem?_getD,
    List.getElem?_append_right (by omega)]
  have hk : pre.length + k - pre.length = k := by omega
  rw [hk]

theorem byteAt_append_left (l suf : List ℕ) (k : ℕ) (hk : k < l.length) :
    byteAt (l ++ suf) k = byteAt l k := by
  unfold byteAt
  rw [List.getD_eq_getElem?_getD, List.getD_eq_getElem?_getD,
    List.getElem?_append_left hk]

theorem byteAt_inner (pre l suf : List ℕ) (k : ℕ) (hk : k < l.length) :
    byteAt (pre ++ l ++ suf) (pre.length + k) = byteAt l k := by
  rw [List.append_assoc, byteAt_append, byteAt_append_left _ _ _ hk]

theorem u32At_inner (pre l suf : List ℕ) (k : ℕ) (hk : k + 4 ≤ l.length) :
    u32At (pre ++ l ++ suf) (pre.length + k) = u32At l k := by
  unfold u32At
  rw [show pre.length + k + 1 = pre.length + (k + 1) from by ring,
    show pre.length + k + 2 = pre.length + (k + 2) from by ring,
    show pre.length + k + 3 = pre.length + (k + 3) from by ring,
    byteAt_inner _ _ _ _ (by omega), byteAt_inner _ _ _ _ (by omega),
    byteAt_inner _ _ _ _ (by omega), byteAt_inner _ _ _ _ (by omega)]

theorem u16At_inner (pre l suf : List ℕ) (k : ℕ) (hk : k + 2 ≤ l.length) :
    u16At (pre ++ l ++ suf) (pre.length + k) = u16At l k := by
  unfold u16At
  rw [show pre.length + k + 1 = pre.length + (k + 1) from by ring,
    byteAt_inner _ _ _ _ (by omega), byteAt_inner _ _ _ _ (by omega)]

theorem lor_mul_pow_add (k x b a : ℕ) (hx : x = a * 2 ^ k) (hb : b < 2 ^ k) :
    x ||| b = x + b := by
  subst hx
  rw [Nat.mul_comm a]
  exact (Nat.mul_add_lt_is_or hb a).symm

theorem and_255_eq_mod (n : ℕ) : n &&& 0xff = n % 256 := by
  have h := Nat.and_pow_two_sub_one_eq_mod n 8
  norm_num at h
  exact h

theorem chunksOf_flatten (w : ℕ) :
    ∀ (h : ℕ) (px : List BitmapPixel), px.length = w * h →
    (chunksOf w h px).flatten = px := by
  intro h
  induction h with
  | zero =>
    intro px hlen
    rw [Nat.mul_zero] at hlen
    simp only [chunksOf, List.flatten_nil]
    exact (List.length_eq_zero.mp hlen).symm
  | succ h ih =>
    intro px hlen
    have hlen2 : px.length = w * h + w := by rw [hlen]; ring
    rw [chunksOf]
    simp only [List.flatten_cons]
    rw [ih (px.drop w) (by simp; omega), List.take_append_drop]

theorem chunksOf_mem_length (w : ℕ) :
    ∀ (h : ℕ) (px : List BitmapPixel), px.length = w * h →
    ∀ row ∈ chunksOf w h px, row.length = w := by
  intro h
  induction h with
  | zero => intro px hlen row hrow; simp [chunksOf] at hrow
  | succ h ih =>
    intro px hlen row hrow
    have hlen2 : px.length = w * h + w := by rw [hlen]; ring
    rw [chunksOf] at hrow
    rcases List.mem_cons.mp hrow with hr | hr
    · subst hr
      rw [List.length_take]
      omega
    · exact ih (px.drop w) (by simp; omega) row hr

theorem chunksOf_mem_mem (w : ℕ) :
    ∀ (h : ℕ) (px : List BitmapPixel) (row : List BitmapPixel),
    row ∈ chunksOf w h px → ∀ p ∈ row, p ∈ px := by
  intro h
  induction h with
  | zero => intro px row hrow; simp [chunksOf] at hrow
  | succ h ih =>
    intro px row hrow p hp
    rw [chunksOf] at hrow
    rcases List.mem_cons.mp hrow with hr | hr
    · subst hr
      exact List.mem_of_mem_take hp
    · exact List.mem_of_mem_drop (ih (px.drop w) row hr p hp)

/-!  ### C1: 32-bit BitFields round trip -/

theorem word32_argb (p : BitmapPixel) (hp : p.wf) :
    write_32_bitfield_word p 24 16 8 0 0x000000ff =
      p.red * 2 ^ 24 + p.green * 2 ^ 16 + p.blue * 2 ^ 8 + p.alpha := by
  obtain ⟨hb, hg, hr, ha⟩ := hp
  unfold write_32_bitfield_word
  have e1 : p.red * 2 ^ 24 < 2 ^ 32 := by nlinarith
  have e2 : p.green * 2 ^ 16 < 2 ^ 32 := by nlinarith
  have e3 : p.blue * 2 ^ 8 < 2 ^ 32 := by nlinarith
  have e4 : p.alpha < 2 ^ 32 := by nlinarith
  rw [Nat.shiftLeft_eq, Nat.shiftLeft_eq, Nat.shiftLeft_eq, Nat.shiftLeft_eq]
  rw [pow_zero, mul_one]
  rw [Nat.mod_eq_of_lt e1, Nat.mod_eq_of_lt e2, Nat.mod_eq_of_lt e3,
    Nat.mod_eq_of_lt e4]
  rw [and_255_eq_mod, Nat.mod_eq_of_lt ha]
  have j1 : p.red * 2 ^ 24 ||| p.green * 2 ^ 16 =
      p.red * 2 ^ 24 + p.green * 2 ^ 16 := by
    rw [Nat.mul_comm p.red]
    exact (Nat.mul_add_lt_is_or (by nlinarith) p.red).symm
  have j2 : p.red * 2 ^ 24 + p.green * 2 ^ 16 ||| p.blue * 2 ^ 8 =
      p.red * 2 ^ 24 + p.green * 2 ^ 16 + p.blue * 2 ^ 8 := by
    have hx : p.red * 2 ^ 24 + p.green * 2 ^ 16 =
        2 ^ 16 * (p.red * 2 ^ 8 + p.green) := by ring
    rw [hx]
    exact (Nat.mul_add_lt_is_or (by nlinarith) _).symm
  have j3 : p.red * 2 ^ 24 + p.green * 2 ^ 16 + p.blue * 2 ^ 8 ||| p.alpha =
      p.red * 2 ^ 24 + p.green * 2 ^ 16 + p.blue * 2 ^ 8 + p.alpha := by
    have hx : p.red * 2 ^ 24 + p.green * 2 ^ 16 + p.blue * 2 ^ 8 =
        2 ^ 8 * (p.red * 2 ^ 16 + p.green * 2 ^ 8 + p.blue) := by ring
    rw [hx]
    exact (Nat.mul_add_lt_is_or (by omega) _).symm
  rw [j1, j2, j3]

theorem word32_xrgb (p : BitmapPixel) (hp : p.wf) :
    write_32_bitfield_word p 16 8 0 0 0 =
      p.red * 2 ^ 16 + p.green * 2 ^ 8 + p.blue := by
  obtain ⟨hb, hg, hr, ha⟩ := hp
  unfold write_32_bitfield_word
  have e1 : p.red * 2 ^ 16 < 2 ^ 32 := by nlinarith
  have e2 : p.green * 2 ^ 8 < 2 ^ 32 := by nlinarith
  have e3 : p.blue < 2 ^ 32 := by nlinarith
  have e4 : p.alpha < 2 ^ 32 := by nlinarith
  rw [Nat.shiftLeft_eq, Nat.shiftLeft_eq, Nat.shiftLeft_eq, Nat.shiftLeft_eq]
  rw [pow_zero, mul_one, mul_one]
  rw [Nat.mod_eq_of_lt e1, Nat.mod_eq_of_lt e2, Nat.mod_eq_of_lt e3,
    Nat.mod_eq_of_lt e4]
  rw [Nat.and_zero, Nat.or_zero]
  have j1 : p.red * 2 ^ 16 ||| p.green * 2 ^ 8 =
      p.red * 2 ^ 16 + p.green * 2 ^ 8 := by
    rw [Nat.mul_comm p.red]
    exact (Nat.mul_add_lt_is_or (by nlinarith) p.red).symm
  have j2 : p.red * 2 ^ 16 + p.green * 2 ^ 8 ||| p.blue =
      p.red * 2 ^ 16 + p.green * 2 ^ 8 + p.blue := by
    have hx : p.red * 2 ^ 16 + p.green * 2 ^ 8 =
        2 ^ 8 * (p.red * 2 ^ 8 + p.green) := by ring
    rw [hx]
    exact (Nat.mul_add_lt_is_or (by omega) _).symm
  rw [j1, j2]

theorem u32At_push_u32 (w : ℕ) (rest : List ℕ) (hw : w < 2 ^ 32) :
    u32At (push_u32 w ++ rest) 0 = w := by
  simp only [u32At, push_u32, byteAt, List.cons_append, List.getD_cons_zero,
    List.getD_cons_succ, Nat.shiftRight_eq_div_pow]
  norm_num
  omega

theorem read_32_bitfield_loop_flat (ro go bo ao am : ℕ)
    (E : BitmapPixel → List ℕ) (D : BitmapPixel → BitmapPixel) :
    ∀ (px : List BitmapPixel) (pre : List ℕ),
    (∀ p ∈ px, (E p).length = 4 ∧
      ({ blue  := (u32At (E p) 0 >>> bo) &&& 0xff
         green := (u32At (E p) 0 >>> go) &&& 0xff
         red   := (u32At (E p) 0 >>> ro) &&& 0xff
         alpha := if am = 0 then 0xff else (u32At (E p) 0 >>> ao) &&& 0xff } :
         BitmapPixel) = D p) →
    read_32_bitfield_loop (pre ++ px.flatMap E) pre.length ro go bo ao am =
      px.map D := by
  intro px
  induction px with
  | nil =>
    intro pre _
    rw [read_32_bitfield_loop, if_neg (by simp)]
    rfl
  | cons p rest ih =>
    intro pre h
    obtain ⟨hlen4, hpix⟩ := h p (List.mem_cons_self p rest)
    have hdata : pre ++ (p :: rest).flatMap E = pre ++ E p ++ rest.flatMap E := by
      rw [List.flatMap_cons, List.append_assoc]
    have hlt : pre.length < (pre ++ (p :: rest).flatMap E).length := by
      rw [hdata]
      simp [hlen4]
    have hu : u32At (pre ++ (p :: rest).flatMap E) pre.length = u32At (E p) 0 := by
      rw [hdata]
      have := u32At_inner pre (E p) (rest.flatMap E) 0 (by omega)
      simpa using this
    rw [read_32_bitfield_loop, if_pos hlt]
    simp only [hu, hpix, List.map_cons, List.cons.injEq, true_and]
    have hpre : pre.length + 4 = (pre ++ E p).length := by
      simp [hlen4]
    rw [hdata, hpre]
    exact ih (pre ++ E p) (fun q hq => h q (List.mem_cons_of_mem p hq))

theorem mask_offset_fst (mask : ℕ) (h0 : mask ≠ 0) (hlt : mask < 2 ^ 64) :
    (mask_offset_and_shifted mask).1 = tzc mask := by
  rw [mask_offset_and_shifted_eq mask h0 hlt]

theorem mask_offset_snd (mask : ℕ) (h0 : mask ≠ 0) (hlt : mask < 2 ^ 64) :
    (mask_offset_and_shifted mask).2 = mask >>> tzc mask := by
  rw [mask_offset_and_shifted_eq mask h0 hlt]

theorem mask_offset_zero_fst : (mask_offset_and_shifted 0).1 = 0 := by
  rw [mask_offset_and_shifted]
  rfl

theorem mask_offset_zero_snd : (mask_offset_and_shifted 0).2 = 0 := by
  rw [mask_offset_and_shifted]
  rfl

theorem rt32_argb (px : List BitmapPixel) (hwf : ∀ p ∈ px, p.wf) :
    read_32_bitfield
      (write_32_bitfield px 0xff000000 0x00ff0000 0x0000ff00 0x000000ff)
      0xff000000 0x00ff0000 0x0000ff00 0x000000ff = px := by
  rw [read_32_bitfield, write_32_bitfield]
  rw [show (mask_offset_and_shifted 0xff000000).1 = 24 by
      rw [mask_offset_fst _ (by decide) (by decide)]; decide,
    show (mask_offset_and_shifted 0x00ff0000).1 = 16 by
      rw [mask_offset_fst _ (by decide) (by decide)]; decide,
    show (mask_offset_and_shifted 0x0000ff00).1 = 8 by
      rw [mask_offset_fst _ (by decide) (by decide)]; decide,
    show (mask_offset_and_shifted 0x000000ff).1 = 0 by
      rw [mask_offset_fst _ (by decide) (by decide)]; decide]
  have hmain := read_32_bitfield_loop_flat 24 16 8 0 0x000000ff
    (fun q => push_u32 (write_32_bitfield_word q 24 16 8 0 0x000000ff))
    (fun q => q) px [] ?_
  · simpa using hmain
  · intro p hp
    obtain ⟨hb, hg, hr, ha⟩ := hwf p hp
    refine ⟨rfl, ?_⟩
    have hword := word32_argb p (hwf p hp)
    have hwlt : write_32_bitfield_word p 24 16 8 0 0x000000ff < 2 ^ 32 := by
      rw [hword]; nlinarith
    have hu := u32At_push_u32 (write_32_bitfield_word p 24 16 8 0 0x000000ff)
      [] hwlt
    rw [List.append_nil] at hu
    rw [hword] at hu
    simp only [hword, hu]
    rw [if_neg (by norm_num)]
    simp only [Nat.shiftRight_eq_div_pow, and_255_eq_mod]
    have hmk : ∀ b g r a, b = p.blue → g = p.green → r = p.red → a = p.alpha →
        ({ blue := b, green := g, red := r, alpha := a } : BitmapPixel) = p := by
      intro b g r a h1 h2 h3 h4
      rw [h1, h2, h3, h4]
    exact hmk _ _ _ _ (by omega) (by omega) (by omega) (by omega)

theorem rt32_xrgb (px : List BitmapPixel) (hwf : ∀ p ∈ px, p.wf) :
    read_32_bitfield (write_32_bitfield px 0x00ff0000 0x0000ff00 0x000000ff 0)
      0x00ff0000 0x0000ff00 0x000000ff 0 = px.map forceAlpha := by
  rw [read_32_bitfield, write_32_bitfield]
  rw [show (mask_offset_and_shifted 0x00ff0000).1 = 16 by
      rw [mask_offset_fst _ (by decide) (by decide)]; decide,
    show (mask_offset_and_shifted 0x0000ff00).1 = 8 by
      rw [mask_offset_fst _ (by decide) (by decide)]; decide,
    show (mask_offset_and_shifted 0x000000ff).1 = 0 by
      rw [mask_offset_fst _ (by decide) (by decide)]; decide,
    mask_offset_zero_fst]
  have hmain := read_32_bitfield_loop_flat 16 8 0 0 0
    (fun q => push_u32 (write_32_bitfield_word q 16 8 0 0 0))
    forceAlpha px [] ?_
  · simpa using hmain
  · intro p hp
    obtain ⟨hb, hg, hr, ha⟩ := hwf p hp
    refine ⟨rfl, ?_⟩
    have hword := word32_xrgb p (hwf p hp)
    have hwlt : write_32_bitfield_word p 16 8 0 0 0 < 2 ^ 32 := by
      rw [hword]; nlinarith
    have hu := u32At_push_u32 (write_32_bitfield_word p 16 8 0 0 0) [] hwlt
    rw [List.append_nil] at hu
    rw [hword] at hu
    rw [forceAlpha]
    simp only [hword, hu]
    simp only [if_true]
    simp only [Nat.shiftRight_eq_div_pow, and_255_eq_mod]
    have hmk : ∀ b g r, b = p.blue → g = p.green → r = p.red →
        ({ blue := b, green := g, red := r, alpha := 0xff } : BitmapPixel) =
          { blue := p.blue, green := p.green, red := p.red, alpha := 0xff } := by
      intro b g r h1 h2 h3
      rw [h1, h2, h3]
    exact hmk _ _ _ (by omega) (by omega) (by omega)

/-!  ### C1: 32-bit Uncompressed round trip -/

theorem read_32_uncompressed_loop_flat :
    ∀ (px : List BitmapPixel) (pre : List ℕ),
    read_32_uncompressed_loop (pre ++ px.flatMap (fun p => [p.blue, p.green, p.red, 0x00]))
      pre.length = px.map forceAlpha := by
  intro px
  induction px with
  | nil =>
    intro pre
    rw [read_32_uncompressed_loop, if_neg (by simp)]
    rfl
  | cons p rest ih =>
    intro pre
    have hflat : (p :: rest).flatMap (fun p => [p.blue, p.green, p.red, 0x00]) =
        [p.blue, p.green, p.red, 0x00] ++
          rest.flatMap (fun p => [p.blue, p.green, p.red, 0x00]) := by
      rw [List.flatMap_cons]
    have hlt : pre.length <
        (pre ++ (p :: rest).flatMap (fun p => [p.blue, p.green, p.red, 0x00])).length := by
      rw [hflat]; simp
    have hk : ∀ k, k < 4 →
        byteAt (pre ++ (p :: rest).flatMap (fun p => [p.blue, p.green, p.red, 0x00]))
          (pre.length + k) = byteAt [p.blue, p.green, p.red, 0x00] k := by
      intro k hk4
      rw [byteAt_append, hflat, byteAt_append_left _ _ _ (by simp; omega)]
    have e0 : byteAt (pre ++ (p :: rest).flatMap (fun p => [p.blue, p.green, p.red, 0x00]))
        pre.length = p.blue := by
      have := hk 0 (by omega)
      simpa [byteAt] using this
    have e1 : byteAt (pre ++ (p :: rest).flatMap (fun p => [p.blue, p.green, p.red, 0x00]))
        (pre.length + 1) = p.green := by
      have := hk 1 (by omega)
      simpa [byteAt] using this
    have e2 : byteAt (pre ++ (p :: rest).flatMap (fun p => [p.blue, p.green, p.red, 0x00]))
        (pre.length + 2) = p.red := by
      have := hk 2 (by omega)
      simpa [byteAt] using this
    rw [read_32_uncompressed_loop, if_pos hlt, e0, e1, e2]
    have hpre4 : pre.length + 4 = (pre ++ [p.blue, p.green, p.red, 0x00]).length := by
      simp
    have hdata : pre ++ (p :: rest).flatMap (fun p => [p.blue, p.green, p.red, 0x00]) =
        (pre ++ [p.blue, p.green, p.red, 0x00]) ++
          rest.flatMap (fun p => [p.blue, p.green, p.red, 0x00]) := by
      rw [hflat, List.append_assoc]
    rw [hpre4, hdata]
    rw [ih (pre ++ [p.blue, p.green, p.red, 0x00])]
    rfl

/-!  ### C1: 24-bit Uncompressed round trip -/

theorem flatMap3_length (row : List BitmapPixel) :
    (row.flatMap (fun p => [p.blue, p.green, p.red])).length = 3 * row.length := by
  induction row with
  | nil => rfl
  | cons p rest ih =>
    rw [List.flatMap_cons]
    simp only [List.length_append, ih, List.length_cons]
    simp
    ring

theorem read24_boundary (data : List ℕ) (idx w : ℕ) (hw : 0 < w)
    (h : idx < data.length) :
    read_24_uncompressed_loop data idx w w =
      read_24_uncompressed_loop data (align4 idx) 0 w := by
  rw [read_24_uncompressed_loop, dif_pos h]
  simp only [eq_self_iff_true, if_true]
  by_cases h2 : align4 idx < data.length
  · rw [if_pos h2]
    conv_rhs => rw [read_24_uncompressed_loop, dif_pos h2]
    simp only [if_neg (by omega : ¬ (0 = w))]
    rw [if_pos h2]
  · rw [if_neg h2]
    conv_rhs => rw [read_24_uncompressed_loop, dif_neg h2]

theorem read24_row :
    ∀ (row : List BitmapPixel) (pre suf : List ℕ) (col w : ℕ),
    col + row.length = w →
    read_24_uncompressed_loop
      (pre ++ row.flatMap (fun p => [p.blue, p.green, p.red]) ++ suf)
      pre.length col w =
      row.map forceAlpha ++
      read_24_uncompressed_loop
        (pre ++ row.flatMap (fun p => [p.blue, p.green, p.red]) ++ suf)
        (pre.length + 3 * row.length) w w := by
  intro row
  induction row with
  | nil =>
    intro pre suf col w hcol
    simp only [List.length_nil, Nat.add_zero, Nat.mul_zero] at hcol ⊢
    rw [hcol]
    simp
  | cons p rest ih =>
    intro pre suf col w hcol
    have hcolw : col ≠ w := by simp at hcol; omega
    have hdata : pre ++ (p :: rest).flatMap (fun p => [p.blue, p.green, p.red]) ++ suf =
        (pre ++ [p.blue, p.green, p.red]) ++
          rest.flatMap (fun p => [p.blue, p.green, p.red]) ++ suf := by
      rw [List.flatMap_cons]
      simp [List.append_assoc]
    have hlt : pre.length <
        (pre ++ (p :: rest).flatMap (fun p => [p.blue, p.green, p.red]) ++ suf).length := by
      simp [List.flatMap_cons]
    rw [read_24_uncompressed_loop, dif_pos hlt]
    simp only [if_neg hcolw]
    rw [if_pos hlt]
    have hb0 := byteAt_inner pre ((p :: rest).flatMap (fun p => [p.blue, p.green, p.red]))
      suf 0 (by simp [List.flatMap_cons])
    have hb1 := byteAt_inner pre ((p :: rest).flatMap (fun p => [p.blue, p.green, p.red]))
      suf 1 (by simp [List.flatMap_cons])
    have hb2 := byteAt_inner pre ((p :: rest).flatMap (fun p => [p.blue, p.green, p.red]))
      suf 2 (by simp [List.flatMap_cons])
    simp only [Nat.add_zero] at hb0
    have hby : byteAt ((p :: rest).flatMap (fun p => [p.blue, p.green, p.red])) 0 =
        p.blue := by
      rw [List.flatMap_cons]
      rfl
    have hgy : byteAt ((p :: rest).flatMap (fun p => [p.blue, p.green, p.red])) 1 =
        p.green := by
      rw [List.flatMap_cons]
      rfl
    have hry : byteAt ((p :: rest).flatMap (fun p => [p.blue, p.green, p.red])) 2 =
        p.red := by
      rw [List.flatMap_cons]
      rfl
    rw [hb0, hb1, hb2, hby, hgy, hry]
    have hpre3 : pre.length + 3 = (pre ++ [p.blue, p.green, p.red]).length := by
      simp
    have ihx := ih (pre ++ [p.blue, p.green, p.red]) suf (col + 1) w
      (by simp at hcol ⊢; omega)
    rw [hdata, hpre3]
    rw [ihx]
    simp only [List.map_cons, List.cons_append, List.length_cons]
    congr 2
    simp
    ring

theorem read24_rows :
    ∀ (rows : List (List BitmapPixel)) (pre : List ℕ) (w : ℕ), 0 < w →
    (∀ row ∈ rows, row.length = w) → pre.length % 4 = 0 →
    read_24_uncompressed_loop
      (pre ++ rows.flatMap (fun row =>
        row.flatMap (fun p => [p.blue, p.green, p.red]) ++
        List.replicate (pad_to_align (w * 3) 4) 0))
      pre.length 0 w =
      rows.flatten.map forceAlpha := by
  intro rows
  induction rows with
  | nil =>
    intro pre w hw hrows hpre
    rw [List.flatMap_nil, List.append_nil, read_24_uncompressed_loop,
      dif_neg (by omega)]
    rfl
  | cons row rest ih =>
    intro pre w hw hrows hpre
    have hrw : row.length = w := hrows row (List.mem_cons_self row rest)
    have hdata : pre ++ (row :: rest).flatMap (fun row =>
        row.flatMap (fun p => [p.blue, p.green, p.red]) ++
        List.replicate (pad_to_align (w * 3) 4) 0) =
        pre ++ row.flatMap (fun p => [p.blue, p.green, p.red]) ++
          (List.replicate (pad_to_align (w * 3) 4) 0 ++
            rest.flatMap (fun row =>
              row.flatMap (fun p => [p.blue, p.green, p.red]) ++
              List.replicate (pad_to_align (w * 3) 4) 0)) := by
      rw [List.flatMap_cons]
      simp [List.append_assoc]
    rw [hdata]
    rw [read24_row row pre _ 0 w (by omega)]
    rw [← hdata]
    rw [hrw]
    simp only [List.flatten_cons, List.map_append]
    congr 1
    set pad := pad_to_align (w * 3) 4 with hpad
    set restB := rest.flatMap (fun row =>
      row.flatMap (fun p => [p.blue, p.green, p.red]) ++
      List.replicate pad 0) with hrestB
    have hlen : (pre ++ (row :: rest).flatMap (fun row =>
        row.flatMap (fun p => [p.blue, p.green, p.red]) ++
        List.replicate pad 0)).length =
        pre.length + 3 * w + pad + restB.length := by
      rw [hdata]
      simp only [List.length_append, flatMap3_length, hrw, List.length_replicate]
      ring
    by_cases hmore : pre.length + 3 * w <
        (pre ++ (row :: rest).flatMap (fun row =>
          row.flatMap (fun p => [p.blue, p.green, p.red]) ++
          List.replicate pad 0)).length
    · rw [read24_boundary _ _ _ hw hmore]
      have halign : align4 (pre.length + 3 * w) = pre.length + 3 * w + pad := by
        simp only [align4, pad_to_align, hpad]
        omega
      rw [halign]
      have hpre2 : pre.length + 3 * w + pad =
          (pre ++ row.flatMap (fun p => [p.blue, p.green, p.red]) ++
            List.replicate pad 0).length := by
        simp only [List.length_append, flatMap3_length, hrw, List.length_replicate]
      have hdata2 : pre ++ (row :: rest).flatMap (fun row =>
          row.flatMap (fun p => [p.blue, p.green, p.red]) ++
          List.replicate pad 0) =
          (pre ++ row.flatMap (fun p => [p.blue, p.green, p.red]) ++
            List.replicate pad 0) ++ restB := by
        rw [List.flatMap_cons]
        simp [List.append_assoc]
      rw [hpre2, hdata2]
      exact ih _ w hw (fun r hr => hrows r (List.mem_cons_of_mem row hr))
        (by simp only [List.length_append, flatMap3_length, hrw,
          List.length_replicate, hpad, pad_to_align]; omega)
    · rw [read_24_uncompressed_loop, dif_neg hmore]
      have hrest0 : restB.length = 0 := by omega
      have hrest : rest = [] := by
        by_contra hne
        match rest, hne with
        | r0 :: rest2, _ =>
          have h0 : r0.length = w := hrows r0 (by simp)
          have : restB.length ≥ 3 * w := by
            rw [hrestB, List.flatMap_cons]
            simp only [List.length_append, flatMap3_length, h0,
              List.length_replicate]
            omega
          omega
      rw [hrest]
      rfl


theorem rt32un (px : List BitmapPixel) :
    read_32_uncompressed (write_32_uncompressed px) = px.map forceAlpha := by
  rw [read_32_uncompressed, write_32_uncompressed]
  have hmain := read_32_uncompressed_loop_flat px []
  simpa using hmain

theorem write24_eq (w : ℕ) :
    ∀ (h : ℕ) (px : List BitmapPixel),
    write_24_uncompressed_rows px w (pad_to_align (w * 3) 4) h =
      (chunksOf w h px).flatMap (fun row =>
        row.flatMap (fun p => [p.blue, p.green, p.red]) ++
        List.replicate (pad_to_align (w * 3) 4) 0) := by
  intro h
  induction h with
  | zero => intro px; rfl
  | succ h ih =>
    intro px
    rw [write_24_uncompressed_rows, chunksOf, List.flatMap_cons, ih]

theorem rt24 (px : List BitmapPixel) (w h : ℕ) (hw : 0 < w)
    (hlen : px.length = w * h) :
    read_24_uncompressed (write_24_uncompressed px w h) w = px.map forceAlpha := by
  rw [read_24_uncompressed, write_24_uncompressed, write24_eq]
  have hmain := read24_rows (chunksOf w h px) [] w hw
    (chunksOf_mem_length w h px hlen) (by simp)
  simpa [chunksOf_flatten w h px hlen] using hmain

/-!  ### C1: 8-bit indexed round trip -/

theorem pixel_ext (x y : BitmapPixel) (hb : x.blue = y.blue)
    (hg : x.green = y.green) (hr : x.red = y.red) (ha : x.alpha = y.alpha) :
    x = y := by
  cases x
  cases y
  simp_all

theorem read8_boundary (data : List ℕ) (pal : List BitmapPixel) (idx w : ℕ)
    (hw : 0 < w) (h : idx < data.length) :
    read_8_uncompressed_loop data idx w w pal =
      read_8_uncompressed_loop data (align4 idx) 0 w pal := by
  rw [read_8_uncompressed_loop, dif_pos h]
  simp only [eq_self_iff_true, if_true]
  by_cases h2 : align4 idx < data.length
  · rw [if_pos h2]
    conv_rhs => rw [read_8_uncompressed_loop, dif_pos h2]
    simp only [if_neg (by omega : ¬ (0 = w))]
    rw [if_pos h2]
  · rw [if_neg h2]
    conv_rhs => rw [read_8_uncompressed_loop, dif_neg h2]

theorem read8_row (pal : List BitmapPixel) (B : BitmapPixel → ℕ)
    (D : BitmapPixel → BitmapPixel) :
    ∀ (row : List BitmapPixel) (pre suf : List ℕ) (col w : ℕ),
    col + row.length = w →
    (∀ p ∈ row, pal.getD (B p) zeroPixel = D p) →
    read_8_uncompressed_loop (pre ++ row.map B ++ suf) pre.length col w pal =
      row.map D ++
      read_8_uncompressed_loop (pre ++ row.map B ++ suf)
        (pre.length + row.length) w w pal := by
  intro row
  induction row with
  | nil =>
    intro pre suf col w hcol _
    simp only [List.length_nil, Nat.add_zero] at hcol ⊢
    rw [hcol]
    simp
  | cons p rest ih =>
    intro pre suf col w hcol hBD
    have hcolw : col ≠ w := by simp at hcol; omega
    have hdata : pre ++ (p :: rest).map B ++ suf =
        (pre ++ [B p]) ++ rest.map B ++ suf := by
      simp [List.append_assoc]
    have hlt : pre.length < (pre ++ (p :: rest).map B ++ suf).length := by
      simp
    rw [read_8_uncompressed_loop, dif_pos hlt]
    simp only [if_neg hcolw]
    rw [if_pos hlt]
    have hb0 := byteAt_inner pre ((p :: rest).map B) suf 0 (by simp)
    simp only [Nat.add_zero] at hb0
    have hby : byteAt ((p :: rest).map B) 0 = B p := by
      rw [List.map_cons]
      rfl
    rw [hb0, hby, hBD p (List.mem_cons_self p rest)]
    have hpre1 : pre.length + 1 = (pre ++ [B p]).length := by
      simp
    have ihx := ih (pre ++ [B p]) suf (col + 1) w
      (by simp at hcol ⊢; omega)
      (fun q hq => hBD q (List.mem_cons_of_mem p hq))
    rw [hdata, hpre1]
    rw [ihx]
    rw [show pre.length + (p :: rest).length = (pre ++ [B p]).length + rest.length
      from by simp only [List.length_append, List.length_cons, List.length_nil]; omega]
    simp

theorem read8_rows (pal : List BitmapPixel) (B : BitmapPixel → ℕ)
    (D : BitmapPixel → BitmapPixel) :
    ∀ (rows : List (List BitmapPixel)) (pre : List ℕ) (w : ℕ), 0 < w →
    (∀ row ∈ rows, row.length = w) →
    (∀ row ∈ rows, ∀ p ∈ row, pal.getD (B p) zeroPixel = D p) →
    pre.length % 4 = 0 →
    read_8_uncompressed_loop
      (pre ++ rows.flatMap (fun row =>
        row.map B ++ List.replicate (pad_to_align w 4) 0))
      pre.length 0 w pal =
      rows.flatten.map D := by
  intro rows
  induction rows with
  | nil =>
    intro pre w hw hrows hBD hpre
    rw [List.flatMap_nil, List.append_nil, read_8_uncompressed_loop,
      dif_neg (by omega)]
    rfl
  | cons row rest ih =>
    intro pre w hw hrows hBD hpre
    have hrw : row.length = w := hrows row (List.mem_cons_self row rest)
    have hdata : pre ++ (row :: rest).flatMap (fun row =>
        row.map B ++ List.replicate (pad_to_align w 4) 0) =
        pre ++ row.map B ++
          (List.replicate (pad_to_align w 4) 0 ++
            rest.flatMap (fun row =>
              row.map B ++ List.replicate (pad_to_align w 4) 0)) := by
      rw [List.flatMap_cons]
      simp [List.append_assoc]
    rw [hdata]
    rw [read8_row pal B D row pre _ 0 w (by omega)
      (hBD row (List.mem_cons_self row rest))]
    rw [← hdata]
    rw [hrw]
    simp only [List.flatten_cons, List.map_append]
    congr 1
    set pad := pad_to_align w 4 with hpad
    set restB := rest.flatMap (fun row =>
      row.map B ++ List.replicate pad 0) with hrestB
    have hlen : (pre ++ (row :: rest).flatMap (fun row =>
        row.map B ++ List.replicate pad 0)).length =
        pre.length + w + pad + restB.length := by
      rw [hdata]
      simp only [List.length_append, List.length_map, hrw, List.length_replicate]
      ring
    by_cases hmore : pre.length + w <
        (pre ++ (row :: rest).flatMap (fun row =>
          row.map B ++ List.replicate pad 0)).length
    · rw [read8_boundary _ _ _ _ hw hmore]
      have halign : align4 (pre.length + w) = pre.length + w + pad := by
        simp only [align4, pad_to_align, hpad]
        omega
      rw [halign]
      have hpre2 : pre.length + w + pad =
          (pre ++ row.map B ++ List.replicate pad 0).length := by
        simp only [List.length_append, List.length_map, hrw, List.length_replicate]
      have hdata2 : pre ++ (row :: rest).flatMap (fun row =>
          row.map B ++ List.replicate pad 0) =
          (pre ++ row.map B ++ List.replicate pad 0) ++ restB := by
        rw [List.flatMap_cons]
        simp [List.append_assoc]
      rw [hpre2, hdata2]
      exact ih _ w hw (fun r hr => hrows r (List.mem_cons_of_mem row hr))
        (fun r hr => hBD r (List.mem_cons_of_mem row hr))
        (by simp only [List.length_append, List.length_map, hrw,
          List.length_replicate, hpad, pad_to_align]; omega)
    · rw [read_8_uncompressed_loop, dif_neg hmore]
      have hrest0 : restB.length = 0 := by omega
      have hrest : rest = [] := by
        by_contra hne
        match rest, hne with
        | r0 :: rest2, _ =>
          have h0 : r0.length = w := hrows r0 (by simp)
          have : restB.length ≥ w := by
            rw [hrestB, List.flatMap_cons]
            simp only [List.length_append, List.length_map, h0,
              List.length_replicate]
            omega
          omega
      rw [hrest]
      rfl

theorem write8_eq (pal : List BitmapPixel) (w : ℕ) :
    ∀ (h : ℕ) (px : List BitmapPixel),
    write_8_uncompressed_rows px pal w (pad_to_align w 4) h =
      (chunksOf w h px).flatMap (fun row =>
        row.map (fun p => p.find_closest_by_index pal % 256) ++
        List.replicate (pad_to_align w 4) 0) := by
  intro h
  induction h with
  | zero => intro px; rfl
  | succ h ih =>
    intro px
    rw [write_8_uncompressed_rows, chunksOf, List.flatMap_cons, ih]

theorem rt8 (px pal : List BitmapPixel) (w h : ℕ) (hw : 0 < w)
    (hlen : px.length = w * h) (hne : pal ≠ []) (hsize : pal.length ≤ 256)
    (halpha : ∀ q ∈ pal, q.alpha = 0xff)
    (hpresent : ∀ p ∈ px, ∃ q ∈ pal,
      q.red = p.red ∧ q.green = p.green ∧ q.blue = p.blue) :
    read_8_uncompressed (write_8_uncompressed px pal w h) w pal =
      px.map forceAlpha := by
  rw [read_8_uncompressed, write_8_uncompressed, write8_eq]
  have hmain := read8_rows pal (fun p => p.find_closest_by_index pal % 256)
    forceAlpha (chunksOf w h px) [] w hw (chunksOf_mem_length w h px hlen)
    ?_ (by simp)
  · simpa [chunksOf_flatten w h px hlen] using hmain
  · intro row hrow p hp
    have hpx : p ∈ px := chunksOf_mem_mem w h px row hrow p hp
    have hbound : p.find_closest_by_index pal < pal.length :=
      (find_closest_props p pal hne).1
    have hmod : p.find_closest_by_index pal % 256 =
        p.find_closest_by_index pal := Nat.mod_eq_of_lt (by omega)
    obtain ⟨q, hq, hqc⟩ := hpresent p hpx
    obtain ⟨h1, h2, h3⟩ := find_closest_exact p pal hne q hq hqc
    have hmem : pal.getD (p.find_closest_by_index pal) zeroPixel ∈ pal := by
      rw [List.getD_eq_getElem?_getD, List.getElem?_eq_getElem hbound]
      simpa using List.getElem_mem hbound
    have ha := halpha _ hmem
    simp only [hmod]
    exact pixel_ext _ _ (by rw [h3]; rfl) (by rw [h2]; rfl)
      (by rw [h1]; rfl) (by rw [ha]; rfl)

/-!  ### C1: 4-bit indexed round trip -/

theorem palette_exact_lookup (p : BitmapPixel) (pal : List BitmapPixel)
    (hne : pal ≠ []) (halpha : ∀ q ∈ pal, q.alpha = 0xff)
    (hpresent : ∃ q ∈ pal,
      q.red = p.red ∧ q.green = p.green ∧ q.blue = p.blue) :
    pal.getD (p.find_closest_by_index pal) zeroPixel = forceAlpha p := by
  have hbound : p.find_closest_by_index pal < pal.length :=
    (find_closest_props p pal hne).1
  obtain ⟨q, hq, hqc⟩ := hpresent
  obtain ⟨h1, h2, h3⟩ := find_closest_exact p pal hne q hq hqc
  have hmem : pal.getD (p.find_closest_by_index pal) zeroPixel ∈ pal := by
    rw [List.getD_eq_getElem?_getD, List.getElem?_eq_getElem hbound]
    simpa using List.getElem_mem hbound
  have ha := halpha _ hmem
  exact pixel_ext _ _ (by rw [h3]; rfl) (by rw [h2]; rfl)
    (by rw [h1]; rfl) (by rw [ha]; rfl)

theorem nibble_high (i0 : ℕ) (h0 : i0 < 16) :
    ((i0 <<< 4) % 256) >>> 4 = i0 := by
  rw [Nat.shiftLeft_eq, Nat.shiftRight_eq_div_pow]
  norm_num
  omega

theorem nibble_pack (i0 i1 : ℕ) (h0 : i0 < 16) (h1 : i1 < 16) :
    (((i0 <<< 4) % 256) ||| (i1 &&& 0x0f)) = 16 * i0 + i1 := by
  have e3 : i1 &&& 0x0f = i1 := by
    have h := Nat.and_pow_two_sub_one_eq_mod i1 4
    norm_num at h
    rw [h]
    exact Nat.mod_eq_of_lt h1
  rw [Nat.shiftLeft_eq, e3]
  norm_num
  rw [Nat.mod_eq_of_lt (by omega)]
  have h := Nat.mul_add_lt_is_or (show i1 < 2 ^ 4 from by omega) i0
  norm_num at h
  rw [Nat.mul_comm i0 16]
  exact h.symm

theorem nibble_fst (i0 i1 : ℕ) (h0 : i0 < 16) (h1 : i1 < 16) :
    (((i0 <<< 4) % 256) ||| (i1 &&& 0x0f)) >>> 4 = i0 := by
  rw [nibble_pack i0 i1 h0 h1, Nat.shiftRight_eq_div_pow]
  norm_num
  omega

theorem nibble_snd (i0 i1 : ℕ) (h0 : i0 < 16) (h1 : i1 < 16) :
    (((i0 <<< 4) % 256) ||| (i1 &&& 0x0f)) &&& 0x0f = i1 := by
  rw [nibble_pack i0 i1 h0 h1]
  have h := Nat.and_pow_two_sub_one_eq_mod (16 * i0 + i1) 4
  norm_num at h
  rw [h]
  omega

theorem write_4_pairs_length (pal : List BitmapPixel) :
    ∀ (count : ℕ) (px : List BitmapPixel),
    (write_4_pairs px pal count).length = count := by
  intro count
  induction count with
  | zero => intro px; rfl
  | succ count ih =>
    intro px
    rw [write_4_pairs]
    simp [ih]

theorem read4_boundary (data : List ℕ) (pal : List BitmapPixel) (idx w : ℕ)
    (hw : 0 < w) (h : idx < data.length) :
    read_4_uncompressed_loop data idx w w pal =
      read_4_uncompressed_loop data (align4 idx) 0 w pal := by
  rw [read_4_uncompressed_loop, dif_pos h]
  simp only [le_refl, if_true]
  by_cases h2 : align4 idx < data.length
  · rw [if_pos h2]
    conv_rhs => rw [read_4_uncompressed_loop, dif_pos h2]
    simp only [if_neg (by omega : ¬ (w ≤ 0))]
    rw [if_pos h2]
  · rw [if_neg h2]
    conv_rhs => rw [read_4_uncompressed_loop, dif_neg h2]

theorem read4_row_aux (pal : List BitmapPixel) :
    ∀ (n : ℕ) (row : List BitmapPixel) (pre suf : List ℕ) (col w : ℕ),
    row.length ≤ n →
    col + row.length = w →
    (∀ p ∈ row, p.find_closest_by_index pal < 16 ∧
      pal.getD (p.find_closest_by_index pal) zeroPixel = forceAlpha p) →
    read_4_uncompressed_loop (pre ++ write4_row_bytes row pal row.length ++ suf)
      pre.length col w pal =
      row.map forceAlpha ++
      read_4_uncompressed_loop (pre ++ write4_row_bytes row pal row.length ++ suf)
        (pre.length + (row.length + 1) / 2) w w pal := by
  intro n
  induction n with
  | zero =>
    intro row pre suf col w hn hcol hfc
    have hrow : row = [] := List.length_eq_zero.mp (by omega)
    subst hrow
    have hcw : col = w := by simpa using hcol
    rw [hcw]
    simp only [List.length_nil]
    rw [show write4_row_bytes [] pal 0 = [] from rfl]
    simp
  | succ n ih =>
    intro row pre suf col w hn hcol hfc
    rcases row with _ | ⟨p0, rest⟩
    · have hcw : col = w := by simpa using hcol
      rw [hcw]
      simp only [List.length_nil]
      rw [show write4_row_bytes [] pal 0 = [] from rfl]
      simp
    rcases rest with _ | ⟨p1, rest2⟩
    · obtain ⟨h016, h0get⟩ := hfc p0 (by simp)
      have hmod0 : p0.find_closest_by_index pal % 256 =
          p0.find_closest_by_index pal := Nat.mod_eq_of_lt (by omega)
      have hb : write4_row_bytes [p0] pal ([p0] : List BitmapPixel).length =
          [(((p0.find_closest_by_index pal % 256) <<< 4) % 256)] := by
        simp [write4_row_bytes, write_4_pairs]
      rw [hb]
      have hlt : pre.length <
          (pre ++ [(((p0.find_closest_by_index pal % 256) <<< 4) % 256)] ++
            suf).length := by simp
      rw [read_4_uncompressed_loop, dif_pos hlt]
      have hcolw : col + 1 = w := by simpa using hcol
      simp only [if_neg (show ¬ (w ≤ col) from by omega)]
      rw [if_pos hlt]
      have hbyte := byteAt_inner pre
        [(((p0.find_closest_by_index pal % 256) <<< 4) % 256)] suf 0 (by simp)
      simp only [Nat.add_zero] at hbyte
      rw [hbyte]
      rw [show byteAt [(((p0.find_closest_by_index pal % 256) <<< 4) % 256)] 0 =
        (((p0.find_closest_by_index pal % 256) <<< 4) % 256) from rfl]
      rw [if_neg (show ¬ (col + 1 < w) from by omega)]
      have hhigh : (((p0.find_closest_by_index pal % 256) <<< 4) % 256) >>> 4 =
          p0.find_closest_by_index pal := by
        rw [nibble_high _ (by omega)]
        exact hmod0
      rw [hhigh, h0get, hcolw]
      simp

    · obtain ⟨h016, h0get⟩ := hfc p0 (by simp)
      obtain ⟨h116, h1get⟩ := hfc p1 (by simp)
      have hmod0 : p0.find_closest_by_index pal % 256 =
          p0.find_closest_by_index pal := Nat.mod_eq_of_lt (by omega)
      have hmod1 : p1.find_closest_by_index pal % 256 =
          p1.find_closest_by_index pal := Nat.mod_eq_of_lt (by omega)
      have hbytes : write4_row_bytes (p0 :: p1 :: rest2) pal
          (p0 :: p1 :: rest2 : List BitmapPixel).length =
          (((((p0.find_closest_by_index pal % 256) <<< 4) % 256) |||
            ((p1.find_closest_by_index pal % 256) &&& 0x0f)) ::
            write4_row_bytes rest2 pal rest2.length) := by
        rw [write4_row_bytes, write4_row_bytes]
        simp only [List.length_cons]
        rw [show rest2.length + 1 + 1 = rest2.length + 2 from rfl]
        rw [Nat.add_div_right _ (by omega : (0 : ℕ) < 2)]
        rw [write_4_pairs]
        simp only [List.getD_cons_zero, List.getD_cons_succ, List.drop_succ_cons,
          List.drop_zero]
        rw [List.cons_append]
        congr 2
        by_cases hodd : rest2.length / 2 * 2 < rest2.length
        · rw [if_pos (by omega), if_pos hodd]
          rw [show (rest2.length / 2 + 1) * 2 = rest2.length / 2 * 2 + 2 from
            by ring]
          simp only [List.getD_cons_succ]
        · rw [if_neg (by omega), if_neg hodd]
      rw [hbytes]
      have hlt : pre.length <
          (pre ++ ((((((p0.find_closest_by_index pal % 256) <<< 4) % 256) |||
            ((p1.find_closest_by_index pal % 256) &&& 0x0f)) ::
            write4_row_bytes rest2 pal rest2.length)) ++ suf).length := by simp
      rw [read_4_uncompressed_loop, dif_pos hlt]
      have hcol2 : col + (rest2.length + 2) = w := by simpa using hcol
      simp only [if_neg (show ¬ (w ≤ col) from by omega)]
      rw [if_pos hlt]
      have hbyte := byteAt_inner pre
        (((((p0.find_closest_by_index pal % 256) <<< 4) % 256) |||
          ((p1.find_closest_by_index pal % 256) &&& 0x0f)) ::
          write4_row_bytes rest2 pal rest2.length) suf 0 (by simp)
      simp only [Nat.add_zero] at hbyte
      rw [hbyte]
      rw [show byteAt (((((p0.find_closest_by_index pal % 256) <<< 4) % 256) |||
          ((p1.find_closest_by_index pal % 256) &&& 0x0f)) ::
          write4_row_bytes rest2 pal rest2.length) 0 =
        ((((p0.find_closest_by_index pal % 256) <<< 4) % 256) |||
          ((p1.find_closest_by_index pal % 256) &&& 0x0f)) from rfl]
      rw [if_pos (show col + 1 < w from by omega)]
      have hfst : ((((p0.find_closest_by_index pal % 256) <<< 4) % 256) |||
          ((p1.find_closest_by_index pal % 256) &&& 0x0f)) >>> 4 =
          p0.find_closest_by_index pal := by
        rw [nibble_fst _ _ (by omega) (by omega)]
        exact hmod0
      have hsnd : ((((p0.find_closest_by_index pal % 256) <<< 4) % 256) |||
          ((p1.find_closest_by_index pal % 256) &&& 0x0f)) &&& 0x0f =
          p1.find_closest_by_index pal := by
        rw [nibble_snd _ _ (by omega) (by omega)]
        exact hmod1
      rw [hfst, hsnd, h0get, h1get]
      have hdata : pre ++ ((((((p0.find_closest_by_index pal % 256) <<< 4) % 256) |||
          ((p1.find_closest_by_index pal % 256) &&& 0x0f)) ::
          write4_row_bytes rest2 pal rest2.length)) ++ suf =
          (pre ++ [((((p0.find_closest_by_index pal % 256) <<< 4) % 256) |||
            ((p1.find_closest_by_index pal % 256) &&& 0x0f))]) ++
            write4_row_bytes rest2 pal rest2.length ++ suf := by
        simp
      have hpre1 : pre.length + 1 =
          (pre ++ [((((p0.find_closest_by_index pal % 256) <<< 4) % 256) |||
            ((p1.find_closest_by_index pal % 256) &&& 0x0f))]).length := by
        simp
      have ihx := ih rest2
        (pre ++ [((((p0.find_closest_by_index pal % 256) <<< 4) % 256) |||
          ((p1.find_closest_by_index pal % 256) &&& 0x0f))]) suf (col + 2) w
        (by simp at hn; omega) (by omega)
        (fun q hq => hfc q (List.mem_cons_of_mem p0 (List.mem_cons_of_mem p1 hq)))
      rw [hdata, hpre1, ihx]
      rw [show pre.length + ((p0 :: p1 :: rest2 : List BitmapPixel).length + 1) / 2 =
          (pre ++ [((((p0.find_closest_by_index pal % 256) <<< 4) % 256) |||
            ((p1.find_closest_by_index pal % 256) &&& 0x0f))]).length +
            (rest2.length + 1) / 2 from by
        simp only [List.length_cons, List.length_append, List.length_nil]
        omega]
      simp

theorem write4_row_bytes_length (pal : List BitmapPixel) (row : List BitmapPixel)
    (w : ℕ) : (write4_row_bytes row pal w).length = (w + 1) / 2 := by
  rw [write4_row_bytes]
  by_cases hodd : w / 2 * 2 < w
  · rw [if_pos hodd]
    simp [write_4_pairs_length]
    omega
  · rw [if_neg hodd]
    simp [write_4_pairs_length]
    omega

theorem read4_rows (pal : List BitmapPixel) :
    ∀ (rows : List (List BitmapPixel)) (pre : List ℕ) (w : ℕ), 0 < w →
    (∀ row ∈ rows, row.length = w) →
    (∀ row ∈ rows, ∀ p ∈ row, p.find_closest_by_index pal < 16 ∧
      pal.getD (p.find_closest_by_index pal) zeroPixel = forceAlpha p) →
    pre.length % 4 = 0 →
    read_4_uncompressed_loop
      (pre ++ rows.flatMap (fun row =>
        write4_row_bytes row pal w ++
        List.replicate (pad_to_align ((w + 1) / 2) 4) 0))
      pre.length 0 w pal =
      rows.flatten.map forceAlpha := by
  intro rows
  induction rows with
  | nil =>
    intro pre w hw hrows hfc hpre
    rw [List.flatMap_nil, List.append_nil, read_4_uncompressed_loop,
      dif_neg (by omega)]
    rfl
  | cons row rest ih =>
    intro pre w hw hrows hfc hpre
    have hrw : row.length = w := hrows row (List.mem_cons_self row rest)
    have hdata : pre ++ (row :: rest).flatMap (fun row =>
        write4_row_bytes row pal w ++
        List.replicate (pad_to_align ((w + 1) / 2) 4) 0) =
        pre ++ write4_row_bytes row pal w ++
          (List.replicate (pad_to_align ((w + 1) / 2) 4) 0 ++
            rest.flatMap (fun row =>
              write4_row_bytes row pal w ++
              List.replicate (pad_to_align ((w + 1) / 2) 4) 0)) := by
      rw [List.flatMap_cons]
      simp [List.append_assoc]
    rw [hdata]
    have haux := read4_row_aux pal row.length row pre
      (List.replicate (pad_to_align ((w + 1) / 2) 4) 0 ++
        rest.flatMap (fun row =>
          write4_row_bytes row pal w ++
          List.replicate (pad_to_align ((w + 1) / 2) 4) 0)) 0 w
      (le_refl _) (by omega) (hfc row (List.mem_cons_self row rest))
    rw [hrw] at haux
    rw [haux]
    rw [← hdata]
    simp only [List.flatten_cons, List.map_append]
    congr 1
    set pad := pad_to_align ((w + 1) / 2) 4 with hpad
    set restB := rest.flatMap (fun row =>
      write4_row_bytes row pal w ++ List.replicate pad 0) with hrestB
    have hlen : (pre ++ (row :: rest).flatMap (fun row =>
        write4_row_bytes row pal w ++ List.replicate pad 0)).length =
        pre.length + (w + 1) / 2 + pad + restB.length := by
      rw [hdata]
      simp only [List.length_append, write4_row_bytes_length,
        List.length_replicate]
      ring
    by_cases hmore : pre.length + (w + 1) / 2 <
        (pre ++ (row :: rest).flatMap (fun row =>
          write4_row_bytes row pal w ++ List.replicate pad 0)).length
    · rw [read4_boundary _ _ _ _ hw hmore]
      have halign : align4 (pre.length + (w + 1) / 2) =
          pre.length + (w + 1) / 2 + pad := by
        simp only [align4, pad_to_align, hpad]
        omega
      rw [halign]
      have hpre2 : pre.length + (w + 1) / 2 + pad =
          (pre ++ write4_row_bytes row pal w ++ List.replicate pad 0).length := by
        simp only [List.length_append, write4_row_bytes_length,
          List.length_replicate]
      have hdata2 : pre ++ (row :: rest).flatMap (fun row =>
          write4_row_bytes row pal w ++ List.replicate pad 0) =
          (pre ++ write4_row_bytes row pal w ++ List.replicate pad 0) ++ restB := by
        rw [List.flatMap_cons]
        simp [List.append_assoc]
      rw [hpre2, hdata2]
      exact ih _ w hw (fun r hr => hrows r (List.mem_cons_of_mem row hr))
        (fun r hr => hfc r (List.mem_cons_of_mem row hr))
        (by simp only [List.length_append, write4_row_bytes_length,
          List.length_replicate, hpad, pad_to_align]; omega)
    · rw [read_4_uncompressed_loop, dif_neg hmore]
      have hrest0 : restB.length = 0 := by omega
      have hrest : rest = [] := by
        by_contra hne
        match rest, hne with
        | r0 :: rest2, _ =>
          have : restB.length ≥ (w + 1) / 2 := by
            rw [hrestB, List.flatMap_cons]
            simp only [List.length_append, write4_row_bytes_length,
              List.length_replicate]
            omega
          omega
      rw [hrest]
      rfl

theorem write4_eq (pal : List BitmapPixel) (w : ℕ) :
    ∀ (h : ℕ) (px : List BitmapPixel),
    write_4_uncompressed_rows px pal w (pad_to_align ((w + 1) / 2) 4) h =
      (chunksOf w h px).flatMap (fun row =>
        write4_row_bytes row pal w ++
        List.replicate (pad_to_align ((w + 1) / 2) 4) 0) := by
  intro h
  induction h with
  | zero => intro px; rfl
  | succ h ih =>
    intro px
    rw [write_4_uncompressed_rows, chunksOf, List.flatMap_cons, ih]
    rfl

theorem rt4 (px pal : List BitmapPixel) (w h : ℕ) (hw : 0 < w)
    (hlen : px.length = w * h) (hne : pal ≠ []) (hsize : pal.length ≤ 16)
    (halpha : ∀ q ∈ pal, q.alpha = 0xff)
    (hpresent : ∀ p ∈ px, ∃ q ∈ pal,
      q.red = p.red ∧ q.green = p.green ∧ q.blue = p.blue) :
    read_4_uncompressed (write_4_uncompressed px pal w h) w pal =
      px.map forceAlpha := by
  rw [read_4_uncompressed, write_4_uncompressed, write4_eq]
  have hmain := read4_rows pal (chunksOf w h px) [] w hw
    (chunksOf_mem_length w h px hlen) ?_ (by simp)
  · simpa [chunksOf_flatten w h px hlen] using hmain
  · intro row hrow p hp
    have hpx : p ∈ px := chunksOf_mem_mem w h px row hrow p hp
    have hbound : p.find_closest_by_index pal < pal.length :=
      (find_closest_props p pal hne).1
    exact ⟨by omega, palette_exact_lookup p pal hne halpha (hpresent p hpx)⟩

/-!  ### C1: 1-bit indexed round trip -/

theorem and_two_pow_eq_zero_iff (x m : ℕ) :
    x &&& 2 ^ m = 0 ↔ x.testBit m = false := by
  rw [Nat.and_two_pow]
  have hpos := Nat.two_pow_pos m
  constructor
  · intro h
    rcases Bool.eq_false_or_eq_true (x.testBit m) with h1 | h1
    · rw [h1] at h
      simp only [Bool.toNat_true, one_mul] at h
      exact absurd h (by positivity)
    · exact h1
  · intro h
    rw [h]
    simp

theorem testBit_m_or (hi c b m : ℕ) (hhi : hi.testBit m = false)
    (hb : b < 2 ^ m) :
    (hi ||| (c ||| b)).testBit m = c.testBit m := by
  rw [Nat.testBit_or, Nat.testBit_or, hhi, Nat.testBit_lt_two_pow hb]
  simp

theorem bits_roundtrip (pal : List BitmapPixel) :
    ∀ (ps : List BitmapPixel) (m hi : ℕ),
    ps.length ≤ m + 1 →
    (∀ j, j ≤ m → hi.testBit j = false) →
    byte_from_pixels_loop pal ps (2 ^ m) < 2 ^ (m + 1) ∧
    append_pixels_from_byte_loop pal
      (hi ||| byte_from_pixels_loop pal ps (2 ^ m)) (2 ^ m) ps.length =
      ps.map (fun p => if p.find_closest_by_index pal ≠ 0 then
        pal.getD 1 zeroPixel else pal.getD 0 zeroPixel) := by
  intro ps
  induction ps with
  | nil =>
    intro m hi hlen hhi
    refine ⟨?_, rfl⟩
    rw [show byte_from_pixels_loop pal [] (2 ^ m) = 0 from rfl]
    exact Nat.two_pow_pos (m + 1)
  | cons p rest ih =>
    intro m hi hlen hhi
    have hb : byte_from_pixels_loop pal (p :: rest) (2 ^ m) =
        (if p.find_closest_by_index pal ≠ 0 then 2 ^ m else 0) |||
          byte_from_pixels_loop pal rest (2 ^ m >>> 1) := rfl
    cases m with
    | zero =>
      have hrest : rest = [] := by
        simp only [List.length_cons] at hlen
        exact List.length_eq_zero.mp (by omega)
      subst hrest
      have hc : byte_from_pixels_loop pal [p] (2 ^ 0) =
          (if p.find_closest_by_index pal ≠ 0 then 2 ^ 0 else 0) := by
        rw [hb]
        rw [show byte_from_pixels_loop pal [] (2 ^ 0 >>> 1) = 0 from rfl]
        exact Nat.or_zero _
      constructor
      · rw [hc]
        by_cases hfc : p.find_closest_by_index pal ≠ 0
        · rw [if_pos hfc]
          norm_num
        · rw [if_neg hfc]
          positivity
      · rw [hc]
        rw [show ([p] : List BitmapPixel).length = 0 + 1 from rfl]
        rw [append_pixels_from_byte_loop]
        rw [show (append_pixels_from_byte_loop pal
          (hi ||| if p.find_closest_by_index pal ≠ 0 then 2 ^ 0 else 0)
          (2 ^ 0 >>> 1) 0 : List BitmapPixel) = [] from rfl]
        rw [List.map_cons, List.map_nil]
        by_cases hfc : p.find_closest_by_index pal ≠ 0
        · simp only [if_pos hfc]
          have htb : (hi ||| (2 ^ 0 : ℕ)).testBit 0 = true := by
            rw [Nat.testBit_or, hhi 0 (le_refl 0)]
            simp [Nat.testBit_two_pow_self]
          rw [if_neg (by rw [and_two_pow_eq_zero_iff, htb]; simp)]
        · simp only [if_neg hfc, Nat.or_zero]
          have htb : hi.testBit 0 = false := hhi 0 (le_refl 0)
          rw [if_pos (by rw [and_two_pow_eq_zero_iff]; exact htb)]
    | succ m' =>
      have hshift : (2 : ℕ) ^ (m' + 1) >>> 1 = 2 ^ m' := by
        rw [Nat.shiftRight_one, pow_succ]
        omega
      have hhi2 : ∀ j, j ≤ m' →
          (hi ||| (if p.find_closest_by_index pal ≠ 0 then
            2 ^ (m' + 1) else 0)).testBit j = false := by
        intro j hj
        rw [Nat.testBit_or, hhi j (by omega)]
        by_cases hfc : p.find_closest_by_index pal ≠ 0
        · rw [if_pos hfc, Nat.testBit_two_pow_of_ne (by omega)]
          rfl
        · rw [if_neg hfc]
          simp [Nat.zero_testBit]
      obtain ⟨ihbound, ihdec⟩ := ih m'
        (hi ||| (if p.find_closest_by_index pal ≠ 0 then 2 ^ (m' + 1) else 0))
        (by simp only [List.length_cons] at hlen; omega) hhi2
      constructor
      · rw [hb, hshift]
        refine Nat.or_lt_two_pow ?_ ?_
        · by_cases hfc : p.find_closest_by_index pal ≠ 0
          · rw [if_pos hfc]
            exact Nat.pow_lt_pow_right (by norm_num) (by omega)
          · rw [if_neg hfc]
            positivity
        · calc byte_from_pixels_loop pal rest (2 ^ m') < 2 ^ (m' + 1) := ihbound
            _ ≤ 2 ^ (m' + 1 + 1) := Nat.pow_le_pow_right (by norm_num) (by omega)
      · rw [hb, hshift]
        simp only [List.length_cons]
        rw [append_pixels_from_byte_loop, hshift]
        rw [List.map_cons]
        by_cases hfc : p.find_closest_by_index pal ≠ 0
        · simp only [if_pos hfc] at ihdec ⊢
          have htb : (hi ||| ((2 : ℕ) ^ (m' + 1) |||
              byte_from_pixels_loop pal rest (2 ^ m'))).testBit (m' + 1) =
              true := by
            rw [testBit_m_or hi _ _ (m' + 1) (hhi (m' + 1) (le_refl _)) ihbound]
            simp [Nat.testBit_two_pow_self]
          rw [if_neg (by rw [and_two_pow_eq_zero_iff, htb]; simp)]
          rw [show hi ||| ((2 : ℕ) ^ (m' + 1) |||
              byte_from_pixels_loop pal rest (2 ^ m')) =
            (hi ||| 2 ^ (m' + 1)) ||| byte_from_pixels_loop pal rest (2 ^ m')
            from (Nat.lor_assoc _ _ _).symm]
          rw [ihdec]
        · simp only [if_neg hfc, Nat.or_zero] at ihdec ⊢
          have htb : (hi ||| ((0 : ℕ) |||
              byte_from_pixels_loop pal rest (2 ^ m'))).testBit (m' + 1) =
              false := by
            rw [testBit_m_or hi _ _ (m' + 1) (hhi (m' + 1) (le_refl _)) ihbound]
            exact Nat.zero_testBit _
          rw [if_pos (by rw [and_two_pow_eq_zero_iff]; exact htb)]
          rw [show hi ||| ((0 : ℕ) |||
              byte_from_pixels_loop pal rest (2 ^ m')) =
            hi ||| byte_from_pixels_loop pal rest (2 ^ m') from by
            rw [Nat.zero_or]]
          rw [ihdec]

theorem byte_roundtrip (pal : List BitmapPixel) (ps : List BitmapPixel)
    (hlen : ps.length ≤ 8) :
    byte_from_pixels pal ps < 256 ∧
    append_pixels_from_byte pal (byte_from_pixels pal ps) ps.length =
      ps.map (fun p => if p.find_closest_by_index pal ≠ 0 then
        pal.getD 1 zeroPixel else pal.getD 0 zeroPixel) := by
  have h := bits_roundtrip pal ps 7 0 (by omega)
    (fun j _ => Nat.zero_testBit j)
  rw [byte_from_pixels, append_pixels_from_byte,
    show (0x80 : ℕ) = 2 ^ 7 from rfl]
  obtain ⟨h1, h2⟩ := h
  rw [Nat.zero_or] at h2
  exact ⟨by omega, h2⟩

theorem write_1_blocks_length (pal : List BitmapPixel) :
    ∀ (count : ℕ) (ps : List BitmapPixel),
    (write_1_blocks ps pal count).length = count := by
  intro count
  induction count with
  | zero => intro ps; rfl
  | succ count ih =>
    intro ps
    rw [write_1_blocks]
    simp [ih]

theorem read1_blocks_rt (pal : List BitmapPixel) :
    ∀ (count : ℕ) (ps : List BitmapPixel) (pre suf : List ℕ),
    8 * count ≤ ps.length →
    read_1_blocks (pre ++ write_1_blocks ps pal count ++ suf) pal
      pre.length count =
      (ps.take (8 * count)).map (fun p =>
        if p.find_closest_by_index pal ≠ 0 then
          pal.getD 1 zeroPixel else pal.getD 0 zeroPixel) := by
  intro count
  induction count with
  | zero => intro ps pre suf hlen; rfl
  | succ count ih =>
    intro ps pre suf hlen
    have hbytes : write_1_blocks ps pal (count + 1) =
        byte_from_pixels pal (ps.take 8) ::
          write_1_blocks (ps.drop 8) pal count := rfl
    rw [hbytes, read_1_blocks]
    have hbyte := byteAt_inner pre
      (byte_from_pixels pal (ps.take 8) :: write_1_blocks (ps.drop 8) pal count)
      suf 0 (by simp)
    simp only [Nat.add_zero] at hbyte
    rw [hbyte]
    rw [show byteAt (byte_from_pixels pal (ps.take 8) ::
        write_1_blocks (ps.drop 8) pal count) 0 =
      byte_from_pixels pal (ps.take 8) from rfl]
    have h8 : (ps.take 8).length = 8 := by
      simp only [List.length_take]
      omega
    have hbr := (byte_roundtrip pal (ps.take 8) (by omega)).2
    rw [h8] at hbr
    rw [show append_pixels_from_byte pal (byte_from_pixels pal (ps.take 8)) 8 =
      (ps.take 8).map (fun p => if p.find_closest_by_index pal ≠ 0 then
        pal.getD 1 zeroPixel else pal.getD 0 zeroPixel) from hbr]
    have hdata : pre ++ (byte_from_pixels pal (ps.take 8) ::
        write_1_blocks (ps.drop 8) pal count) ++ suf =
        (pre ++ [byte_from_pixels pal (ps.take 8)]) ++
          write_1_blocks (ps.drop 8) pal count ++ suf := by
      simp
    have hpre1 : pre.length + 1 =
        (pre ++ [byte_from_pixels pal (ps.take 8)]).length := by
      simp
    rw [hdata, hpre1]
    rw [ih (ps.drop 8) (pre ++ [byte_from_pixels pal (ps.take 8)]) suf
      (by simp; omega)]
    rw [show 8 * (count + 1) = 8 + 8 * count from by ring, List.take_add,
      List.map_append]

theorem read1_rows_rt (pal : List BitmapPixel) (w : ℕ) (hw : 0 < w) :
    ∀ (rows : List (List BitmapPixel)) (pre : List ℕ),
    (∀ row ∈ rows, row.length = w) →
    pre.length % 4 = 0 →
    read_1_rows (pre ++ rows.flatMap (fun row =>
        write1_row_bytes row pal w ++
        List.replicate (pad_to_align ((w + pad_to_align w 8) / 8) 4) 0))
      pal w pre.length rows.length =
      rows.flatten.map (fun p => if p.find_closest_by_index pal ≠ 0 then
        pal.getD 1 zeroPixel else pal.getD 0 zeroPixel) := by
  intro rows
  induction rows with
  | nil => intro pre hrows hpre; rfl
  | cons row rest ih =>
    intro pre hrows hpre
    have hrw : row.length = w := hrows row (List.mem_cons_self row rest)
    simp only [List.length_cons, List.flatten_cons, List.map_append]
    rw [read_1_rows]
    by_cases hrem : w % 8 = 0
    · have hbytesR : write1_row_bytes row pal w =
          write_1_blocks row pal (w / 8) := by
        rw [write1_row_bytes, if_neg (by omega), List.append_nil]
      have hdata1 : pre ++ (row :: rest).flatMap (fun row =>
          write1_row_bytes row pal w ++
          List.replicate (pad_to_align ((w + pad_to_align w 8) / 8) 4) 0) =
          pre ++ write_1_blocks row pal (w / 8) ++
            (List.replicate (pad_to_align ((w + pad_to_align w 8) / 8) 4) 0 ++
              rest.flatMap (fun row =>
                write1_row_bytes row pal w ++
                List.replicate (pad_to_align ((w + pad_to_align w 8) / 8) 4) 0)) := by
        rw [List.flatMap_cons, hbytesR]
        simp [List.append_assoc]
      rw [hdata1]
      simp only [if_neg (show ¬ 0 < w - w / 8 * 8 from by omega)]
      rw [List.append_nil, Nat.add_zero]
      rw [read1_blocks_rt pal (w / 8) row pre _ (by omega)]
      rw [show (8 : ℕ) * (w / 8) = w from by omega,
        List.take_of_length_le (by omega)]
      have hdata2 : pre ++ write_1_blocks row pal (w / 8) ++
          (List.replicate (pad_to_align ((w + pad_to_align w 8) / 8) 4) 0 ++
            rest.flatMap (fun row =>
              write1_row_bytes row pal w ++
              List.replicate (pad_to_align ((w + pad_to_align w 8) / 8) 4) 0)) =
          (pre ++ write_1_blocks row pal (w / 8) ++
            List.replicate (pad_to_align ((w + pad_to_align w 8) / 8) 4) 0) ++
            rest.flatMap (fun row =>
              write1_row_bytes row pal w ++
              List.replicate (pad_to_align ((w + pad_to_align w 8) / 8) 4) 0) := by
        simp [List.append_assoc]
      have hidx : align4 (pre.length + w / 8) =
          (pre ++ write_1_blocks row pal (w / 8) ++
            List.replicate (pad_to_align ((w + pad_to_align w 8) / 8) 4) 0).length := by
        simp only [List.length_append, write_1_blocks_length,
          List.length_replicate, align4, pad_to_align]
        omega
      rw [hdata2, hidx]
      rw [ih (pre ++ write_1_blocks row pal (w / 8) ++
          List.replicate (pad_to_align ((w + pad_to_align w 8) / 8) 4) 0)
        (fun r hr => hrows r (List.mem_cons_of_mem row hr))
        (by simp only [List.length_append, write_1_blocks_length,
          List.length_replicate, pad_to_align]; omega)]
    · have hbytesR : write1_row_bytes row pal w =
          write_1_blocks row pal (w / 8) ++
            [byte_from_pixels pal
              ((row.drop (w / 8 * 8)).take (w - w / 8 * 8))] := by
        rw [write1_row_bytes, if_pos (by omega)]
      have hdata1 : pre ++ (row :: rest).flatMap (fun row =>
          write1_row_bytes row pal w ++
          List.replicate (pad_to_align ((w + pad_to_align w 8) / 8) 4) 0) =
          pre ++ write_1_blocks row pal (w / 8) ++
            ([byte_from_pixels pal
                ((row.drop (w / 8 * 8)).take (w - w / 8 * 8))] ++
              (List.replicate (pad_to_align ((w + pad_to_align w 8) / 8) 4) 0 ++
                rest.flatMap (fun row =>
                  write1_row_bytes row pal w ++
                  List.replicate (pad_to_align ((w + pad_to_align w 8) / 8) 4) 0))) := by
        rw [List.flatMap_cons, hbytesR]
        simp [List.append_assoc]
      rw [hdata1]
      simp only [if_pos (show 0 < w - w / 8 * 8 from by omega)]
      rw [read1_blocks_rt pal (w / 8) row pre _ (by omega)]
      have hpre2 : pre.length + w / 8 =
          (pre ++ write_1_blocks row pal (w / 8)).length := by
        simp [write_1_blocks_length]
      rw [hpre2]
      have hbyteAt := byteAt_append (pre ++ write_1_blocks row pal (w / 8))
        ([byte_from_pixels pal ((row.drop (w / 8 * 8)).take (w - w / 8 * 8))] ++
          (List.replicate (pad_to_align ((w + pad_to_align w 8) / 8) 4) 0 ++
            rest.flatMap (fun row =>
              write1_row_bytes row pal w ++
              List.replicate (pad_to_align ((w + pad_to_align w 8) / 8) 4) 0))) 0
      simp only [Nat.add_zero] at hbyteAt
      rw [hbyteAt]
      rw [show byteAt
        ([byte_from_pixels pal ((row.drop (w / 8 * 8)).take (w - w / 8 * 8))] ++
          (List.replicate (pad_to_align ((w + pad_to_align w 8) / 8) 4) 0 ++
            rest.flatMap (fun row =>
              write1_row_bytes row pal w ++
              List.replicate (pad_to_align ((w + pad_to_align w 8) / 8) 4) 0))) 0 =
        byte_from_pixels pal ((row.drop (w / 8 * 8)).take (w - w / 8 * 8))
        from rfl]
      have hps : ((row.drop (w / 8 * 8)).take (w - w / 8 * 8)).length =
          w - w / 8 * 8 := by
        simp only [List.length_take, List.length_drop, hrw]
        omega
      have hbr := (byte_roundtrip pal
        ((row.drop (w / 8 * 8)).take (w - w / 8 * 8)) (by omega)).2
      rw [hps] at hbr
      rw [hbr]
      have hdata2 : pre ++ write_1_blocks row pal (w / 8) ++
          ([byte_from_pixels pal
              ((row.drop (w / 8 * 8)).take (w - w / 8 * 8))] ++
            (List.replicate (pad_to_align ((w + pad_to_align w 8) / 8) 4) 0 ++
              rest.flatMap (fun row =>
                write1_row_bytes row pal w ++
                List.replicate (pad_to_align ((w + pad_to_align w 8) / 8) 4) 0))) =
          (pre ++ write_1_blocks row pal (w / 8) ++
            [byte_from_pixels pal
              ((row.drop (w / 8 * 8)).take (w - w / 8 * 8))] ++
            List.replicate (pad_to_align ((w + pad_to_align w 8) / 8) 4) 0) ++
            rest.flatMap (fun row =>
              write1_row_bytes row pal w ++
              List.replicate (pad_to_align ((w + pad_to_align w 8) / 8) 4) 0) := by
        simp [List.append_assoc]
      have hidx : align4 ((pre ++ write_1_blocks row pal (w / 8)).length + 1) =
          (pre ++ write_1_blocks row pal (w / 8) ++
            [byte_from_pixels pal
              ((row.drop (w / 8 * 8)).take (w - w / 8 * 8))] ++
            List.replicate (pad_to_align ((w + pad_to_align w 8) / 8) 4) 0).length := by
        simp only [List.length_append, write_1_blocks_length, List.length_cons,
          List.length_nil, List.length_replicate, align4, pad_to_align]
        omega
      rw [hdata2, hidx]
      rw [ih (pre ++ write_1_blocks row pal (w / 8) ++
          [byte_from_pixels pal ((row.drop (w / 8 * 8)).take (w - w / 8 * 8))] ++
          List.replicate (pad_to_align ((w + pad_to_align w 8) / 8) 4) 0)
        (fun r hr => hrows r (List.mem_cons_of_mem row hr))
        (by simp only [List.length_append, write_1_blocks_length,
          List.length_cons, List.length_nil, List.length_replicate,
          pad_to_align]; omega)]
      rw [show (8 : ℕ) * (w / 8) = w / 8 * 8 from by ring]
      rw [← List.map_append,
        List.take_of_length_le (show ((row.drop (w / 8 * 8)) :
          List BitmapPixel).length ≤ w - w / 8 * 8 from by simp [hrw]),
        List.take_append_drop]

theorem chunksOf_length (w : ℕ) :
    ∀ (h : ℕ) (px : List BitmapPixel), (chunksOf w h px).length = h := by
  intro h
  induction h with
  | zero => intro px; rfl
  | succ h ih =>
    intro px
    rw [chunksOf]
    simp [ih]

theorem write1_eq (pal : List BitmapPixel) (w : ℕ) :
    ∀ (h : ℕ) (px : List BitmapPixel),
    write_1_uncompressed_rows px pal w
      (pad_to_align ((w + pad_to_align w 8) / 8) 4) h =
      (chunksOf w h px).flatMap (fun row =>
        write1_row_bytes row pal w ++
        List.replicate (pad_to_align ((w + pad_to_align w 8) / 8) 4) 0) := by
  intro h
  induction h with
  | zero => intro px; rfl
  | succ h ih =>
    intro px
    rw [write_1_uncompressed_rows, chunksOf, List.flatMap_cons, ih]
    rfl

theorem rt1 (px pal : List BitmapPixel) (w h : ℕ) (hw : 0 < w)
    (hlen : px.length = w * h) (hpal : pal.length = 2)
    (halpha : ∀ q ∈ pal, q.alpha = 0xff)
    (hpresent : ∀ p ∈ px, ∃ q ∈ pal,
      q.red = p.red ∧ q.green = p.green ∧ q.blue = p.blue) :
    read_1_uncompressed (write_1_uncompressed px pal w h) w h pal =
      px.map forceAlpha := by
  have hne : pal ≠ [] := by
    intro hnil
    rw [hnil] at hpal
    simp at hpal
  rw [read_1_uncompressed, write_1_uncompressed, write1_eq]
  have hmain := read1_rows_rt pal w hw (chunksOf w h px) []
    (chunksOf_mem_length w h px hlen) (by simp)
  simp only [List.nil_append, List.length_nil, chunksOf_length,
    chunksOf_flatten w h px hlen] at hmain
  rw [hmain]
  refine List.map_congr_left ?_
  intro p hp
  have hbound : p.find_closest_by_index pal < pal.length :=
    (find_closest_props p pal hne).1
  have hlook := palette_exact_lookup p pal hne halpha (hpresent p hp)
  by_cases hfc : p.find_closest_by_index pal ≠ 0
  · rw [if_pos hfc]
    have h1 : p.find_closest_by_index pal = 1 := by omega
    rw [← h1]
    exact hlook
  · rw [if_neg hfc]
    have h0 : p.find_closest_by_index pal = 0 := by omega
    rw [← h0]
    exact hlook

theorem read_16_uncompressed_loop_eq_fuel :
    ∀ (fuel : ℕ) (data : List ℕ) (idx col w : ℕ),
    data.length ≤ idx + fuel →
    read_16_uncompressed_loop data idx col w =
      read_16_uncompressed_fuel data idx col w fuel := by
  intro fuel
  induction fuel with
  | zero =>
    intro data idx col w hf
    rw [read_16_uncompressed_loop, dif_neg (by omega), read_16_uncompressed_fuel]
  | succ fuel ih =>
    intro data idx col w hf
    rw [read_16_uncompressed_loop, read_16_uncompressed_fuel]
    by_cases h : idx < data.length
    · rw [dif_pos h, if_pos h]
      by_cases h2 : (if col = w then align4 idx else idx) < data.length
      · rw [if_pos h2, if_pos h2]
        rw [ih data _ _ w ?_]
        have halign : idx ≤ (if col = w then align4 idx else idx) := by
          split
          · simp [align4]
          · omega
        omega
      · rw [if_neg h2, if_neg h2]
    · rw [dif_neg h, if_neg h]

/-- Counterexample to C1 as stated: the 16-bit formats quantise each
channel to 5 bits, so the pixel `(1,1,1)` decodes as `(0,0,0)` — the red,
green and blue channels are not reproduced exactly.  The first conjunct is
16-bit BitFields with the usual 5-5-5 masks; the second is 16-bit
Uncompressed (whose encoder is absent from the source tree and modelled
from the spec). -/
theorem c1_roundtrip_counterexample :
    (pixels_into_data [({ blue := 1, green := 1, red := 1, alpha := 0xff } :
        BitmapPixel)]
        (mkC1Header 1 1 16 ctBitFields 0x7c00 0x03e0 0x001f 0) none).bind
      (fun data => interpret_image_data data
        (mkC1Header 1 1 16 ctBitFields 0x7c00 0x03e0 0x001f 0) none) ≠
      some [({ blue := 1, green := 1, red := 1, alpha := 0xff } :
        BitmapPixel)] ∧
    (pixels_into_data [({ blue := 1, green := 1, red := 1, alpha := 0xff } :
        BitmapPixel)]
        (mkC1Header 1 1 16 ctUncompressed 0 0 0 0) none).bind
      (fun data => interpret_image_data data
        (mkC1Header 1 1 16 ctUncompressed 0 0 0 0) none) ≠
      some [({ blue := 1, green := 1, red := 1, alpha := 0xff } :
        BitmapPixel)] := by
  constructor
  · rw [show (pixels_into_data [(⟨1, 1, 1, 0xff⟩ : BitmapPixel)]
        (mkC1Header 1 1 16 ctBitFields 0x7c00 0x03e0 0x001f 0) none).bind
      (fun data => interpret_image_data data
        (mkC1Header 1 1 16 ctBitFields 0x7c00 0x03e0 0x001f 0) none) =
      some (read_16_bitfield
        (write_16_bitfield [(⟨1, 1, 1, 0xff⟩ : BitmapPixel)]
          1 1 0x7c00 0x03e0 0x001f 0)
        1 0x7c00 0x03e0 0x001f 0) from rfl]
    have hoff : (mask_offset_and_shifted 0x7c00).1 = 10 ∧
        (mask_offset_and_shifted 0x7c00).2 = 0x1f ∧
        (mask_offset_and_shifted 0x03e0).1 = 5 ∧
        (mask_offset_and_shifted 0x03e0).2 = 0x1f ∧
        (mask_offset_and_shifted 0x001f).1 = 0 ∧
        (mask_offset_and_shifted 0x001f).2 = 0x1f := by
      rw [mask_offset_fst _ (by decide) (by decide),
        mask_offset_snd _ (by decide) (by decide),
        mask_offset_fst _ (by decide) (by decide),
        mask_offset_snd _ (by decide) (by decide),
        mask_offset_fst _ (by decide) (by decide),
        mask_offset_snd _ (by decide) (by decide)]
      decide
    obtain ⟨ho1, ho2, ho3, ho4, ho5, ho6⟩ := hoff
    have hword : write_16_bitfield_word (⟨1, 1, 1, 0xff⟩ : BitmapPixel)
        10 0x1f 5 0x1f 0 0x1f 0 0 0 = 0 := by decide
    have henc : write_16_bitfield [(⟨1, 1, 1, 0xff⟩ : BitmapPixel)]
        1 1 0x7c00 0x03e0 0x001f 0 = [0, 0, 0, 0] := by
      rw [write_16_bitfield, ho1, ho2, ho3, ho4, ho5, ho6,
        mask_offset_zero_fst, mask_offset_zero_snd]
      norm_num [write_16_bitfield_rows, hword, push_u16, pad_to_align,
        List.replicate]
    rw [henc]
    have hdec : read_16_bitfield [0, 0, 0, 0] 1 0x7c00 0x03e0 0x001f 0 =
        [(⟨0, 0, 0, 0xff⟩ : BitmapPixel)] := by
      rw [read_16_bitfield, ho1, ho2, ho3, ho4, ho5, ho6,
        mask_offset_zero_fst, mask_offset_zero_snd]
      rw [read_16_bitfield_loop_eq_fuel 4 [0, 0, 0, 0] 0 0 1
        10 0x1f 5 0x1f 0 0x1f 0 0 0x7c00 0x03e0 0x001f 0 (by decide)]
      have hmz0 : map_zero_based 0 0x1f 0xff = 0 := by decide
      norm_num [read_16_bitfield_fuel, u16At, byteAt, hmz0, align4,
        pad_to_align]
    rw [hdec]
    decide
  · rw [show (pixels_into_data [(⟨1, 1, 1, 0xff⟩ : BitmapPixel)]
        (mkC1Header 1 1 16 ctUncompressed 0 0 0 0) none).bind
      (fun data => interpret_image_data data
        (mkC1Header 1 1 16 ctUncompressed 0 0 0 0) none) =
      some (read_16_uncompressed
        (write_16_uncompressed [(⟨1, 1, 1, 0xff⟩ : BitmapPixel)] 1 1) 1)
      from rfl]
    have henc : write_16_uncompressed [(⟨1, 1, 1, 0xff⟩ : BitmapPixel)] 1 1 =
        [0, 0, 0, 0] := by decide
    rw [henc]
    rw [read_16_uncompressed,
      read_16_uncompressed_loop_eq_fuel 4 [0, 0, 0, 0] 0 0 1 (by decide)]
    decide

/-- C1, amended.  Round-trip through the encoder/decoder dispatch
(`pixels_into_data` then `interpret_image_data`): for 32-bit BitFields
with the default ARGB masks the full RGBA pixel grid is reproduced
exactly; for 32-bit BitFields with XRGB masks (zero alpha mask), 32-bit
Uncompressed and 24-bit Uncompressed the red, green and blue channels are
reproduced exactly and every decoded alpha is `0xff`; the same holds for
8-, 4- and 1-bit indexed Uncompressed provided the palette is non-empty,
fits the depth (≤ 256, ≤ 16, exactly 2 entries), carries alpha `0xff`,
and contains every pixel's colour.  The 16-bit formats are excluded: the
5-bit quantisation is lossy (`c1_roundtrip_counterexample`), and no
16-bit Uncompressed encoder exists in the source tree. -/
theorem c1_roundtrip_amended (px : List BitmapPixel) (w h : ℕ)
    (pal8 pal4 pal1 : List BitmapPixel)
    (hw : 0 < w) (hlen : px.length = w * h) (hwf : ∀ p ∈ px, p.wf)
    (h8ne : pal8 ≠ []) (h8size : pal8.length ≤ 256)
    (h8alpha : ∀ q ∈ pal8, q.alpha = 0xff)
    (h8present : ∀ p ∈ px, ∃ q ∈ pal8,
      q.red = p.red ∧ q.green = p.green ∧ q.blue = p.blue)
    (h4ne : pal4 ≠ []) (h4size : pal4.length ≤ 16)
    (h4alpha : ∀ q ∈ pal4, q.alpha = 0xff)
    (h4present : ∀ p ∈ px, ∃ q ∈ pal4,
      q.red = p.red ∧ q.green = p.green ∧ q.blue = p.blue)
    (h1size : pal1.length = 2)
    (h1alpha : ∀ q ∈ pal1, q.alpha = 0xff)
    (h1present : ∀ p ∈ px, ∃ q ∈ pal1,
      q.red = p.red ∧ q.green = p.green ∧ q.blue = p.blue) :
    (∀ p : BitmapPixel, (forceAlpha p).red = p.red ∧
      (forceAlpha p).green = p.green ∧ (forceAlpha p).blue = p.blue ∧
      (forceAlpha p).alpha = 0xff) ∧
    (pixels_into_data px (mkC1Header w h 32 ctBitFields
        0xff000000 0x00ff0000 0x0000ff00 0x000000ff) none).bind
      (fun data => interpret_image_data data (mkC1Header w h 32 ctBitFields
        0xff000000 0x00ff0000 0x0000ff00 0x000000ff) none) = some px ∧
    (pixels_into_data px (mkC1Header w h 32 ctBitFields
        0x00ff0000 0x0000ff00 0x000000ff 0) none).bind
      (fun data => interpret_image_data data (mkC1Header w h 32 ctBitFields
        0x00ff0000 0x0000ff00 0x000000ff 0) none) =
      some (px.map forceAlpha) ∧
    (pixels_into_data px (mkC1Header w h 32 ctUncompressed 0 0 0 0) none).bind
      (fun data => interpret_image_data data
        (mkC1Header w h 32 ctUncompressed 0 0 0 0) none) =
      some (px.map forceAlpha) ∧
    (pixels_into_data px (mkC1Header w h 24 ctUncompressed 0 0 0 0) none).bind
      (fun data => interpret_image_data data
        (mkC1Header w h 24 ctUncompressed 0 0 0 0) none) =
      some (px.map forceAlpha) ∧
    (pixels_into_data px (mkC1Header w h 8 ctUncompressed 0 0 0 0)
        (some pal8)).bind
      (fun data => interpret_image_data data
        (mkC1Header w h 8 ctUncompressed 0 0 0 0) (some pal8)) =
      some (px.map forceAlpha) ∧
    (pixels_into_data px (mkC1Header w h 4 ctUncompressed 0 0 0 0)
        (some pal4)).bind
      (fun data => interpret_image_data data
        (mkC1Header w h 4 ctUncompressed 0 0 0 0) (some pal4)) =
      some (px.map forceAlpha) ∧
    (pixels_into_data px (mkC1Header w h 1 ctUncompressed 0 0 0 0)
        (some pal1)).bind
      (fun data => interpret_image_data data
        (mkC1Header w h 1 ctUncompressed 0 0 0 0) (some pal1)) =
      some (px.map forceAlpha) := by
  refine ⟨fun p => ⟨rfl, rfl, rfl, rfl⟩, ?_, ?_, ?_, ?_, ?_, ?_, ?_⟩
  · rw [show (pixels_into_data px (mkC1Header w h 32 ctBitFields
        0xff000000 0x00ff0000 0x0000ff00 0x000000ff) none).bind
      (fun data => interpret_image_data data (mkC1Header w h 32 ctBitFields
        0xff000000 0x00ff0000 0x0000ff00 0x000000ff) none) =
      some (read_32_bitfield (write_32_bitfield px
        0xff000000 0x00ff0000 0x0000ff00 0x000000ff)
        0xff000000 0x00ff0000 0x0000ff00 0x000000ff) from rfl]
    exact congrArg some (rt32_argb px hwf)
  · rw [show (pixels_into_data px (mkC1Header w h 32 ctBitFields
        0x00ff0000 0x0000ff00 0x000000ff 0) none).bind
      (fun data => interpret_image_data data (mkC1Header w h 32 ctBitFields
        0x00ff0000 0x0000ff00 0x000000ff 0) none) =
      some (read_32_bitfield (write_32_bitfield px
        0x00ff0000 0x0000ff00 0x000000ff 0)
        0x00ff0000 0x0000ff00 0x000000ff 0) from rfl]
    exact congrArg some (rt32_xrgb px hwf)
  · rw [show (pixels_into_data px
        (mkC1Header w h 32 ctUncompressed 0 0 0 0) none).bind
      (fun data => interpret_image_data data
        (mkC1Header w h 32 ctUncompressed 0 0 0 0) none) =
      some (read_32_uncompressed (write_32_uncompressed px)) from rfl]
    exact congrArg some (rt32un px)
  · rw [show (pixels_into_data px
        (mkC1Header w h 24 ctUncompressed 0 0 0 0) none).bind
      (fun data => interpret_image_data data
        (mkC1Header w h 24 ctUncompressed 0 0 0 0) none) =
      some (read_24_uncompressed (write_24_uncompressed px w h) w) from rfl]
    exact congrArg some (rt24 px w h hw hlen)
  · rw [show (pixels_into_data px
        (mkC1Header w h 8 ctUncompressed 0 0 0 0) (some pal8)).bind
      (fun data => interpret_image_data data
        (mkC1Header w h 8 ctUncompressed 0 0 0 0) (some pal8)) =
      some (read_8_uncompressed (write_8_uncompressed px pal8 w h) w pal8)
      from rfl]
    exact congrArg some (rt8 px pal8 w h hw hlen h8ne h8size h8alpha h8present)
  · rw [show (pixels_into_data px
        (mkC1Header w h 4 ctUncompressed 0 0 0 0) (some pal4)).bind
      (fun data => interpret_image_data data
        (mkC1Header w h 4 ctUncompressed 0 0 0 0) (some pal4)) =
      some (read_4_uncompressed (write_4_uncompressed px pal4 w h) w pal4)
      from rfl]
    exact congrArg some (rt4 px pal4 w h hw hlen h4ne h4size h4alpha h4present)
  · rw [show (pixels_into_data px
        (mkC1Header w h 1 ctUncompressed 0 0 0 0) (some pal1)).bind
      (fun data => interpret_image_data data
        (mkC1Header w h 1 ctUncompressed 0 0 0 0) (some pal1)) =
      some (read_1_uncompressed (write_1_uncompressed px pal1 w h) w h pal1)
      from rfl]
    exact congrArg some (rt1 px pal1 w h hw hlen h1size h1alpha h1present)

/-- Witness for C1 (amended): a 1x1 grid with pixel `(blue 9, green 5,
red 3)` and a two-entry palette round-trips exactly through the 32-bit
BitFields ARGB path. -/
theorem c1_roundtrip_amended_witness :
    (0 : ℕ) < 1 ∧
    (pixels_into_data [(⟨9, 5, 3, 0xff⟩ : BitmapPixel)]
        (mkC1Header 1 1 32 ctBitFields
          0xff000000 0x00ff0000 0x0000ff00 0x000000ff) none).bind
      (fun data => interpret_image_data data
        (mkC1Header 1 1 32 ctBitFields
          0xff000000 0x00ff0000 0x0000ff00 0x000000ff) none) =
      some [(⟨9, 5, 3, 0xff⟩ : BitmapPixel)] :=
  ⟨by decide,
    (c1_roundtrip_amended [(⟨9, 5, 3, 0xff⟩ : BitmapPixel)] 1 1
      [(⟨9, 5, 3, 0xff⟩ : BitmapPixel), (⟨0, 0, 0, 0xff⟩ : BitmapPixel)]
      [(⟨9, 5, 3, 0xff⟩ : BitmapPixel), (⟨0, 0, 0, 0xff⟩ : BitmapPixel)]
      [(⟨9, 5, 3, 0xff⟩ : BitmapPixel), (⟨0, 0, 0, 0xff⟩ : BitmapPixel)]
      (by decide) (by decide) (by decide) (by decide) (by decide)
      (by decide) (by decide) (by decide) (by decide) (by decide)
      (by decide) (by decide) (by decide) (by decide)).2.1⟩

end BitmapIO
